import Mathlib

/-!
# The BigARTM command-line client (`src/cpp_client/srcmain.cc`)

A shallow embedding of the option parsing helpers, of `configureRegularizer`,
of `ScoreHelper::addScore` and of `execute`, followed by theorems about them.

Conventions of the embedding:

* `std::string` is `String`; the helpers below work on its list of characters.
* `float` and `double` are a type `F` with the operations the client uses on
  them (the literals, `+`, `-`, `/`, `<=`, `==` and the conversion of an int);
  no law is assumed of these operations, so the theorems hold for exact
  arithmetic (the rationals of `sampleLib`) and for `Double`, which has the
  infinities and NaN of IEEE 754. Rounding is not represented. The Normalize
  step, modelled from the specification, is over a linearly ordered field.
* `int` is `Int`, without overflow: signed overflow is undefined behaviour in
  C++, and the counters of a run stay far below `2^31` in practice.
* The functions of Boost and of the C library that the client calls
  (`lexical_cast`, `pow`, the float-to-int conversion) are the fields of `Lib`.
* A function that can throw returns the thrown message as `Option String`
  together with the state it leaves behind (`none`: normal return).
* Requests sent to the master component are recorded as a list of `Call`;
  read-only queries, console output and file output are not recorded.
-/

namespace Bigartm

/-! ## Library functions -/

/-- The library functions the client relies on, over the numeric type `F`. -/
structure Lib (F : Type) where
  /-- The call boost::lexical_cast<float>; `none` stands for bad_lexical_cast. -/
  lexical_cast_float : String → Option F
  /-- The call boost::lexical_cast<double>. -/
  lexical_cast_double : String → Option F
  /-- The call boost::lexical_cast<int>. -/
  lexical_cast_int : String → Option Int
  /-- The call boost::lexical_cast<std::string> on an int. -/
  int_to_string : Int → String
  /-- The conversion of a float to an int. -/
  float_to_int : F → Int
  /-- The function pow of the C library. -/
  pow : F → F → F

/-! ## Strings -/

/-- Cut a list of characters at every separator; `n` separators give `n + 1` fields. -/
def splitChars (sep : Char → Bool) : List Char → List (List Char)
  | [] => [[]]
  | c :: cs =>
    if sep c then [] :: splitChars sep cs
    else
      match splitChars sep cs with
      | [] => [[c]]
      | field :: fields => (c :: field) :: fields

/-- The predicate boost::is_any_of. -/
def is_any_of (chars : String) (c : Char) : Bool := chars.toList.contains c

/-- The call boost::split with the default token_compress_off. -/
def split (sep : Char → Bool) (s : String) : List String :=
  (splitChars sep s.toList).map String.mk

/-- The call boost::to_lower_copy (classic locale). -/
def to_lower_copy (s : String) : String := String.mk (s.toList.map Char.toLower)

/-- The call std::string::find on a character; `none` stands for npos. -/
def find (s : String) (c : Char) : Option Nat :=
  if s.toList.indexOf c < s.toList.length then some (s.toList.indexOf c) else none

/-- The call std::string::substr(pos, count). -/
def substr (s : String) (pos count : Nat) : String := String.mk ((s.toList.drop pos).take count)

/-- The call std::string::substr(pos). -/
def substr_from (s : String) (pos : Nat) : String := String.mk (s.toList.drop pos)

/-! ## Option parsing helpers -/

/-- Source: parseKeyValuePairs<T> (srcmain.cc 115-148). -/
def parseKeyValuePairs {T : Type} [Zero T] (lexical_cast : String → Option T) (input : String) :
    List (String × T) :=
  match lexical_cast input with
  | some single_value => [("", single_value)]
  | none =>
    (split (is_any_of ";,") input).map fun elem =>
      match find elem ':' with
      | none => (elem, 0)
      | some split_index =>
        if split_index = 0 ∨ split_index = elem.length - 1 then (elem, 0)
        else
          match lexical_cast (substr_from elem (split_index + 1)) with
          | some elem_size => (substr elem 0 split_index, elem_size)
          | none => (elem, 0)

/-- Source: parseTopicGroups (srcmain.cc 150-169). -/
def parseTopicGroups {F : Type} (lib : Lib F) (topics : String) : List (String × List String) :=
  (parseKeyValuePairs lib.lexical_cast_int topics).map fun pair =>
    let group : String := if pair.1 = "" then "topic" else pair.1
    let group_size : Int := if pair.2 = 0 then 1 else pair.2
    let group_list : List String :=
      if group_size = 1 then [group]
      else (List.range group_size.toNat).map
        fun (i : Nat) => group ++ "_" ++ lib.int_to_string (i : Int)
    (group, group_list)

/-- Source: parseTopics(topics) (srcmain.cc 171-179). -/
def parseTopics {F : Type} (lib : Lib F) (topics : String) : List String :=
  ((parseTopicGroups lib topics).map fun pair => pair.2).flatten

/-- Source: the overload parseTopics(topics, topic_groups) (srcmain.cc 181-202). -/
def parseTopics2 {F : Type} (lib : Lib F) (topics topic_groups : String) : List String :=
  let pairs := parseTopicGroups lib topic_groups
  ((parseTopics lib topics).map fun topic_name =>
    match pairs.find? (fun pair => pair.1 = topic_name) with
    | some pair => pair.2
    | none => [topic_name]).flatten

/-- Source: parseNumberOrPercent (srcmain.cc 84-113); `none` is the return value false,
`some (value, fraction)` is true with the two output parameters. -/
def parseNumberOrPercent {F : Type} [Zero F] [One F] [Add F] [Sub F] [Neg F] [Div F]
    [NatCast F] [IntCast F] [LE F] [DecidableEq F] [∀ a b : F, Decidable (a ≤ b)]
    (lib : Lib F) (str : String) :
    Option (F × Bool) :=
  if str = "" then none
  else
    let percent : Bool := str.toList.getLast? = some '%'
    let str1 := if percent then substr str 0 (str.length - 1) else str
    match lib.lexical_cast_double str1 with
    | none => none
    | some value =>
      if percent then some (value / 100, true)
      else if value ≥ 1 then some (value, false)
      else some (value, true)

/-- Source: struct artm_options (srcmain.cc 204-246). -/
structure artm_options (F : Type) where
  docword : String
  vocab : String
  batch_folder : String
  batch_size : Int
  corpus_format : String
  dictionary_file : String
  dictionary_min_df : String
  dictionary_max_df : String
  load_model : String
  topics : String
  use_modality : String
  passes : Int
  inner_iterations_count : Int
  update_every : Int
  tau0 : F
  kappa : F
  regularizer : List String
  b_reuse_theta : Bool
  threads : Int
  save_model : String
  write_model_readable : String
  write_predictions : String
  score_level : Int
  score : List String
  final_score : List String
  disk_cache_folder : String
  response_file : String
  b_paused : Bool
  b_disable_avx_opt : Bool
  b_use_dense_bow : Bool

/-- Source: fixScoreLevel (srcmain.cc 248-268). -/
def fixScoreLevel {F : Type} (options : artm_options F) : artm_options F :=
  if options.score ≠ [] ∨ options.final_score ≠ [] then
    { options with score_level := 0 }
  else
    let score1 := if options.score_level ≥ 1
      then options.score ++ ["Perplexity", "SparsityPhi", "SparsityTheta"] else options.score
    let final_score1 := if options.score_level ≥ 2
      then options.final_score ++ ["TopTokens", "ThetaSnippet"] else options.final_score
    let score2 := if options.score_level ≥ 3 then score1 ++ ["TopicKernel"] else score1
    { options with score := score2, final_score := final_score1 }

/-! ## Messages of the master component interface (`artm/messages.proto`) -/

/-- The message RegularizerSettings. -/
structure RegularizerSettings (F : Type) where
  name : String
  tau : F
  use_relative_regularization : Bool
deriving DecidableEq

/-- The message RegularizeModelArgs. -/
structure RegularizeModelArgs (F : Type) where
  regularizer_settings : List (RegularizerSettings F) := []
  nwt_source_name : Option String := none
  pwt_source_name : Option String := none
  rwt_target_name : Option String := none
deriving DecidableEq

/-- The message ProcessBatchesArgs. -/
structure ProcessBatchesArgs (F : Type) where
  inner_iterations_count : Option Int := none
  opt_for_avx : Option Bool := none
  use_sparse_bow : Option Bool := none
  reuse_theta : Option Bool := none
  class_id : List String := []
  class_weight : List F := []
  regularizer_name : List String := []
  regularizer_tau : List F := []
  pwt_source_name : Option String := none
  nwt_target_name : Option String := none
  batch_filename : List String := []
  reset_scores : Option Bool := none
deriving DecidableEq

/-- The message NormalizeModelArgs. -/
structure NormalizeModelArgs where
  rwt_source_name : Option String := none
  nwt_source_name : Option String := none
  pwt_target_name : Option String := none
deriving DecidableEq

/-- The message MergeModelArgs. -/
structure MergeModelArgs (F : Type) where
  nwt_source_name : List String := []
  source_weight : List F := []
  nwt_target_name : Option String := none
deriving DecidableEq

/-- The enumeration RegularizerConfig_Type (the values the client uses). -/
inductive RegularizerConfig_Type where
  | SmoothSparseTheta
  | SmoothSparsePhi
  | DecorrelatorPhi
deriving DecidableEq

/-- The type-specific regularizer configuration, before SerializeAsString. -/
inductive RegularizerSpecific where
  | SmoothSparseThetaConfig (topic_name : List String)
  | SmoothSparsePhiConfig (topic_name : List String) (class_id : List String)
      (dictionary_name : Option String)
  | DecorrelatorPhiConfig (topic_name : List String) (class_id : List String)
deriving DecidableEq

/-- The message RegularizerConfig. -/
structure RegularizerConfig where
  name : Option String := none
  type : Option RegularizerConfig_Type := none
  config : Option RegularizerSpecific := none
deriving DecidableEq

/-- The enumeration ScoreConfig_Type (the values the client uses). -/
inductive ScoreConfig_Type where
  | Perplexity
  | SparsityTheta
  | SparsityPhi
  | TopTokens
  | ThetaSnippet
  | TopicKernel
deriving DecidableEq

/-- The enumeration PerplexityScoreConfig_Type. -/
inductive PerplexityScoreConfig_Type where
  | UnigramDocumentModel
  | UnigramCollectionModel
deriving DecidableEq

/-- The type-specific score configuration, before SerializeAsString. -/
inductive ScoreSpecific (F : Type) where
  | PerplexityScoreConfig (class_id : List String) (model_type : PerplexityScoreConfig_Type)
      (dictionary_name : Option String)
  | SparsityThetaScoreConfig (topic_name : List String)
  | SparsityPhiScoreConfig (topic_name : List String) (class_id : Option String)
  | TopTokensScoreConfig (num_tokens : Option Int) (topic_name : List String)
      (class_id : Option String) (cooccurrence_dictionary_name : Option String)
  | ThetaSnippetScoreConfig (item_count : Option Int)
  | TopicKernelScoreConfig (probability_mass_threshold : Option F) (topic_name : List String)
      (class_id : Option String) (cooccurrence_dictionary_name : Option String)
deriving DecidableEq

/-- The message ScoreConfig. -/
structure ScoreConfig (F : Type) where
  name : String
  type : ScoreConfig_Type
  config : ScoreSpecific F
deriving DecidableEq

/-- The message MasterComponentConfig. -/
structure MasterComponentConfig (F : Type) where
  disk_path : Option String := none
  processors_count : Option Int := none
  cache_theta : Option Bool := none
  disk_cache_path : Option String := none
  score_config : List (ScoreConfig F) := []
deriving DecidableEq

/-- The enumeration CollectionParserConfig_Format. -/
inductive CollectionParserConfig_Format where
  | BagOfWordsUci
  | MatrixMarket
  | VowpalWabbit
deriving DecidableEq

/-- The message CollectionParserConfig. -/
structure CollectionParserConfig where
  format : CollectionParserConfig_Format
  docword_file_path : String
  vocab_file_path : Option String
  dictionary_file_name : String
  target_folder : String
  num_items_per_batch : Int
deriving DecidableEq

/-- The message ImportDictionaryArgs. -/
structure ImportDictionaryArgs where
  file_name : String
  dictionary_name : String
deriving DecidableEq

/-- The enumeration InitializeModelArgs_SourceType. -/
inductive InitializeModelArgs_SourceType where
  | Dictionary
  | Batches
deriving DecidableEq

/-- The message InitializeModelArgs_Filter. -/
structure InitializeModelArgs_Filter (F : Type) where
  min_percentage : Option F := none
  min_items : Option Int := none
  max_percentage : Option F := none
  max_items : Option Int := none
deriving DecidableEq

/-- The message InitializeModelArgs. -/
structure InitializeModelArgs (F : Type) where
  model_name : String
  topic_name : List String
  dictionary_name : Option String
  source_type : InitializeModelArgs_SourceType
  filter : List (InitializeModelArgs_Filter F)
  disk_path : Option String
deriving DecidableEq

/-- The messages ImportModelArgs and ExportModelArgs (same fields). -/
structure ModelFileArgs where
  model_name : String
  file_name : String
deriving DecidableEq

/-- A request sent to the master component (or, for ParseCollection, to the library). -/
inductive Call (F : Type) where
  | ParseCollection (config : CollectionParserConfig)
  | CreateMasterComponent (config : MasterComponentConfig F)
  | ImportDictionary (args : ImportDictionaryArgs)
  | CreateRegularizer (config : RegularizerConfig)
  | Reconfigure (config : MasterComponentConfig F)
  | InitializeModel (args : InitializeModelArgs F)
  | ImportModel (args : ModelFileArgs)
  | ProcessBatches (args : ProcessBatchesArgs F)
  | MergeModel (args : MergeModelArgs F)
  | RegularizeModel (args : RegularizeModelArgs F)
  | NormalizeModel (args : NormalizeModelArgs)
  | ExportModel (args : ModelFileArgs)
deriving DecidableEq

/-! ## Regularizer and score configuration -/

/-- The three locals filled by the selector loop that `configureRegularizer` and
`addScore` share: class_ids, topic_names and dictionary_name. -/
structure Selectors (F : Type) where
  class_ids : List (String × F) := []
  topic_names : List String := []
  dictionary_name : String := ""
deriving DecidableEq

/-- One iteration of the selector loop (srcmain.cc 288-296 and 372-380). -/
def parseSelector {F : Type} [Zero F] [One F] [Add F] [Sub F] [Neg F] [Div F]
    [NatCast F] [IntCast F] [LE F] [DecidableEq F] [∀ a b : F, Decidable (a ≤ b)]
    (lib : Lib F) (topics : String)
    (sel : Selectors F) (elem : String) : Selectors F :=
  if elem = "" then sel
  else if elem.toList.head? = some '#' then
    { sel with topic_names := parseTopics2 lib (substr elem 1 (elem.length - 1)) topics }
  else if elem.toList.head? = some '@' then
    { sel with
      class_ids := (parseKeyValuePairs lib.lexical_cast_float (substr elem 1 (elem.length - 1))) }
  else if elem.toList.head? = some '!' then
    { sel with dictionary_name := substr elem 1 (elem.length - 1) }
  else sel

/-- The selector loop over the remaining fields, in order. -/
def parseSelectors {F : Type} [Zero F] [One F] [Add F] [Sub F] [Neg F] [Div F]
    [NatCast F] [IntCast F] [LE F] [DecidableEq F] [∀ a b : F, Decidable (a ≤ b)]
    (lib : Lib F) (topics : String)
    (elems : List String) : Selectors F :=
  elems.foldl (parseSelector lib topics) {}

/-- Source: configureRegularizer (srcmain.cc 270-353). The first component is the message
of the std::invalid_argument thrown, if any; the others are the three objects behind the
pointer arguments as the call leaves them. -/
def configureRegularizer {F : Type} [Zero F] [One F] [Add F] [Sub F] [Neg F] [Div F]
    [NatCast F] [IntCast F] [LE F] [DecidableEq F] [∀ a b : F, Decidable (a ≤ b)]
    (lib : Lib F)
    (regularizer topics : String) (regularize_model_args : RegularizeModelArgs F)
    (process_batches_args : ProcessBatchesArgs F) (config : RegularizerConfig) :
    Option String × RegularizeModelArgs F × ProcessBatchesArgs F × RegularizerConfig :=
  let strs := split (is_any_of "\t ") regularizer
  if strs.length < 2 then
    (some ("Invalid regularizer: " ++ regularizer),
      regularize_model_args, process_batches_args, config)
  else
    match lib.lexical_cast_float (strs.getD 0 "") with
    | none =>
      (some ("Invalid regularizer: " ++ regularizer),
        regularize_model_args, process_batches_args, config)
    | some tau =>
      let sel := parseSelectors lib topics (strs.drop 2)
      let regularizer_type := to_lower_copy (strs.getD 1 "")
      if regularizer_type = "smooththeta" ∨ regularizer_type = "sparsetheta" then
        let tau1 := if regularizer_type = "sparsetheta" then -tau else tau
        (none, regularize_model_args,
          { process_batches_args with
            regularizer_name := process_batches_args.regularizer_name ++ [regularizer]
            regularizer_tau := process_batches_args.regularizer_tau ++ [tau1] },
          { name := some regularizer
            type := some RegularizerConfig_Type.SmoothSparseTheta
            config := some (RegularizerSpecific.SmoothSparseThetaConfig sel.topic_names) })
      else if regularizer_type = "smoothphi" ∨ regularizer_type = "sparsephi" then
        let tau1 := if regularizer_type = "sparsephi" then -tau else tau
        (none,
          { regularize_model_args with
            regularizer_settings := regularize_model_args.regularizer_settings ++
              [{ name := regularizer, tau := tau1, use_relative_regularization := false }] },
          process_batches_args,
          { name := some regularizer
            type := some RegularizerConfig_Type.SmoothSparsePhi
            config := some (RegularizerSpecific.SmoothSparsePhiConfig sel.topic_names
              (sel.class_ids.map fun class_id => class_id.1)
              (if sel.dictionary_name = "" then none else some sel.dictionary_name)) })
      else if regularizer_type = "decorrelation" then
        (none,
          { regularize_model_args with
            regularizer_settings := regularize_model_args.regularizer_settings ++
              [{ name := regularizer, tau := tau, use_relative_regularization := false }] },
          process_batches_args,
          { name := some regularizer
            type := some RegularizerConfig_Type.DecorrelatorPhi
            config := some (RegularizerSpecific.DecorrelatorPhiConfig sel.topic_names
              (sel.class_ids.map fun class_id => class_id.1)) })
      else
        (some ("Unknown regularizer type: " ++ strs.getD 1 ""),
          regularize_model_args, process_batches_args, config)

/-- Source: the member score_name_ of class ScoreHelper (srcmain.cc 355-360); the member
master_ points to the master component shared by all helpers, whose configuration is
passed to `addScore` separately. -/
structure ScoreHelper where
  score_name_ : List (String × ScoreConfig_Type) := []
deriving DecidableEq

/-- The score type and score argument that `addScore` derives from the lower-cased first
field (srcmain.cc 384-394). The difference rangle - langle is unsigned: when the first ')'
precedes the first '(' it wraps around to a huge value, so the test passes and substr runs
to the end of the string. -/
def scoreTypeAndArg {F : Type} [Zero F] [One F] [Add F] [Sub F] [Neg F] [Div F]
    [NatCast F] [IntCast F] [LE F] [DecidableEq F] [∀ a b : F, Decidable (a ≤ b)]
    (lib : Lib F) (score_type : String) :
    String × F :=
  match find score_type '(', find score_type ')' with
  | some langle, some rangle =>
    if rangle < langle ∨ rangle - langle ≥ 2 then
      match lib.lexical_cast_float
        (substr score_type (langle + 1)
          (if rangle < langle then score_type.length else rangle - langle - 1)) with
      | some score_arg => (substr score_type 0 langle, score_arg)
      | none => (score_type, 0)
    else (score_type, 0)
  | _, _ => (score_type, 0)

/-- What a call of `addScore` leaves behind: the message of the exception thrown, if any,
the configuration of the master component, the helper, and the requests issued. -/
structure AddScoreResult (F : Type) where
  thrown : Option String
  master_config : MasterComponentConfig F
  helper : ScoreHelper
  calls : List (Call F)
deriving DecidableEq

/-- The type-specific part of `addScore` (srcmain.cc 399-450): the score type and its
specific configuration, or `none` for an unknown type name. -/
def scoreSpecific {F : Type} [Zero F] [One F] [Add F] [Sub F] [Neg F] [Div F]
    [NatCast F] [IntCast F] [LE F] [DecidableEq F] [∀ a b : F, Decidable (a ≤ b)]
    (lib : Lib F) (score_type : String)
    (score_arg : F) (sel : Selectors F) : Option (ScoreConfig_Type × ScoreSpecific F) :=
  let last_class_id : Option String := (sel.class_ids.map fun class_id => class_id.1).getLast?
  let dictionary : Option String :=
    if sel.dictionary_name = "" then none else some sel.dictionary_name
  if score_type = "perplexity" then
    some (ScoreConfig_Type.Perplexity,
      ScoreSpecific.PerplexityScoreConfig (sel.class_ids.map fun class_id => class_id.1)
        (if sel.dictionary_name = "" then PerplexityScoreConfig_Type.UnigramDocumentModel
          else PerplexityScoreConfig_Type.UnigramCollectionModel)
        dictionary)
  else if score_type = "sparsitytheta" then
    some (ScoreConfig_Type.SparsityTheta, ScoreSpecific.SparsityThetaScoreConfig sel.topic_names)
  else if score_type = "sparsityphi" then
    some (ScoreConfig_Type.SparsityPhi,
      ScoreSpecific.SparsityPhiScoreConfig sel.topic_names last_class_id)
  else if score_type = "toptokens" then
    some (ScoreConfig_Type.TopTokens,
      ScoreSpecific.TopTokensScoreConfig
        (if score_arg ≠ 0 then some (lib.float_to_int score_arg) else none)
        sel.topic_names last_class_id dictionary)
  else if score_type = "thetasnippet" then
    some (ScoreConfig_Type.ThetaSnippet,
      ScoreSpecific.ThetaSnippetScoreConfig
        (if score_arg ≠ 0 then some (lib.float_to_int score_arg) else none))
  else if score_type = "topickernel" then
    some (ScoreConfig_Type.TopicKernel,
      ScoreSpecific.TopicKernelScoreConfig (if score_arg ≠ 0 then some score_arg else none)
        sel.topic_names last_class_id dictionary)
  else none

/-- Source: ScoreHelper::addScore (srcmain.cc 362-454), on the configuration of the master
component behind master_ and on the helper itself. -/
def addScore {F : Type} [Zero F] [One F] [Add F] [Sub F] [Neg F] [Div F]
    [NatCast F] [IntCast F] [LE F] [DecidableEq F] [∀ a b : F, Decidable (a ≤ b)]
    (lib : Lib F) (score topics : String)
    (master_config : MasterComponentConfig F) (helper : ScoreHelper) : AddScoreResult F :=
  let strs := split (is_any_of "\t ") score
  if strs.length < 1 then
    { thrown := some ("Invalid score: " ++ score), master_config := master_config,
      helper := helper, calls := [] }
  else
    let sel := parseSelectors lib topics (strs.drop 1)
    let parsed := scoreTypeAndArg lib (to_lower_copy (strs.getD 0 ""))
    match scoreSpecific lib parsed.1 parsed.2 sel with
    | none =>
      { thrown := some ("Unknown regularizer type: " ++ strs.getD 0 ""),
        master_config := master_config, helper := helper, calls := [] }
    | some (type, specific_config) =>
      let score_config : ScoreConfig F := { name := score, type := type, config := specific_config }
      let master_config1 :=
        { master_config with score_config := master_config.score_config ++ [score_config] }
      { thrown := none, master_config := master_config1,
        helper := { score_name_ := helper.score_name_ ++ [(score, type)] },
        calls := [Call.Reconfigure master_config1] }

/-! ## The function execute -/

/-- Source: the model names declared at the top of execute (srcmain.cc 528-532). -/
def dictionary_name : String := "dictionary"

/-- Source: srcmain.cc 529. -/
def pwt_model_name : String := "pwt"

/-- Source: srcmain.cc 530. -/
def nwt_model_name : String := "nwt"

/-- Source: srcmain.cc 531. -/
def rwt_model_name : String := "rwt"

/-- Source: srcmain.cc 532. -/
def nwt_hat_model_name : String := "nwt_hat"

/-- What the file system and the random generator answer during one run of execute. -/
structure Env where
  /-- The value of boost::uuids::random_generator, as a string. -/
  random_uuid : String
  /-- The answer of fs::exists on the working batch folder. -/
  batch_folder_exists : Bool
  /-- The answer of fs::is_empty on the working batch folder. -/
  batch_folder_is_empty : Bool
  /-- Whether fs::create_directories reports an error. -/
  create_directories_error : Bool
  /-- The result of findFilesInDirectory in step 2 (srcmain.cc 618). -/
  batch_files_at_start : List String
  /-- The answer of fs::exists on the dictionary file. -/
  dictionary_file_exists : Bool
  /-- The result of findFilesInDirectory before the passes (srcmain.cc 713). -/
  batch_file_names : List String

/-- How a run of execute ends. -/
inductive Outcome where
  | returned (code : Int)
  | thrown (what : String)
deriving DecidableEq

/-- Source: step 2 of execute (srcmain.cc 573-625): the requests it issues, or the code
execute returns at once. -/
def execute_step2 {F : Type} (options : artm_options F) (env : Env)
    (working_batch_folder : String) : Except Int (List (Call F)) :=
  if options.docword ≠ "" then
    if env.batch_folder_exists ∧ ¬ env.batch_folder_is_empty then Except.error 1
    else if env.create_directories_error then Except.error 1
    else
      let format : Option CollectionParserConfig_Format :=
        if options.corpus_format = "bow" then some CollectionParserConfig_Format.BagOfWordsUci
        else if options.corpus_format = "mm" then some CollectionParserConfig_Format.MatrixMarket
        else if options.corpus_format = "vw" then some CollectionParserConfig_Format.VowpalWabbit
        else none
      match format with
      | none => Except.error 1
      | some fmt =>
        if options.corpus_format ≠ "vw" ∧ options.docword ≠ "" ∧ options.vocab = "" then
          Except.error 1
        else
          Except.ok [Call.ParseCollection
            { format := fmt
              docword_file_path := options.docword
              vocab_file_path := if options.vocab ≠ "" then some options.vocab else none
              dictionary_file_name := options.dictionary_file
              target_folder := working_batch_folder
              num_items_per_batch := options.batch_size }]
  else
    if ¬ env.batch_folder_exists then Except.error 1
    else if env.batch_files_at_start.length = 0 then Except.error 1
    else Except.ok []

/-- Source: step 4 of execute (srcmain.cc 646-652), the loop over options.regularizer:
the exception that ends it, if any, the two argument objects and the regularizers created. -/
def execute_step4 {F : Type} [Zero F] [One F] [Add F] [Sub F] [Neg F] [Div F]
    [NatCast F] [IntCast F] [LE F] [DecidableEq F] [∀ a b : F, Decidable (a ≤ b)]
    (lib : Lib F) (topics : String) :
    List String → RegularizeModelArgs F → ProcessBatchesArgs F →
    Option String × RegularizeModelArgs F × ProcessBatchesArgs F × List (Call F)
  | [], regularize_model_args, process_batches_args =>
    (none, regularize_model_args, process_batches_args, [])
  | regularizer :: rest, regularize_model_args, process_batches_args =>
    match configureRegularizer lib regularizer topics regularize_model_args
        process_batches_args {} with
    | (some what, args1, args2, _) => (some what, args1, args2, [])
    | (none, args1, args2, regularizer_config) =>
      let r := execute_step4 lib topics rest args1 args2
      (r.1, r.2.1, r.2.2.1, Call.CreateRegularizer regularizer_config :: r.2.2.2)

/-- Source: one of the two loops of step 4.1 of execute (srcmain.cc 657 and 658):
addScore on every string in order, stopping at the first exception. -/
def execute_step41 {F : Type} [Zero F] [One F] [Add F] [Sub F] [Neg F] [Div F]
    [NatCast F] [IntCast F] [LE F] [DecidableEq F] [∀ a b : F, Decidable (a ≤ b)]
    (lib : Lib F) (topics : String) :
    List String → MasterComponentConfig F → ScoreHelper → AddScoreResult F
  | [], master_config, helper =>
    { thrown := none, master_config := master_config, helper := helper, calls := [] }
  | score :: rest, master_config, helper =>
    let r := addScore lib score topics master_config helper
    match r.thrown with
    | some _ => r
    | none =>
      let r2 := execute_step41 lib topics rest r.master_config r.helper
      { r2 with calls := r.calls ++ r2.calls }

/-- Source: step 5 of execute (srcmain.cc 660-705). -/
def execute_step5 {F : Type} [Zero F] [One F] [Add F] [Sub F] [Neg F] [Div F]
    [NatCast F] [IntCast F] [LE F] [DecidableEq F] [∀ a b : F, Decidable (a ≤ b)]
    (lib : Lib F) (options : artm_options F)
    (topic_names : List String) (use_dictionary : Bool) (working_batch_folder : String) :
    List (Call F) :=
  if options.load_model = "" then
    if use_dictionary then
      [Call.InitializeModel
        { model_name := pwt_model_name, topic_name := topic_names
          dictionary_name := some dictionary_name
          source_type := InitializeModelArgs_SourceType.Dictionary
          filter := [], disk_path := none }]
    else
      let min_filter : List (InitializeModelArgs_Filter F) :=
        match parseNumberOrPercent lib options.dictionary_min_df with
        | some (value, fraction) =>
          [if fraction then { min_percentage := some value }
            else { min_items := some (lib.float_to_int value) }]
        | none => []
      let max_filter : List (InitializeModelArgs_Filter F) :=
        match parseNumberOrPercent lib options.dictionary_max_df with
        | some (value, fraction) =>
          [if fraction then { max_percentage := some value }
            else { max_items := some (lib.float_to_int value) }]
        | none => []
      [Call.InitializeModel
        { model_name := pwt_model_name, topic_name := topic_names
          dictionary_name := none
          source_type := InitializeModelArgs_SourceType.Batches
          filter := min_filter ++ max_filter, disk_path := some working_batch_folder }]
  else
    [Call.ImportModel { model_name := pwt_model_name, file_name := options.load_model }]

/-- The locals of execute that the passes read and write. -/
structure LoopState (F : Type) where
  process_batches_args : ProcessBatchesArgs F
  regularize_model_args : RegularizeModelArgs F
  normalize_model_args : NormalizeModelArgs
  update_count : Int
deriving DecidableEq

/-- Source: the offline branch of one pass (srcmain.cc 719-737). -/
def offlinePass {F : Type} (batch_file_names : List String) (st : LoopState F) :
    LoopState F × List (Call F) :=
  let args1 : ProcessBatchesArgs F :=
    { st.process_batches_args with
      pwt_source_name := some pwt_model_name
      nwt_target_name := some nwt_hat_model_name
      batch_filename := st.process_batches_args.batch_filename ++ batch_file_names }
  let args2 : ProcessBatchesArgs F := { args1 with batch_filename := [] }
  if st.regularize_model_args.regularizer_settings.length > 0 then
    let reg : RegularizeModelArgs F :=
      { st.regularize_model_args with
        nwt_source_name := some nwt_hat_model_name
        pwt_source_name := some pwt_model_name
        rwt_target_name := some rwt_model_name }
    let norm : NormalizeModelArgs :=
      { rwt_source_name := some rwt_model_name
        nwt_source_name := some nwt_hat_model_name
        pwt_target_name := some pwt_model_name }
    ({ st with process_batches_args := args2, regularize_model_args := reg,
               normalize_model_args := norm },
      [Call.ProcessBatches args1, Call.RegularizeModel reg, Call.NormalizeModel norm])
  else
    let norm : NormalizeModelArgs :=
      { st.normalize_model_args with
        nwt_source_name := some nwt_hat_model_name
        pwt_target_name := some pwt_model_name }
    ({ st with process_batches_args := args2, normalize_model_args := norm },
      [Call.ProcessBatches args1, Call.NormalizeModel norm])

/-- Source: the body of the online loop over the batches at index `i` (srcmain.cc 740-772). -/
def onlineBody {F : Type} [Zero F] [One F] [Add F] [Sub F] [Neg F] [Div F]
    [NatCast F] [IntCast F] [LE F] [DecidableEq F] [∀ a b : F, Decidable (a ≤ b)]
    (lib : Lib F) (options : artm_options F)
    (batch_file_names : List String) (i : Nat) (st : LoopState F) :
    LoopState F × List (Call F) :=
  let args1 : ProcessBatchesArgs F :=
    { st.process_batches_args with
      reset_scores := some (decide (i = 0))
      batch_filename := st.process_batches_args.batch_filename ++ [batch_file_names.getD i ""] }
  let size : Int := (args1.batch_filename.length : Int)
  if size ≥ options.update_every ∨ i + 1 = batch_file_names.length then
    let update_count : Int := st.update_count + 1
    let args2 : ProcessBatchesArgs F :=
      { args1 with
        pwt_source_name := some pwt_model_name
        nwt_target_name := some nwt_hat_model_name }
    let apply_weight : F :=
      if update_count = 1 then 1 else lib.pow (options.tau0 + (update_count : F)) (-options.kappa)
    let decay_weight : F := 1 - apply_weight
    let merge_model_args : MergeModelArgs F :=
      { nwt_source_name := [nwt_model_name, nwt_hat_model_name]
        source_weight := [decay_weight, apply_weight]
        nwt_target_name := some nwt_model_name }
    let args3 : ProcessBatchesArgs F := { args2 with batch_filename := [] }
    if st.regularize_model_args.regularizer_settings.length > 0 then
      let reg : RegularizeModelArgs F :=
        { st.regularize_model_args with
          nwt_source_name := some nwt_model_name
          pwt_source_name := some pwt_model_name
          rwt_target_name := some rwt_model_name }
      let norm : NormalizeModelArgs :=
        { rwt_source_name := some rwt_model_name
          nwt_source_name := some nwt_model_name
          pwt_target_name := some pwt_model_name }
      ({ process_batches_args := args3, regularize_model_args := reg,
         normalize_model_args := norm, update_count := update_count },
        [Call.ProcessBatches args2, Call.MergeModel merge_model_args,
          Call.RegularizeModel reg, Call.NormalizeModel norm])
    else
      let norm : NormalizeModelArgs :=
        { st.normalize_model_args with
          nwt_source_name := some nwt_model_name
          pwt_target_name := some pwt_model_name }
      ({ process_batches_args := args3, regularize_model_args := st.regularize_model_args,
         normalize_model_args := norm, update_count := update_count },
        [Call.ProcessBatches args2, Call.MergeModel merge_model_args, Call.NormalizeModel norm])
  else
    ({ st with process_batches_args := args1 }, [])

/-- Source: the online loop `for (int i = 0; i < batch_file_names.size(); ++i)`
(srcmain.cc 739-773), with `n` iterations left to run from index `i`. -/
def onlineFor {F : Type} [Zero F] [One F] [Add F] [Sub F] [Neg F] [Div F]
    [NatCast F] [IntCast F] [LE F] [DecidableEq F] [∀ a b : F, Decidable (a ≤ b)]
    (lib : Lib F) (options : artm_options F)
    (batch_file_names : List String) : Nat → Nat → LoopState F → LoopState F × List (Call F)
  | 0, _, st => (st, [])
  | n + 1, i, st =>
    let r1 := onlineBody lib options batch_file_names i st
    let r2 := onlineFor lib options batch_file_names n (i + 1) r1.1
    (r2.1, r1.2 ++ r2.2)

/-- Source: the body of the loop over the passes (srcmain.cc 716-777). -/
def onePass {F : Type} [Zero F] [One F] [Add F] [Sub F] [Neg F] [Div F]
    [NatCast F] [IntCast F] [LE F] [DecidableEq F] [∀ a b : F, Decidable (a ≤ b)]
    (lib : Lib F) (options : artm_options F)
    (batch_file_names : List String) (st : LoopState F) : LoopState F × List (Call F) :=
  if options.update_every > 0 then
    onlineFor lib options batch_file_names batch_file_names.length 0 st
  else offlinePass batch_file_names st

/-- One pass as it is recorded: the requests it issued, in order, and the value of
update_count when it ended. -/
structure PassRecord (F : Type) where
  calls : List (Call F)
  update_count : Int
deriving DecidableEq

/-- Source: the loop `for (int iter = 0; iter < options.passes; ++iter)`
(srcmain.cc 716-777), with `n` passes left to run. -/
def passesFor {F : Type} [Zero F] [One F] [Add F] [Sub F] [Neg F] [Div F]
    [NatCast F] [IntCast F] [LE F] [DecidableEq F] [∀ a b : F, Decidable (a ≤ b)]
    (lib : Lib F) (options : artm_options F)
    (batch_file_names : List String) : Nat → LoopState F → LoopState F × List (PassRecord F)
  | 0, st => (st, [])
  | n + 1, st =>
    let r1 := onePass lib options batch_file_names st
    let r2 := passesFor lib options batch_file_names n r1.1
    (r2.1, { calls := r1.2, update_count := r1.1.update_count } :: r2.2)

/-- Source: the end of execute (srcmain.cc 779-873), requests to the master component only. -/
def execute_finish {F : Type} (options : artm_options F)
    (master_config : MasterComponentConfig F) (batch_file_names : List String)
    (process_batches_args : ProcessBatchesArgs F) : List (Call F) :=
  (if options.save_model ≠ "" then
    [Call.ExportModel { model_name := pwt_model_name, file_name := options.save_model }]
   else []) ++
  (if options.write_predictions ≠ "" then
    (if master_config.cache_theta.getD false = false then
      [Call.Reconfigure { master_config with cache_theta := some true }]
     else []) ++
    [Call.ProcessBatches
      { process_batches_args with
        pwt_source_name := some pwt_model_name
        nwt_target_name := none
        batch_filename := process_batches_args.batch_filename ++ batch_file_names }]
   else [])

/-- A run of execute as it is recorded: the requests issued before the passes, the passes,
the requests issued after them, and how the run ended. -/
structure ExecResult (F : Type) where
  setup_calls : List (Call F)
  passes : List (PassRecord F)
  final_calls : List (Call F)
  outcome : Outcome
deriving DecidableEq

/-- All requests of a run, in the order they were issued. -/
def ExecResult.trace {F : Type} (r : ExecResult F) : List (Call F) :=
  r.setup_calls ++ (r.passes.map fun pass => pass.calls).flatten ++ r.final_calls

/-- Source: the local working_batch_folder of execute (srcmain.cc 547-549). -/
def working_batch_folder {F : Type} (options : artm_options F) (env : Env) : String :=
  if options.batch_folder = "" then env.random_uuid else options.batch_folder

/-- Source: the local master_config of execute as step 1 fills it (srcmain.cc 552-556). -/
def execute_master_config {F : Type} (options : artm_options F) (env : Env) :
    MasterComponentConfig F :=
  { disk_path := some (working_batch_folder options env)
    processors_count := some options.threads
    cache_theta := if options.b_reuse_theta then some true else none
    disk_cache_path :=
      if options.disk_cache_folder ≠ "" then some options.disk_cache_folder else none }

/-- Source: the local process_batches_args of execute as step 1 fills it
(srcmain.cc 558-568). -/
def execute_process_batches_args {F : Type} [Zero F] [One F] [Add F] [Sub F] [Neg F] [Div F]
    [NatCast F] [IntCast F] [LE F] [DecidableEq F] [∀ a b : F, Decidable (a ≤ b)]
    (lib : Lib F)
    (options : artm_options F) : ProcessBatchesArgs F :=
  { inner_iterations_count := some options.inner_iterations_count
    opt_for_avx := some (!options.b_disable_avx_opt)
    use_sparse_bow := some (!options.b_use_dense_bow)
    reuse_theta := if options.b_reuse_theta then some true else none
    class_id :=
      (parseKeyValuePairs lib.lexical_cast_float options.use_modality).map
        fun class_id => class_id.1
    class_weight :=
      (parseKeyValuePairs lib.lexical_cast_float options.use_modality).map
        fun class_id => if class_id.2 = 0 then 1 else class_id.2 }

/-- Source: step 3 of execute (srcmain.cc 627-644): the master component is created and
the dictionary, when its file exists, imported. -/
def execute_step3 {F : Type} (options : artm_options F) (env : Env) : List (Call F) :=
  [Call.CreateMasterComponent (execute_master_config options env)] ++
  (if env.dictionary_file_exists then
    [Call.ImportDictionary
      { file_name := working_batch_folder options env ++ "/" ++ options.dictionary_file
        dictionary_name := dictionary_name }]
   else [])

/-- Source: execute (srcmain.cc 525-874). -/
def execute {F : Type} [Zero F] [One F] [Add F] [Sub F] [Neg F] [Div F]
    [NatCast F] [IntCast F] [LE F] [DecidableEq F] [∀ a b : F, Decidable (a ≤ b)]
    (lib : Lib F) (options : artm_options F)
    (env : Env) : ExecResult F :=
  match execute_step2 options env (working_batch_folder options env) with
  | Except.error code =>
    { setup_calls := [], passes := [], final_calls := [], outcome := Outcome.returned code }
  | Except.ok calls2 =>
    let calls3 : List (Call F) := calls2 ++ execute_step3 options env
    match execute_step4 lib options.topics options.regularizer {}
        (execute_process_batches_args lib options) with
    | (some what, _, _, calls4) =>
      { setup_calls := calls3 ++ calls4, passes := [], final_calls := [],
        outcome := Outcome.thrown what }
    | (none, regularize_model_args, process_batches_args, calls4) =>
      let r1 := execute_step41 lib options.topics options.score
        (execute_master_config options env) {}
      match r1.thrown with
      | some what =>
        { setup_calls := calls3 ++ calls4 ++ r1.calls, passes := [], final_calls := [],
          outcome := Outcome.thrown what }
      | none =>
        let r2 := execute_step41 lib options.topics options.final_score r1.master_config {}
        match r2.thrown with
        | some what =>
          { setup_calls := calls3 ++ calls4 ++ r1.calls ++ r2.calls, passes := [],
            final_calls := [], outcome := Outcome.thrown what }
        | none =>
          let calls5 := execute_step5 lib options (parseTopics lib options.topics)
            env.dictionary_file_exists (working_batch_folder options env)
          let loop := passesFor lib options env.batch_file_names options.passes.toNat
            { process_batches_args := process_batches_args
              regularize_model_args := regularize_model_args
              normalize_model_args := {}
              update_count := 0 }
          { setup_calls := calls3 ++ calls4 ++ r1.calls ++ r2.calls ++ calls5
            passes := loop.2
            final_calls := execute_finish options (execute_master_config options env)
              env.batch_file_names loop.1.process_batches_args
            outcome := Outcome.returned 0 }

/-! ## Observations on recorded requests -/

/-- Whether a request is one of ProcessBatches, MergeModel, RegularizeModel, NormalizeModel. -/
def Call.isTraining {F : Type} : Call F → Bool
  | Call.ProcessBatches _ => true
  | Call.MergeModel _ => true
  | Call.RegularizeModel _ => true
  | Call.NormalizeModel _ => true
  | _ => false

/-- The arguments of the ProcessBatches requests of a list, in order. -/
def processBatchesOf {F : Type} (calls : List (Call F)) : List (ProcessBatchesArgs F) :=
  calls.filterMap fun c => match c with
    | Call.ProcessBatches args => some args
    | _ => none

/-- The arguments of the MergeModel requests of a list, in order. -/
def mergeModelOf {F : Type} (calls : List (Call F)) : List (MergeModelArgs F) :=
  calls.filterMap fun c => match c with
    | Call.MergeModel args => some args
    | _ => none

/-- The arguments of the RegularizeModel requests of a list, in order. -/
def regularizeModelOf {F : Type} (calls : List (Call F)) : List (RegularizeModelArgs F) :=
  calls.filterMap fun c => match c with
    | Call.RegularizeModel args => some args
    | _ => none

/-- The arguments of the NormalizeModel requests of a list, in order. -/
def normalizeModelOf {F : Type} (calls : List (Call F)) : List (NormalizeModelArgs) :=
  calls.filterMap fun c => match c with
    | Call.NormalizeModel args => some args
    | _ => none

/-- The number of sub-batches of `u` batches needed for `B` batches: the ceiling of B / u. -/
def numUpdates (B u : Nat) : Nat := (B + u - 1) / u

/-- The MergeModel arguments of the online update that uses the counter value `k`
(srcmain.cc 749-757). -/
def mergeArgsAt {F : Type} [Zero F] [One F] [Add F] [Sub F] [Neg F] [Div F]
    [NatCast F] [IntCast F] [LE F] [DecidableEq F] [∀ a b : F, Decidable (a ≤ b)]
    (lib : Lib F) (options : artm_options F)
    (k : Int) : MergeModelArgs F :=
  { nwt_source_name := [nwt_model_name, nwt_hat_model_name]
    source_weight :=
      [1 - (if k = 1 then 1 else lib.pow (options.tau0 + (k : F)) (-options.kappa)),
        if k = 1 then 1 else lib.pow (options.tau0 + (k : F)) (-options.kappa)]
    nwt_target_name := some nwt_model_name }

/-- Whether the type field of a regularizer string names a phi regularizer, one that
`configureRegularizer` records in RegularizeModelArgs (srcmain.cc 315 and 335). -/
def isPhiRegularizer (regularizer : String) : Bool :=
  decide (to_lower_copy ((split (is_any_of "\t ") regularizer).getD 1 "") ∈
    ["smoothphi", "sparsephi", "decorrelation"])

/-- The requests of one online model update, in order: ProcessBatches from pwt into nwt_hat,
MergeModel of (nwt, 1 - w) and (nwt_hat, w) into nwt, RegularizeModel from nwt (present
exactly when `regularized` is true), NormalizeModel from nwt into pwt. -/
def IsOnlineUpdate {F : Type} [Zero F] [One F] [Add F] [Sub F] [Neg F] [Div F]
    [NatCast F] [IntCast F] [LE F] [DecidableEq F] [∀ a b : F, Decidable (a ≤ b)]
    (regularized : Bool)
    (block : List (Call F)) : Prop :=
  ∃ (pb : ProcessBatchesArgs F) (w : F) (norm : NormalizeModelArgs),
    pb.pwt_source_name = some "pwt" ∧ pb.nwt_target_name = some "nwt_hat" ∧
    norm.nwt_source_name = some "nwt" ∧ norm.pwt_target_name = some "pwt" ∧
    if regularized then
      ∃ reg : RegularizeModelArgs F,
        reg.nwt_source_name = some "nwt" ∧ reg.regularizer_settings ≠ [] ∧
        block =
          [Call.ProcessBatches pb,
            Call.MergeModel
              { nwt_source_name := ["nwt", "nwt_hat"], source_weight := [1 - w, w]
                nwt_target_name := some "nwt" },
            Call.RegularizeModel reg, Call.NormalizeModel norm]
    else
      block =
        [Call.ProcessBatches pb,
          Call.MergeModel
            { nwt_source_name := ["nwt", "nwt_hat"], source_weight := [1 - w, w]
              nwt_target_name := some "nwt" },
          Call.NormalizeModel norm]

/-- The three conditions under which `configureRegularizer` throws (srcmain.cc 275, 278-282
and 350-352): fewer than two fields, a first field that is not a float, a second field
that lower-cased is not a known regularizer type. -/
def regularizerRejected {F : Type} (lib : Lib F) (regularizer : String) : Prop :=
  (split (is_any_of "\t ") regularizer).length < 2 ∨
  lib.lexical_cast_float ((split (is_any_of "\t ") regularizer).getD 0 "") = none ∨
  to_lower_copy ((split (is_any_of "\t ") regularizer).getD 1 "") ∉
    ["smooththeta", "sparsetheta", "smoothphi", "sparsephi", "decorrelation"]

/-- The score type names that `addScore` accepts (srcmain.cc 399-447). -/
def scoreTypeNames : List String :=
  ["perplexity", "sparsitytheta", "sparsityphi", "toptokens", "thetasnippet", "topickernel"]

/-- The condition under which `addScore` throws (srcmain.cc 448-450): the score type it
derives from the first field is not a known one. -/
def scoreRejected {F : Type} [Zero F] [One F] [Add F] [Sub F] [Neg F] [Div F]
    [NatCast F] [IntCast F] [LE F] [DecidableEq F] [∀ a b : F, Decidable (a ≤ b)]
    (lib : Lib F) (score : String) : Prop :=
  (scoreTypeAndArg lib (to_lower_copy ((split (is_any_of "\t ") score).getD 0 ""))).1 ∉
    scoreTypeNames

/-- The locals of execute when the loop over the passes is entered: no batch is queued,
the update counter is 0, NormalizeModelArgs is empty, and RegularizeModelArgs holds one
setting per phi regularizer of the options. -/
def LoopEntry {F : Type} (options : artm_options F) (st : LoopState F) : Prop :=
  st.process_batches_args.batch_filename = [] ∧ st.update_count = 0 ∧
  st.normalize_model_args = {} ∧
  st.regularize_model_args.regularizer_settings.length =
    options.regularizer.countP isPhiRegularizer

/-- What holds of the locals of execute between two passes: no batch is queued,
RegularizeModelArgs holds one setting per phi regularizer of the options, and without
any setting NormalizeModelArgs has no rwt source. -/
def PassInv {F : Type} (options : artm_options F) (st : LoopState F) : Prop :=
  st.process_batches_args.batch_filename = [] ∧
  st.regularize_model_args.regularizer_settings.length =
    options.regularizer.countP isPhiRegularizer ∧
  (st.regularize_model_args.regularizer_settings.length = 0 →
    st.normalize_model_args.rwt_source_name = none)

/-- The score type as a literal reading of "the field with a parenthesised argument removed
when that argument parses as a number" gives it: the text from the first '(' to the first
')' is taken out and whatever follows the ')' is kept. -/
def excisedScoreType {F : Type} (lib : Lib F) (field : String) : String :=
  match find field '(', find field ')' with
  | some langle, some rangle =>
    if langle < rangle ∧
        (lib.lexical_cast_float (substr field (langle + 1) (rangle - langle - 1))).isSome then
      substr field 0 langle ++ substr_from field (rangle + 1)
    else field
  | _, _ => field

/-- The score type as the field cut at its first '(': when the field holds a '(' and, at
least two positions later, its first ')', and the text between them parses as a number,
everything from the '(' on is dropped; otherwise the field is kept whole. -/
def cutScoreType {F : Type} (lib : Lib F) (field : String) : String :=
  match find field '(', find field ')' with
  | some langle, some rangle =>
    if langle + 2 ≤ rangle ∧
        (lib.lexical_cast_float (substr field (langle + 1) (rangle - langle - 1))).isSome then
      substr field 0 langle
    else field
  | _, _ => field

/-! ## A concrete library and concrete runs

Used to evaluate the definitions above on explicit inputs. -/

/-- The value of a decimal digit. -/
def digitValue (c : Char) : Option Nat :=
  if '0' ≤ c ∧ c ≤ '9' then some (c.toNat - '0'.toNat) else none

/-- The value of a string of decimal digits, continuing from `acc`. -/
def digitsValue : List Char → Nat → Option Nat
  | [], acc => some acc
  | c :: cs, acc =>
    match digitValue c with
    | some d => digitsValue cs (10 * acc + d)
    | none => none

/-- A lexical cast for integers in decimal notation with an optional sign. -/
def castDecimal (s : String) : Option Int :=
  match s.toList with
  | [] => none
  | '-' :: c :: cs => (digitsValue (c :: cs) 0).map fun n => - (n : Int)
  | '+' :: c :: cs => (digitsValue (c :: cs) 0).map fun n => (n : Int)
  | c :: cs => (digitsValue (c :: cs) 0).map fun n => (n : Int)

/-- A library over the rationals: numbers are read in decimal integer notation, and
`pow x y` is exact for the exponent `y = -1`. -/
def sampleLib : Lib ℚ where
  lexical_cast_float := fun s => (castDecimal s).map fun z => (z : ℚ)
  lexical_cast_double := fun s => (castDecimal s).map fun z => (z : ℚ)
  lexical_cast_int := castDecimal
  int_to_string := fun z => toString z
  float_to_int := fun q => Int.tdiv q.num q.den
  pow := fun x y => if y = -1 then x⁻¹ else 1

/-- Options of an offline run over an existing batch folder: two passes, no regularizer,
no score. -/
def sampleOptions : artm_options ℚ where
  docword := ""
  vocab := ""
  batch_folder := "batches"
  batch_size := 500
  corpus_format := "bow"
  dictionary_file := "dictionary"
  dictionary_min_df := ""
  dictionary_max_df := ""
  load_model := ""
  topics := "16"
  use_modality := ""
  passes := 2
  inner_iterations_count := 10
  update_every := 0
  tau0 := 1024
  kappa := 1
  regularizer := []
  b_reuse_theta := false
  threads := 0
  save_model := ""
  write_model_readable := ""
  write_predictions := ""
  score_level := 2
  score := []
  final_score := []
  disk_cache_folder := ""
  response_file := ""
  b_paused := false
  b_disable_avx_opt := false
  b_use_dense_bow := false

/-- The options of `sampleOptions` in online mode, with a model update every 2 batches. -/
def onlineOptions : artm_options ℚ := { sampleOptions with update_every := 2 }

/-- A batch folder that exists and holds three batches, without a dictionary file. -/
def sampleEnv : Env where
  random_uuid := "uuid"
  batch_folder_exists := true
  batch_folder_is_empty := false
  create_directories_error := false
  batch_files_at_start := ["a.batch", "b.batch", "c.batch"]
  dictionary_file_exists := false
  batch_file_names := ["a.batch", "b.batch", "c.batch"]

/-- The offline options of `sampleOptions` with one regularizer, of type SmoothTheta. -/
def thetaOptions : artm_options ℚ := { sampleOptions with regularizer := ["1 SmoothTheta"] }

/-- The offline options of `sampleOptions` with a theta and a phi regularizer. -/
def phiOptions : artm_options ℚ :=
  { sampleOptions with regularizer := ["1 SmoothTheta", "2 SparsePhi #topic_1"] }

/-- The offline options of `sampleOptions` with a valid regularizer, a valid score and a
final score of unknown type. -/
def rejectedOptions : artm_options ℚ :=
  { sampleOptions with
    regularizer := ["2 SparsePhi"], score := ["Perplexity"], final_score := ["TopWords"] }

/-- Options that ask to parse a collection in an unknown corpus format and hold a
regularizer string without a type field. -/
def badFormatOptions : artm_options ℚ :=
  { sampleOptions with
    docword := "docword.txt", vocab := "vocab.txt", corpus_format := "xyz"
    regularizer := ["0.5"] }

/-- A batch folder that does not exist yet and can be created. -/
def freshEnv : Env where
  random_uuid := "uuid"
  batch_folder_exists := false
  batch_folder_is_empty := true
  create_directories_error := false
  batch_files_at_start := []
  dictionary_file_exists := false
  batch_file_names := []

/-- The string handed to lexical_cast by `parseNumberOrPercent`: the input without its last
character when that character is '%', the input itself otherwise (srcmain.cc 89-92). -/
def stripPercent (str : String) : String :=
  if str.toList.getLast? = some '%' then substr str 0 (str.length - 1) else str

/-- Whether a request is InitializeModel. -/
def Call.isInitializeModel {F : Type} : Call F → Bool
  | Call.InitializeModel _ => true
  | _ => false

/-- The arguments of the InitializeModel requests of a list, in order. -/
def initializeModelOf {F : Type} (calls : List (Call F)) : List (InitializeModelArgs F) :=
  calls.filterMap fun c => match c with
    | Call.InitializeModel args => some args
    | _ => none

/-- Options of `sampleOptions` with both document-frequency options given. -/
def dfOptions : artm_options ℚ :=
  { sampleOptions with dictionary_min_df := "5", dictionary_max_df := "abc" }

/-- The batch folder of `sampleEnv` with a dictionary file in it. -/
def dictionaryEnv : Env := { sampleEnv with dictionary_file_exists := true }

/-- The pair that one element of the list stands for, in the words of the description of
`parseKeyValuePairs`: an element name:value, split at its first ':', with a non-empty name
and a value that parses gives (name, value); every other element gives the element itself
with the value 0. -/
def elementPair {T : Type} [Zero T] (lexical_cast : String → Option T) (elem : String) :
    String × T :=
  if ':' ∈ elem.toList then
    let name := String.mk (elem.toList.takeWhile fun c => decide (c ≠ ':'))
    let value := String.mk ((elem.toList.dropWhile fun c => decide (c ≠ ':')).drop 1)
    if name ≠ "" then
      match lexical_cast value with
      | some v => (name, v)
      | none => (elem, 0)
    else (elem, 0)
  else (elem, 0)

/-- The options of `sampleOptions` with the modality list "text:abc". -/
def malformedModalityOptions : artm_options ℚ := { sampleOptions with use_modality := "text:abc" }

/-- The topic names that one name of the selector stands for, in the words of the
description of `parseTopics`: the topic names of the first group with that name, or the
name itself when no group has it. -/
def expandTopicName (groups : List (String × List String)) (name : String) : List String :=
  match groups.find? (fun group => group.1 = name) with
  | some group => group.2
  | none => [name]

/-- The name of the group that a parsed pair declares (srcmain.cc 154). -/
def groupName (pair : String × Int) : String := if pair.1 = "" then "topic" else pair.1

/-- Whether the type field of a regularizer string names a theta regularizer, one that
`configureRegularizer` records in ProcessBatchesArgs (srcmain.cc 301). -/
def isThetaRegularizer (regularizer : String) : Bool :=
  decide (to_lower_copy ((split (is_any_of "\t ") regularizer).getD 1 "") ∈
    ["smooththeta", "sparsetheta"])

/-- The arguments of one call of `configureRegularizer` besides the two argument objects. -/
structure ConfigureCall where
  regularizer : String
  topics : String
  config : RegularizerConfig

/-- A sequence of calls of `configureRegularizer` on the same two argument objects, as in the
loop of execute (srcmain.cc 646-652), here with a caller that goes on after a call that
throws (such a call leaves the objects as they were): the two objects after the last call
and the number of calls that returned without an exception. -/
def configureSequence {F : Type} [Zero F] [One F] [Add F] [Sub F] [Neg F] [Div F]
    [NatCast F] [IntCast F] [LE F] [DecidableEq F] [∀ a b : F, Decidable (a ≤ b)]
    (lib : Lib F) :
    List ConfigureCall → RegularizeModelArgs F → ProcessBatchesArgs F →
    RegularizeModelArgs F × ProcessBatchesArgs F × Nat
  | [], regularize_model_args, process_batches_args =>
    (regularize_model_args, process_batches_args, 0)
  | call :: rest, regularize_model_args, process_batches_args =>
    let r := configureRegularizer lib call.regularizer call.topics regularize_model_args
      process_batches_args call.config
    let s := configureSequence lib rest r.2.1 r.2.2.1
    (s.1, s.2.1, s.2.2 + (if r.1 = none then 1 else 0))

/-- Modelled from the spec: a named model matrix of the Model Registry (pwt, nwt, nwt_hat,
rwt), of shape token count by topic count; the matrix classes of the master component are
not among the sources. A matrix is the list of its token rows, each the list of the
token's values over the topics. -/
abbrev ModelMatrix (F : Type) := List (List F)

/-- Modelled from the spec: the Model Registry, the named matrices of a run; the registry
behind `MasterComponent` is not among the sources. -/
abbrev ModelRegistry (F : Type) := String → Option (ModelMatrix F)

/-- Modelled from the spec: the values of one token that the normalize operation starts
from when an rwt source is given, the nwt value plus the rwt value per topic (an rwt row
that is too short counts as zero on the missing topics); the code of NormalizeModel is not
among the sources. -/
def addTokenRow {F : Type} [LinearOrderedField F] : List F → List F → List F
  | [], _ => []
  | n :: ns, [] => n :: addTokenRow ns []
  | n :: ns, r :: rs => (n + r) :: addTokenRow ns rs

/-- Modelled from the spec: the nonnegative contributions of one token across the topics,
which the normalize operation sums; the code of NormalizeModel is not among the sources. -/
def tokenContributions {F : Type} [LinearOrderedField F] (nwt_row : List F)
    (rwt_row : Option (List F)) : List F :=
  (match rwt_row with
    | none => nwt_row
    | some r => addTokenRow nwt_row r).map fun x => max 0 x

/-- Modelled from the spec: the normalize operation on one token, "sums nonnegative
contributions across topics and divides to produce a valid probability distribution; a
token whose total is zero/negative after regularization yields a uniform fallback
distribution rather than a division fault"; the code of NormalizeModel is not among the
sources. -/
def normalizeToken {F : Type} [LinearOrderedField F] (nwt_row : List F)
    (rwt_row : Option (List F)) : List F :=
  let contributions := tokenContributions nwt_row rwt_row
  let total := contributions.sum
  if total ≤ 0 then contributions.map fun _ => 1 / (contributions.length : F)
  else contributions.map fun x => x / total

/-- Modelled from the spec: the normalize operation on every token of the nwt source, with
the rows of the optional rwt source taken in the same order (an rwt source with too few
rows counts as absent on the missing tokens); the code of NormalizeModel is not among the
sources. -/
def normalizeTokens {F : Type} [LinearOrderedField F] :
    ModelMatrix F → Option (ModelMatrix F) → ModelMatrix F
  | [], _ => []
  | row :: rows, none => normalizeToken row none :: normalizeTokens rows none
  | row :: rows, some [] => normalizeToken row none :: normalizeTokens rows (some [])
  | row :: rows, some (r :: rs) => normalizeToken row (some r) :: normalizeTokens rows (some rs)

/-- Modelled from the spec: the Normalize step `normalize(sources: nwtSource + optional
rwtSource, destName)` on the registry, for the NormalizeModelArgs that execute sends
(srcmain.cc 730-737); the code of NormalizeModel is not among the sources. The step
completes when the nwt source and the target are named and the nwt source exists; it then
stores the normalized matrix under the target name. -/
def normalizeModel {F : Type} [LinearOrderedField F] (registry : ModelRegistry F)
    (args : NormalizeModelArgs) : Option (ModelRegistry F) :=
  match args.nwt_source_name, args.pwt_target_name with
  | some source, some target =>
    match registry source with
    | some nwt =>
      some (Function.update registry target
        (some (normalizeTokens nwt (args.rwt_source_name.bind registry))))
    | none => none
  | _, _ => none

/-- A registry with the matrix nwt_hat of two tokens over two topics, the second token
without any count. -/
def sampleRegistry : ModelRegistry ℚ :=
  fun name => if name = "nwt_hat" then some [[1, 3], [0, 0]] else none

/-! ## Doubles with infinities and NaN -/

/-- The values of the C++ type double that the arithmetic of the client can produce: a
finite value, the two infinities and NaN. A finite value is an exact rational: rounding and
the sign of zero are not represented. -/
inductive Double where
  | finite (value : ℚ)
  | posInf
  | negInf
  | nan
deriving DecidableEq

/-- Negation of a double. -/
def Double.neg : Double → Double
  | Double.finite a => Double.finite (-a)
  | Double.posInf => Double.negInf
  | Double.negInf => Double.posInf
  | Double.nan => Double.nan

/-- Addition of doubles, with the IEEE 754 rules for the infinities and NaN: NaN
propagates, and the sum of the two opposite infinities is NaN. -/
def Double.add : Double → Double → Double
  | Double.nan, _ => Double.nan
  | _, Double.nan => Double.nan
  | Double.finite a, Double.finite b => Double.finite (a + b)
  | Double.posInf, Double.negInf => Double.nan
  | Double.negInf, Double.posInf => Double.nan
  | Double.posInf, _ => Double.posInf
  | _, Double.posInf => Double.posInf
  | Double.negInf, _ => Double.negInf
  | _, Double.negInf => Double.negInf

/-- Subtraction of doubles: the sum with the negated second operand. -/
def Double.sub (a b : Double) : Double := Double.add a (Double.neg b)

/-- Division of doubles, with the IEEE 754 rules for the infinities and NaN; a zero
divisor counts as +0. -/
def Double.div : Double → Double → Double
  | Double.nan, _ => Double.nan
  | _, Double.nan => Double.nan
  | Double.finite a, Double.finite b =>
    if b = 0 then
      if a = 0 then Double.nan else if 0 < a then Double.posInf else Double.negInf
    else Double.finite (a / b)
  | Double.finite _, _ => Double.finite 0
  | Double.posInf, Double.finite b => if 0 ≤ b then Double.posInf else Double.negInf
  | Double.negInf, Double.finite b => if 0 ≤ b then Double.negInf else Double.posInf
  | _, _ => Double.nan

/-- The comparison `<=` of doubles: false whenever an operand is NaN. -/
def Double.le : Double → Double → Bool
  | Double.nan, _ => false
  | _, Double.nan => false
  | Double.finite a, Double.finite b => decide (a ≤ b)
  | Double.negInf, _ => true
  | _, Double.posInf => true
  | _, _ => false

instance Double.instZero : Zero Double := ⟨Double.finite 0⟩

instance Double.instOne : One Double := ⟨Double.finite 1⟩

instance Double.instAdd : Add Double := ⟨Double.add⟩

instance Double.instSub : Sub Double := ⟨Double.sub⟩

instance Double.instNeg : Neg Double := ⟨Double.neg⟩

instance Double.instDiv : Div Double := ⟨Double.div⟩

instance Double.instNatCast : NatCast Double := ⟨fun n => Double.finite n⟩

instance Double.instIntCast : IntCast Double := ⟨fun z => Double.finite z⟩

instance Double.instLE : LE Double := ⟨fun a b => Double.le a b = true⟩

instance Double.instDecidableLe (a b : Double) : Decidable (a ≤ b) :=
  decEq (Double.le a b) true

/-- A library over `Double`: numbers are read in decimal integer notation; `pow x y` is
+infinity for a zero base with a negative exponent, as pow of the C library is (C99
F.9.4.4), 1 for the base 1 and the inverse for the exponent -1. -/
def ieeeLib : Lib Double where
  lexical_cast_float := fun s => (castDecimal s).map fun z => Double.finite z
  lexical_cast_double := fun s => (castDecimal s).map fun z => Double.finite z
  lexical_cast_int := castDecimal
  int_to_string := fun z => toString z
  float_to_int := fun x =>
    match x with
    | Double.finite a => Int.tdiv a.num a.den
    | _ => 0
  pow := fun x y =>
    match x, y with
    | Double.finite b, Double.finite e =>
      if b = 0 ∧ e < 0 then Double.posInf
      else if e = -1 then Double.finite b⁻¹
      else Double.finite 1
    | _, _ => Double.nan

/-- Options of an online run over an existing batch folder with a model update at every
batch, one pass, tau0 = -2 and kappa = 0.7 (the default of kappa). -/
def ieeeOptions : artm_options Double where
  docword := ""
  vocab := ""
  batch_folder := "batches"
  batch_size := 500
  corpus_format := "bow"
  dictionary_file := "dictionary"
  dictionary_min_df := ""
  dictionary_max_df := ""
  load_model := ""
  topics := "16"
  use_modality := ""
  passes := 1
  inner_iterations_count := 10
  update_every := 1
  tau0 := Double.finite (-2)
  kappa := Double.finite (7 / 10)
  regularizer := []
  b_reuse_theta := false
  threads := 0
  save_model := ""
  write_model_readable := ""
  write_predictions := ""
  score_level := 2
  score := []
  final_score := []
  disk_cache_folder := ""
  response_file := ""
  b_paused := false
  b_disable_avx_opt := false
  b_use_dense_bow := false

/-- The options of `sampleOptions` with the modality list "a:2;text:abc", whose second
entry has a value that is not a number, and with predictions written at the end. -/
def malformedEntryOptions : artm_options ℚ :=
  { sampleOptions with use_modality := "a:2;text:abc", write_predictions := "predictions" }

/-! # Theorems -/

section

variable {F : Type} [Zero F] [One F] [Add F] [Sub F] [Neg F] [Div F]
  [NatCast F] [IntCast F] [LE F] [DecidableEq F] [∀ a b : F, Decidable (a ≤ b)]

/-! ## The online loop -/

/-- The online body when the test of srcmain.cc 743 fails: the batch is only queued. -/
theorem onlineBody_skip (lib : Lib F) (options : artm_options F) (names : List String)
    (i : Nat) (st : LoopState F)
    (h : ¬ (((st.process_batches_args.batch_filename.length + 1 : Nat) : Int)
        ≥ options.update_every ∨ i + 1 = names.length)) :
    onlineBody lib options names i st =
      ({ st with process_batches_args :=
          { st.process_batches_args with
            reset_scores := some (decide (i = 0))
            batch_filename := st.process_batches_args.batch_filename ++ [names.getD i ""] } },
        []) := by
  unfold onlineBody
  simp only [List.length_append, List.length_singleton]
  rw [if_neg h]

/-- The online body when the test of srcmain.cc 743 holds: one model update. -/
theorem onlineBody_fire (lib : Lib F) (options : artm_options F) (names : List String)
    (i : Nat) (st : LoopState F)
    (h : ((st.process_batches_args.batch_filename.length + 1 : Nat) : Int)
        ≥ options.update_every ∨ i + 1 = names.length) :
    (onlineBody lib options names i st).1.update_count = st.update_count + 1 ∧
    (onlineBody lib options names i st).1.process_batches_args.batch_filename = [] ∧
    (onlineBody lib options names i st).1.regularize_model_args.regularizer_settings =
      st.regularize_model_args.regularizer_settings ∧
    (onlineBody lib options names i st).2 =
      Call.ProcessBatches
        { st.process_batches_args with
          reset_scores := some (decide (i = 0))
          batch_filename := st.process_batches_args.batch_filename ++ [names.getD i ""]
          pwt_source_name := some pwt_model_name
          nwt_target_name := some nwt_hat_model_name } ::
      Call.MergeModel (mergeArgsAt lib options (st.update_count + 1)) ::
      (if st.regularize_model_args.regularizer_settings.length > 0 then
        [Call.RegularizeModel
          { st.regularize_model_args with
            nwt_source_name := some nwt_model_name
            pwt_source_name := some pwt_model_name
            rwt_target_name := some rwt_model_name },
         Call.NormalizeModel
          { rwt_source_name := some rwt_model_name
            nwt_source_name := some nwt_model_name
            pwt_target_name := some pwt_model_name }]
       else
        [Call.NormalizeModel
          { st.normalize_model_args with
            nwt_source_name := some nwt_model_name
            pwt_target_name := some pwt_model_name }]) := by
  unfold onlineBody
  simp only [List.length_append, List.length_singleton]
  rw [if_pos h]
  by_cases hr : st.regularize_model_args.regularizer_settings.length > 0
  · simp only [hr, if_true]
    simp [mergeArgsAt]
  · simp only [hr, if_false]
    simp [mergeArgsAt]

theorem mergeModelOf_append {F : Type} (xs ys : List (Call F)) :
    mergeModelOf (xs ++ ys) = mergeModelOf xs ++ mergeModelOf ys := by
  simp [mergeModelOf, List.filterMap_append]

theorem processBatchesOf_append {F : Type} (xs ys : List (Call F)) :
    processBatchesOf (xs ++ ys) = processBatchesOf xs ++ processBatchesOf ys := by
  simp [processBatchesOf, List.filterMap_append]

theorem onlineBody_fire_merges (lib : Lib F) (options : artm_options F) (names : List String)
    (i : Nat) (st : LoopState F)
    (h : ((st.process_batches_args.batch_filename.length + 1 : Nat) : Int)
        ≥ options.update_every ∨ i + 1 = names.length) :
    mergeModelOf (onlineBody lib options names i st).2 =
      [mergeArgsAt lib options (st.update_count + 1)] := by
  rw [(onlineBody_fire lib options names i st h).2.2.2]
  by_cases hr : st.regularize_model_args.regularizer_settings.length > 0 <;>
    simp [mergeModelOf, hr]

theorem onlineBody_fire_batches (lib : Lib F) (options : artm_options F) (names : List String)
    (i : Nat) (st : LoopState F)
    (h : ((st.process_batches_args.batch_filename.length + 1 : Nat) : Int)
        ≥ options.update_every ∨ i + 1 = names.length) :
    (processBatchesOf (onlineBody lib options names i st).2).map (fun a => a.batch_filename) =
      [st.process_batches_args.batch_filename ++ [names.getD i ""]] := by
  rw [(onlineBody_fire lib options names i st h).2.2.2]
  by_cases hr : st.regularize_model_args.regularizer_settings.length > 0 <;>
    simp [processBatchesOf, hr]

/-- The MergeModel requests of the online loop use consecutive counter values, and the loop
leaves the counter advanced by their number. -/
theorem onlineFor_merges (lib : Lib F) (options : artm_options F) (names : List String) :
    ∀ (n i : Nat) (st : LoopState F),
      mergeModelOf (onlineFor lib options names n i st).2 =
        (List.range (mergeModelOf (onlineFor lib options names n i st).2).length).map
          (fun (j : Nat) => mergeArgsAt lib options (st.update_count + 1 + (j : Int))) ∧
      (onlineFor lib options names n i st).1.update_count =
        st.update_count + ((mergeModelOf (onlineFor lib options names n i st).2).length : Int) := by
  intro n
  induction n with
  | zero =>
    intro i st
    simp [onlineFor, mergeModelOf]
  | succ n ih =>
    intro i st
    obtain ⟨h1, h2⟩ := ih (i + 1) (onlineBody lib options names i st).1
    simp only [onlineFor, mergeModelOf_append]
    by_cases hc : ((st.process_batches_args.batch_filename.length + 1 : Nat) : Int)
        ≥ options.update_every ∨ i + 1 = names.length
    · rw [onlineBody_fire_merges lib options names i st hc]
      rw [(onlineBody_fire lib options names i st hc).1] at h1 h2
      constructor
      · rw [List.singleton_append, List.length_cons, List.range_succ_eq_map, List.map_cons,
          List.map_map]
        congr 1
        · simp
        · conv_lhs => rw [h1]
          apply List.map_congr_left
          intro j _
          simp only [Function.comp, Nat.cast_succ]
          congr 1
          ring
      · rw [h2]
        simp only [List.singleton_append, List.length_cons, Nat.cast_succ]
        ring
    · rw [onlineBody_skip lib options names i st hc] at h1 h2 ⊢
      simp only [mergeModelOf, List.filterMap_nil, List.nil_append] at h1 h2 ⊢
      exact ⟨h1, h2⟩

theorem onlineFor_zero (lib : Lib F) (options : artm_options F) (names : List String)
    (i : Nat) (st : LoopState F) : onlineFor lib options names 0 i st = (st, []) := rfl

theorem onlineFor_succ (lib : Lib F) (options : artm_options F) (names : List String)
    (n i : Nat) (st : LoopState F) :
    onlineFor lib options names (n + 1) i st =
      ((onlineFor lib options names n (i + 1) (onlineBody lib options names i st).1).1,
        (onlineBody lib options names i st).2 ++
          (onlineFor lib options names n (i + 1) (onlineBody lib options names i st).1).2) := rfl

/-- The number of model updates of the online loop, and the empty queue it leaves. -/
theorem onlineFor_count (lib : Lib F) (options : artm_options F) (names : List String)
    (U : Nat) (hU : 1 ≤ U) (hu : options.update_every = (U : Int)) :
    ∀ (n i : Nat) (st : LoopState F), i + n = names.length →
      st.process_batches_args.batch_filename.length < U →
      (mergeModelOf (onlineFor lib options names n i st).2).length =
        (if n = 0 then 0
          else (st.process_batches_args.batch_filename.length + n + U - 1) / U) ∧
      (0 < n → (onlineFor lib options names n i st).1.process_batches_args.batch_filename = []) := by
  intro n
  induction n with
  | zero =>
    intro i st _ _
    simp [onlineFor_zero, mergeModelOf]
  | succ n ih =>
    intro i st hin hr
    rw [onlineFor_succ, mergeModelOf_append]
    by_cases hc : ((st.process_batches_args.batch_filename.length + 1 : Nat) : Int)
        ≥ options.update_every ∨ i + 1 = names.length
    · have hf := onlineBody_fire lib options names i st hc
      obtain ⟨ih1, ih2⟩ := ih (i + 1) (onlineBody lib options names i st).1 (by omega)
        (by rw [hf.2.1]; simpa using hU)
      rw [onlineBody_fire_merges lib options names i st hc, List.length_append, ih1, hf.2.1]
      simp only [List.length_singleton, List.length_nil, Nat.zero_add, Nat.succ_ne_zero,
        if_false]
      constructor
      · by_cases hn : n = 0
        · subst hn
          simp only [if_true]
          symm
          apply Nat.div_eq_of_lt_le <;> omega
        · simp only [hn, if_false]
          have hlen : st.process_batches_args.batch_filename.length + 1 = U := by omega
          have : st.process_batches_args.batch_filename.length + (n + 1) + U - 1
              = (n + U - 1) + U := by omega
          rw [this, Nat.add_div_right _ (by omega)]
          omega
      · intro _
        by_cases hn : n = 0
        · subst hn
          rw [onlineFor_zero]
          exact hf.2.1
        · exact ih2 (by omega)
    · have hs := onlineBody_skip lib options names i st hc
      have hn : n ≠ 0 := by omega
      have hlt : st.process_batches_args.batch_filename.length + 1 < U := by omega
      obtain ⟨ih1, ih2⟩ := ih (i + 1) (onlineBody lib options names i st).1 (by omega)
        (by rw [hs]; simpa using hlt)
      rw [List.length_append, ih1]
      rw [hs] at ih2 ⊢
      simp only [mergeModelOf, List.filterMap_nil, List.length_nil, Nat.zero_add,
        List.length_append, List.length_singleton, hn, if_false, Nat.succ_ne_zero]
      constructor
      · congr 1
        omega
      · intro _
        exact ih2 (by omega)

theorem drop_eq_getD_cons (names : List String) (i : Nat) (h : i < names.length) :
    names.drop i = names.getD i "" :: names.drop (i + 1) := by
  rw [List.getD_eq_getElem _ _ h]
  exact List.drop_eq_getElem_cons h

/-- The batch lists of the ProcessBatches requests of the online loop: together with the
queue left at the end they are the queue at the start followed by the remaining batches;
each has between 1 and `U` entries, and each but the last has `U`. -/
theorem onlineFor_batches (lib : Lib F) (options : artm_options F) (names : List String)
    (U : Nat) (hU : 1 ≤ U) (hu : options.update_every = (U : Int)) :
    ∀ (n i : Nat) (st : LoopState F), i + n = names.length →
      st.process_batches_args.batch_filename.length < U →
      ((processBatchesOf (onlineFor lib options names n i st).2).map
          (fun a => a.batch_filename)).flatten ++
        (onlineFor lib options names n i st).1.process_batches_args.batch_filename =
        st.process_batches_args.batch_filename ++ names.drop i ∧
      (∀ l ∈ (processBatchesOf (onlineFor lib options names n i st).2).map
          (fun a => a.batch_filename), 1 ≤ l.length ∧ l.length ≤ U) ∧
      (∀ l ∈ ((processBatchesOf (onlineFor lib options names n i st).2).map
          (fun a => a.batch_filename)).dropLast, l.length = U) := by
  intro n
  induction n with
  | zero =>
    intro i st hin _
    have : names.drop i = [] := List.drop_eq_nil_of_le (by omega)
    simp [onlineFor_zero, processBatchesOf, this]
  | succ n ih =>
    intro i st hin hr
    rw [onlineFor_succ, processBatchesOf_append, List.map_append]
    have hdrop := drop_eq_getD_cons names i (by omega)
    by_cases hc : ((st.process_batches_args.batch_filename.length + 1 : Nat) : Int)
        ≥ options.update_every ∨ i + 1 = names.length
    · have hf := onlineBody_fire lib options names i st hc
      obtain ⟨ih1, ih2, ih3⟩ := ih (i + 1) (onlineBody lib options names i st).1 (by omega)
        (by rw [hf.2.1]; simpa using hU)
      rw [onlineBody_fire_batches lib options names i st hc]
      rw [hf.2.1, List.nil_append] at ih1
      refine ⟨?_, ?_, ?_⟩
      · rw [List.flatten_append, List.append_assoc, ih1, hdrop]
        simp
      · intro l hl
        rcases List.mem_append.mp hl with hl | hl
        · rw [List.mem_singleton] at hl
          subst hl
          simp only [List.length_append, List.length_singleton]
          omega
        · exact ih2 l hl
      · intro l hl
        rw [List.singleton_append] at hl
        by_cases hn : n = 0
        · subst hn
          simp [onlineFor_zero, processBatchesOf] at hl
        · have hlen : st.process_batches_args.batch_filename.length + 1 = U := by omega
          cases hrest : (processBatchesOf (onlineFor lib options names n (i + 1)
              (onlineBody lib options names i st).1).2).map (fun a => a.batch_filename) with
          | nil =>
            rw [hrest] at hl
            simp at hl
          | cons x xs =>
            rw [hrest, List.dropLast_cons₂, List.mem_cons] at hl
            rcases hl with hl | hl
            · subst hl
              simpa using hlen
            · exact ih3 l (by rw [hrest]; exact hl)
    · have hs := onlineBody_skip lib options names i st hc
      have hlt : st.process_batches_args.batch_filename.length + 1 < U := by omega
      obtain ⟨ih1, ih2, ih3⟩ := ih (i + 1) (onlineBody lib options names i st).1 (by omega)
        (by rw [hs]; simpa using hlt)
      rw [hs] at ih1 ih2 ih3 ⊢
      simp only [processBatchesOf, List.filterMap_nil, List.map_nil, List.nil_append] at *
      refine ⟨?_, ih2, ih3⟩
      rw [ih1, hdrop]
      simp

/-- The requests of the online loop are a sequence of model updates, each of the shape
`IsOnlineUpdate`, with a RegularizeModel request exactly when regularizer settings exist. -/
theorem onlineFor_blocks (lib : Lib F) (options : artm_options F) (names : List String) :
    ∀ (n i : Nat) (st : LoopState F),
      (onlineFor lib options names n i st).1.regularize_model_args.regularizer_settings =
        st.regularize_model_args.regularizer_settings ∧
      ∃ blocks : List (List (Call F)),
        (onlineFor lib options names n i st).2 = blocks.flatten ∧
        ∀ b ∈ blocks, IsOnlineUpdate
          (decide (st.regularize_model_args.regularizer_settings.length > 0)) b := by
  intro n
  induction n with
  | zero =>
    intro i st
    exact ⟨rfl, [], by simp [onlineFor_zero], by simp⟩
  | succ n ih =>
    intro i st
    rw [onlineFor_succ]
    obtain ⟨ih0, blocks, ih1, ih2⟩ := ih (i + 1) (onlineBody lib options names i st).1
    by_cases hc : ((st.process_batches_args.batch_filename.length + 1 : Nat) : Int)
        ≥ options.update_every ∨ i + 1 = names.length
    · have hf := onlineBody_fire lib options names i st hc
      rw [hf.2.2.1] at ih0 ih2
      refine ⟨ih0, (onlineBody lib options names i st).2 :: blocks, ?_, ?_⟩
      · rw [List.flatten_cons, ih1]
      · intro b hb
        rcases List.mem_cons.mp hb with hb | hb
        · subst hb
          rw [hf.2.2.2]
          by_cases hr : st.regularize_model_args.regularizer_settings.length > 0
          · simp only [hr, if_true, decide_True, IsOnlineUpdate]
            exact ⟨_, if st.update_count + 1 = 1 then 1
                else lib.pow (options.tau0 + ((st.update_count + 1 : Int) : F)) (-options.kappa),
              _, rfl, rfl, rfl, rfl,
              { st.regularize_model_args with
                nwt_source_name := some nwt_model_name
                pwt_source_name := some pwt_model_name
                rwt_target_name := some rwt_model_name },
              rfl, List.ne_nil_of_length_pos hr, rfl⟩
          · simp only [hr, if_false, decide_False, IsOnlineUpdate]
            exact ⟨_, if st.update_count + 1 = 1 then 1
                else lib.pow (options.tau0 + ((st.update_count + 1 : Int) : F)) (-options.kappa),
              _, rfl, rfl, rfl, rfl, rfl⟩
        · exact ih2 b hb
    · have hs := onlineBody_skip lib options names i st hc
      rw [hs] at ih0 ih1 ih2 ⊢
      exact ⟨ih0, blocks, by simpa using ih1, ih2⟩

/-! ## The loop over the passes -/

theorem onlineBody_norm (lib : Lib F) (options : artm_options F) (names : List String)
    (i : Nat) (st : LoopState F)
    (h0 : st.regularize_model_args.regularizer_settings.length = 0) :
    (onlineBody lib options names i st).1.normalize_model_args.rwt_source_name =
      st.normalize_model_args.rwt_source_name ∧
    (onlineBody lib options names i st).1.regularize_model_args.regularizer_settings =
      st.regularize_model_args.regularizer_settings := by
  unfold onlineBody
  simp only [h0, gt_iff_lt, lt_self_iff_false, if_false]
  split <;> exact ⟨rfl, rfl⟩

theorem onlineFor_norm (lib : Lib F) (options : artm_options F) (names : List String) :
    ∀ (n i : Nat) (st : LoopState F),
      st.regularize_model_args.regularizer_settings.length = 0 →
      (onlineFor lib options names n i st).1.normalize_model_args.rwt_source_name =
        st.normalize_model_args.rwt_source_name := by
  intro n
  induction n with
  | zero => intro i st _; rfl
  | succ n ih =>
    intro i st h0
    rw [onlineFor_succ]
    have hb := onlineBody_norm lib options names i st h0
    rw [ih (i + 1) _ (by rw [hb.2]; exact h0), hb.1]

theorem numUpdates_eq (B U : Nat) (hU : 1 ≤ U) :
    (if B = 0 then 0 else (0 + B + U - 1) / U) = numUpdates B U := by
  unfold numUpdates
  split
  · rename_i h
    subst h
    symm
    apply Nat.div_eq_of_lt
    omega
  · simp

/-- An offline pass: its requests and the state it leaves. -/
theorem offlinePass_spec {F : Type} (names : List String) (st : LoopState F) :
    (offlinePass names st).1.update_count = st.update_count ∧
    (offlinePass names st).1.process_batches_args.batch_filename = [] ∧
    (offlinePass names st).1.regularize_model_args.regularizer_settings =
      st.regularize_model_args.regularizer_settings ∧
    (st.regularize_model_args.regularizer_settings.length = 0 →
      (offlinePass names st).1.normalize_model_args.rwt_source_name =
        st.normalize_model_args.rwt_source_name) ∧
    (offlinePass names st).2 =
      Call.ProcessBatches
        { st.process_batches_args with
          pwt_source_name := some pwt_model_name
          nwt_target_name := some nwt_hat_model_name
          batch_filename := st.process_batches_args.batch_filename ++ names } ::
      (if st.regularize_model_args.regularizer_settings.length > 0 then
        [Call.RegularizeModel
          { st.regularize_model_args with
            nwt_source_name := some nwt_hat_model_name
            pwt_source_name := some pwt_model_name
            rwt_target_name := some rwt_model_name },
         Call.NormalizeModel
          { rwt_source_name := some rwt_model_name
            nwt_source_name := some nwt_hat_model_name
            pwt_target_name := some pwt_model_name }]
       else
        [Call.NormalizeModel
          { st.normalize_model_args with
            nwt_source_name := some nwt_hat_model_name
            pwt_target_name := some pwt_model_name }]) := by
  unfold offlinePass
  by_cases hr : st.regularize_model_args.regularizer_settings.length > 0
  · rw [if_pos hr, if_pos hr]
    refine ⟨rfl, rfl, rfl, ?_, rfl⟩
    intro h0
    omega
  · rw [if_neg hr, if_neg hr]
    exact ⟨rfl, rfl, rfl, fun _ => rfl, rfl⟩

/-- Every pass keeps `PassInv`. -/
theorem onePass_inv (lib : Lib F) (options : artm_options F) (names : List String)
    (st : LoopState F) (h : PassInv options st) :
    PassInv options (onePass lib options names st).1 := by
  obtain ⟨h1, h2, h3⟩ := h
  unfold onePass
  split
  · rename_i hon
    have hcount := onlineFor_count lib options names options.update_every.toNat (by omega)
      (by omega) names.length 0 st (by omega) (by rw [h1, List.length_nil]; omega)
    have hblocks := (onlineFor_blocks lib options names names.length 0 st).1
    refine ⟨?_, ?_, ?_⟩
    · by_cases hn : names.length = 0
      · rw [hn, onlineFor_zero]
        exact h1
      · exact hcount.2 (by omega)
    · rw [hblocks, h2]
    · intro h0
      rw [hblocks] at h0
      rw [onlineFor_norm lib options names names.length 0 st h0]
      exact h3 h0
  · have hs := offlinePass_spec names st
    refine ⟨hs.2.1, ?_, ?_⟩
    · rw [hs.2.2.1, h2]
    · intro h0
      rw [hs.2.2.1] at h0
      rw [hs.2.2.2.1 h0]
      exact h3 h0

theorem passesFor_zero (lib : Lib F) (options : artm_options F) (names : List String)
    (st : LoopState F) : passesFor lib options names 0 st = (st, []) := rfl

theorem passesFor_succ (lib : Lib F) (options : artm_options F) (names : List String)
    (n : Nat) (st : LoopState F) :
    passesFor lib options names (n + 1) st =
      ((passesFor lib options names n (onePass lib options names st).1).1,
        { calls := (onePass lib options names st).2,
          update_count := (onePass lib options names st).1.update_count } ::
        (passesFor lib options names n (onePass lib options names st).1).2) := rfl

/-- The loop over the passes records one pass per iteration; every recorded pass is a pass
started in a state `PassInv`, and the loop ends in such a state. -/
theorem passesFor_mem (lib : Lib F) (options : artm_options F) (names : List String) :
    ∀ (n : Nat) (st : LoopState F), PassInv options st →
      PassInv options (passesFor lib options names n st).1 ∧
      (passesFor lib options names n st).2.length = n ∧
      ∀ pass ∈ (passesFor lib options names n st).2,
        ∃ s : LoopState F, PassInv options s ∧
          pass = { calls := (onePass lib options names s).2,
                   update_count := (onePass lib options names s).1.update_count } := by
  intro n
  induction n with
  | zero =>
    intro st h
    simp [passesFor_zero, h]
  | succ n ih =>
    intro st h
    rw [passesFor_succ]
    obtain ⟨ih1, ih2, ih3⟩ := ih _ (onePass_inv lib options names st h)
    refine ⟨ih1, by simp [ih2], ?_⟩
    intro pass hp
    rcases List.mem_cons.mp hp with hp | hp
    · exact ⟨st, h, hp⟩
    · exact ih3 pass hp

/-- The passes by index: when every pass from a state `PassInv` advances the update counter
by `c`, the pass of index `q` starts with the counter advanced by `q * c`. -/
theorem passesFor_get (lib : Lib F) (options : artm_options F) (names : List String) (c : Int)
    (hc : ∀ s : LoopState F, PassInv options s →
      (onePass lib options names s).1.update_count = s.update_count + c) :
    ∀ (n : Nat) (st : LoopState F), PassInv options st →
      ∀ (q : Nat) (pass : PassRecord F), (passesFor lib options names n st).2[q]? = some pass →
        ∃ s : LoopState F, PassInv options s ∧ s.update_count = st.update_count + (q : Int) * c ∧
          pass = { calls := (onePass lib options names s).2,
                   update_count := (onePass lib options names s).1.update_count } := by
  intro n
  induction n with
  | zero =>
    intro st _ q pass hq
    simp [passesFor_zero] at hq
  | succ n ih =>
    intro st h q pass hq
    rw [passesFor_succ] at hq
    cases q with
    | zero =>
      simp only [List.getElem?_cons_zero, Option.some.injEq] at hq
      exact ⟨st, h, by simp, hq.symm⟩
    | succ q =>
      simp only [List.getElem?_cons_succ] at hq
      obtain ⟨s, hs1, hs2, hs3⟩ := ih _ (onePass_inv lib options names st h) q pass hq
      refine ⟨s, hs1, ?_, hs3⟩
      rw [hs2, hc st h]
      push_cast
      ring

/-- An online pass from a state `PassInv` performs `numUpdates B U` model updates. -/
theorem onePass_online_count (lib : Lib F) (options : artm_options F) (names : List String)
    (U : Nat) (hU : 1 ≤ U) (hu : options.update_every = (U : Int)) (st : LoopState F)
    (h : PassInv options st) :
    (mergeModelOf (onePass lib options names st).2).length = numUpdates names.length U := by
  have hon : options.update_every > 0 := by omega
  unfold onePass
  rw [if_pos hon]
  have hcount := (onlineFor_count lib options names U hU hu names.length 0 st (by omega)
    (by rw [h.1, List.length_nil]; omega)).1
  rw [hcount, h.1, List.length_nil]
  exact numUpdates_eq names.length U hU

/-- The loop over the passes leaves the counter advanced by `c` per pass, when every pass
from a state `PassInv` advances it by `c`. -/
theorem passesFor_final_count (lib : Lib F) (options : artm_options F) (names : List String)
    (c : Int)
    (hc : ∀ s : LoopState F, PassInv options s →
      (onePass lib options names s).1.update_count = s.update_count + c) :
    ∀ (n : Nat) (st : LoopState F), PassInv options st →
      (passesFor lib options names n st).1.update_count = st.update_count + (n : Int) * c := by
  intro n
  induction n with
  | zero =>
    intro st _
    simp [passesFor_zero]
  | succ n ih =>
    intro st h
    rw [passesFor_succ]
    simp only []
    rw [ih _ (onePass_inv lib options names st h), hc st h]
    push_cast
    ring

theorem LoopEntry.passInv {F : Type} {options : artm_options F} {st : LoopState F}
    (h : LoopEntry options st) : PassInv options st := by
  refine ⟨h.1, h.2.2.2, ?_⟩
  intro _
  rw [h.2.2.1]

theorem processBatchesOf_flatten_length {F : Type} (passes : List (PassRecord F))
    (h : ∀ pass ∈ passes, (processBatchesOf pass.calls).length = 1) :
    (processBatchesOf (passes.map fun pass => pass.calls).flatten).length = passes.length := by
  induction passes with
  | nil => simp [processBatchesOf]
  | cons x rest ih =>
    simp only [List.map_cons, List.flatten_cons, processBatchesOf_append, List.length_append,
      List.length_cons]
    rw [ih (fun pass hp => h pass (List.mem_cons_of_mem _ hp)), h x (List.mem_cons_self _ _)]
    omega

theorem countP_pos_of_mem (p : String → Bool) (l : List String) (x : String) (hx : x ∈ l)
    (hp : p x = true) : 0 < l.countP p :=
  List.countP_pos_iff.mpr ⟨x, hx, hp⟩

theorem countP_zero_of_all (p : String → Bool) (l : List String)
    (h : ∀ x ∈ l, p x = false) : l.countP p = 0 := by
  rw [List.countP_eq_zero]
  intro x hx
  rw [h x hx]
  simp

/-! ## Configuration of regularizers and scores -/

/-- When `configureRegularizer` throws, and what it leaves behind when it does. -/
theorem configureRegularizer_thrown (lib : Lib F) (regularizer topics : String)
    (rma : RegularizeModelArgs F) (pba : ProcessBatchesArgs F) (config : RegularizerConfig) :
    ((configureRegularizer lib regularizer topics rma pba config).1.isSome ↔
      regularizerRejected lib regularizer) ∧
    ((configureRegularizer lib regularizer topics rma pba config).1.isSome →
      (configureRegularizer lib regularizer topics rma pba config).2 = (rma, pba, config)) := by
  unfold configureRegularizer regularizerRejected
  simp only []
  generalize to_lower_copy ((split (is_any_of "\t ") regularizer).getD 1 "") = ty
  by_cases h1 : (split (is_any_of "\t ") regularizer).length < 2
  · simp [h1]
  · rw [if_neg h1]
    cases h2 : lib.lexical_cast_float ((split (is_any_of "\t ") regularizer).getD 0 "") with
    | none => simp [h1]
    | some tau =>
      simp only [h1, false_or]
      by_cases ha : ty = "smooththeta" ∨ ty = "sparsetheta"
      · rw [if_pos ha]
        rcases ha with ha | ha <;> simp [ha]
      · rw [if_neg ha]
        by_cases hb : ty = "smoothphi" ∨ ty = "sparsephi"
        · rw [if_pos hb]
          rcases hb with hb | hb <;> simp [hb]
        · rw [if_neg hb]
          by_cases hd : ty = "decorrelation"
          · rw [if_pos hd]
            simp [hd]
          · rw [if_neg hd]
            push_neg at ha hb
            simp [ha.1, ha.2, hb.1, hb.2, hd]

/-- What a successful `configureRegularizer` changes: the batch list of ProcessBatchesArgs is
untouched, and RegularizeModelArgs gains one setting exactly for a phi regularizer. -/
theorem configureRegularizer_ok (lib : Lib F) (regularizer topics : String)
    (rma : RegularizeModelArgs F) (pba : ProcessBatchesArgs F) (config : RegularizerConfig)
    (h : (configureRegularizer lib regularizer topics rma pba config).1 = none) :
    (configureRegularizer lib regularizer topics rma pba config).2.2.1.batch_filename =
      pba.batch_filename ∧
    (configureRegularizer lib regularizer topics rma pba config).2.1.regularizer_settings.length =
      rma.regularizer_settings.length + (if isPhiRegularizer regularizer then 1 else 0) := by
  revert h
  unfold configureRegularizer isPhiRegularizer
  simp only []
  generalize to_lower_copy ((split (is_any_of "\t ") regularizer).getD 1 "") = ty
  by_cases h1 : (split (is_any_of "\t ") regularizer).length < 2
  · simp [h1]
  · rw [if_neg h1]
    cases h2 : lib.lexical_cast_float ((split (is_any_of "\t ") regularizer).getD 0 "") with
    | none => simp
    | some tau =>
      simp only []
      by_cases ha : ty = "smooththeta" ∨ ty = "sparsetheta"
      · rw [if_pos ha]
        rcases ha with ha | ha <;> simp [ha]
      · rw [if_neg ha]
        by_cases hb : ty = "smoothphi" ∨ ty = "sparsephi"
        · rw [if_pos hb]
          rcases hb with hb | hb <;> simp [hb]
        · rw [if_neg hb]
          by_cases hd : ty = "decorrelation"
          · rw [if_pos hd]
            simp [hd]
          · rw [if_neg hd]
            simp

theorem scoreSpecific_none_iff (lib : Lib F) (score_type : String) (score_arg : F)
    (sel : Selectors F) :
    scoreSpecific lib score_type score_arg sel = none ↔ score_type ∉ scoreTypeNames := by
  unfold scoreSpecific scoreTypeNames
  simp only []
  by_cases h1 : score_type = "perplexity"
  · simp [h1]
  by_cases h2 : score_type = "sparsitytheta"
  · simp [h2]
  by_cases h3 : score_type = "sparsityphi"
  · simp [h3]
  by_cases h4 : score_type = "toptokens"
  · simp [h4]
  by_cases h5 : score_type = "thetasnippet"
  · simp [h5]
  by_cases h6 : score_type = "topickernel"
  · simp [h6]
  simp [h1, h2, h3, h4, h5, h6]

theorem splitChars_ne_nil (sep : Char → Bool) (cs : List Char) : splitChars sep cs ≠ [] := by
  induction cs with
  | nil => simp [splitChars]
  | cons c cs ih =>
    unfold splitChars
    split
    · simp
    · split
      · simp
      · simp

theorem split_length_pos (sep : Char → Bool) (s : String) : 1 ≤ (split sep s).length := by
  unfold split
  rw [List.length_map]
  exact List.length_pos.mpr (splitChars_ne_nil sep s.toList)

/-- When `addScore` throws, what it leaves behind when it does, and what it requests. -/
theorem addScore_thrown (lib : Lib F) (score topics : String)
    (master_config : MasterComponentConfig F) (helper : ScoreHelper) :
    ((addScore lib score topics master_config helper).thrown.isSome ↔ scoreRejected lib score) ∧
    ((addScore lib score topics master_config helper).thrown.isSome →
      (addScore lib score topics master_config helper).master_config = master_config ∧
      (addScore lib score topics master_config helper).helper = helper ∧
      (addScore lib score topics master_config helper).calls = []) ∧
    (∀ c ∈ (addScore lib score topics master_config helper).calls, c.isTraining = false) := by
  unfold addScore scoreRejected
  simp only []
  have hlen : ¬ (split (is_any_of "\t ") score).length < 1 := by
    have := split_length_pos (is_any_of "\t ") score
    omega
  rw [if_neg hlen]
  generalize scoreTypeAndArg lib (to_lower_copy ((split (is_any_of "\t ") score).getD 0 ""))
    = parsed
  cases hs : scoreSpecific lib parsed.1 parsed.2
      (parseSelectors lib topics ((split (is_any_of "\t ") score).drop 1)) with
  | none =>
    have := (scoreSpecific_none_iff lib _ _ _).mp hs
    simp [this]
  | some p =>
    have : ¬ parsed.1 ∉ scoreTypeNames := by
      intro hn
      rw [(scoreSpecific_none_iff lib _ _ _).mpr hn] at hs
      exact Option.noConfusion hs
    obtain ⟨ty, cfg⟩ := p
    simp [this, Call.isTraining]

/-- The exception of `configureRegularizer` does not depend on the objects it is given. -/
theorem configureRegularizer_thrown_indep (lib : Lib F) (regularizer topics : String)
    (rma rma1 : RegularizeModelArgs F) (pba pba1 : ProcessBatchesArgs F)
    (config config1 : RegularizerConfig) :
    (configureRegularizer lib regularizer topics rma pba config).1 =
      (configureRegularizer lib regularizer topics rma1 pba1 config1).1 := by
  unfold configureRegularizer
  simp only []
  split
  · rfl
  · split
    · rfl
    · split
      · rfl
      · split
        · rfl
        · split <;> rfl

/-- The exception of `addScore` does not depend on the state it is given. -/
theorem addScore_thrown_indep (lib : Lib F) (score topics : String)
    (mc mc1 : MasterComponentConfig F) (helper helper1 : ScoreHelper) :
    (addScore lib score topics mc helper).thrown =
      (addScore lib score topics mc1 helper1).thrown := by
  unfold addScore
  simp only []
  split
  · rfl
  · split <;> rfl

/-- The loop of step 4: it throws exactly when some string is rejected, with the
exception of a rejected string; when it does not throw it leaves the batch list alone and
adds one setting per phi regularizer; it issues no training request. -/
theorem execute_step4_spec (lib : Lib F) (topics : String) :
    ∀ (regs : List String) (rma : RegularizeModelArgs F) (pba : ProcessBatchesArgs F),
      ((execute_step4 lib topics regs rma pba).1.isSome ↔
        ∃ x ∈ regs, regularizerRejected lib x) ∧
      (∀ what, (execute_step4 lib topics regs rma pba).1 = some what →
        ∃ x ∈ regs, (configureRegularizer lib x topics {} {} {}).1 = some what) ∧
      ((execute_step4 lib topics regs rma pba).1 = none →
        (execute_step4 lib topics regs rma pba).2.2.1.batch_filename = pba.batch_filename ∧
        (execute_step4 lib topics regs rma pba).2.1.regularizer_settings.length =
          rma.regularizer_settings.length + regs.countP isPhiRegularizer) ∧
      (∀ c ∈ (execute_step4 lib topics regs rma pba).2.2.2, c.isTraining = false) := by
  intro regs
  induction regs with
  | nil =>
    intro rma pba
    simp [execute_step4]
  | cons x rest ih =>
    intro rma pba
    have hthrown := configureRegularizer_thrown lib x topics rma pba {}
    have hok := configureRegularizer_ok lib x topics rma pba {}
    have hind := configureRegularizer_thrown_indep lib x topics rma {} pba {} {} {}
    unfold execute_step4
    rcases hcr : configureRegularizer lib x topics rma pba {} with ⟨thrown, a1, a2, cfg⟩
    rw [hcr] at hthrown hok hind
    cases thrown with
    | some what =>
      simp only [Option.isSome_some, true_iff] at hthrown
      refine ⟨?_, ?_, ?_, ?_⟩
      · simp only [Option.isSome_some, true_iff]
        exact ⟨x, List.mem_cons_self _ _, hthrown.1⟩
      · intro w hw
        simp only [Option.some.injEq] at hw
        subst hw
        exact ⟨x, List.mem_cons_self _ _, hind.symm⟩
      · intro h
        simp at h
      · simp
    | none =>
      simp only [Option.isSome_none, Bool.false_eq_true, false_iff] at hthrown
      obtain ⟨ih1, ih2, ih3, ih4⟩ := ih a1 a2
      have hok := hok rfl
      simp only at hok
      refine ⟨?_, ?_, ?_, ?_⟩
      · simp only [ih1, List.mem_cons, exists_eq_or_imp]
        constructor
        · intro h
          exact Or.inr h
        · intro h
          rcases h with h | h
          · exact absurd h hthrown.1
          · exact h
      · intro w hw
        obtain ⟨y, hy, hy2⟩ := ih2 w hw
        exact ⟨y, List.mem_cons_of_mem _ hy, hy2⟩
      · intro h
        obtain ⟨h3a, h3b⟩ := ih3 h
        refine ⟨by rw [h3a, hok.1], ?_⟩
        rw [h3b, hok.2, List.countP_cons]
        split <;> omega
      · intro c hc
        rcases List.mem_cons.mp hc with hc | hc
        · subst hc
          rfl
        · exact ih4 c hc

/-- The loops of step 4.1: one throws exactly when some string is rejected, with the
exception of a rejected string, and issues no training request. -/
theorem execute_step41_spec (lib : Lib F) (topics : String) :
    ∀ (scores : List String) (mc : MasterComponentConfig F) (helper : ScoreHelper),
      ((execute_step41 lib topics scores mc helper).thrown.isSome ↔
        ∃ x ∈ scores, scoreRejected lib x) ∧
      (∀ what, (execute_step41 lib topics scores mc helper).thrown = some what →
        ∃ x ∈ scores, (addScore lib x topics {} {}).thrown = some what) ∧
      (∀ c ∈ (execute_step41 lib topics scores mc helper).calls, c.isTraining = false) := by
  intro scores
  induction scores with
  | nil =>
    intro mc helper
    simp [execute_step41]
  | cons x rest ih =>
    intro mc helper
    have hthrown := addScore_thrown lib x topics mc helper
    have hind := addScore_thrown_indep lib x topics mc {} helper {}
    unfold execute_step41
    simp only []
    cases hcr : (addScore lib x topics mc helper).thrown with
    | some what =>
      rw [hcr] at hthrown hind
      simp only [Option.isSome_some, true_iff, true_implies] at hthrown
      simp only [hcr, Option.isSome_some, true_iff]
      refine ⟨⟨x, List.mem_cons_self _ _, hthrown.1⟩, ?_, hthrown.2.2⟩
      intro w hw
      simp only [Option.some.injEq] at hw
      subst hw
      exact ⟨x, List.mem_cons_self _ _, hind.symm⟩
    | none =>
      rw [hcr] at hthrown
      simp only [Option.isSome_none, Bool.false_eq_true, false_iff] at hthrown
      obtain ⟨ih1, ih2, ih3⟩ := ih (addScore lib x topics mc helper).master_config
        (addScore lib x topics mc helper).helper
      refine ⟨?_, ?_, ?_⟩
      · simp only [ih1, List.mem_cons, exists_eq_or_imp]
        constructor
        · intro h
          exact Or.inr h
        · intro h
          rcases h with h | h
          · exact absurd h hthrown.1
          · exact h
      · intro w hw
        obtain ⟨y, hy, hy2⟩ := ih2 w hw
        exact ⟨y, List.mem_cons_of_mem _ hy, hy2⟩
      · intro c hc
        rcases List.mem_append.mp hc with hc | hc
        · exact hthrown.2.2 c hc
        · exact ih3 c hc

theorem find_some {s : String} {c : Char} {i : Nat} (h : find s c = some i) :
    ∃ hi : i < s.toList.length, s.toList[i] = c := by
  unfold find at h
  split at h
  · rename_i hlt
    injection h with h
    subst h
    exact ⟨hlt, List.getElem_indexOf hlt⟩
  · exact Option.noConfusion h

theorem scoreTypeNames_no_paren :
    ∀ s ∈ scoreTypeNames, '(' ∉ s.toList ∧ ')' ∉ s.toList := by
  decide

/-- The score type that `addScore` derives is a known one exactly when the field cut at
its first '(' is: they differ only when the first ')' precedes the first '(', where neither
is a known type. -/
theorem scoreTypeAndArg_mem_iff (lib : Lib F) (t : String) :
    (scoreTypeAndArg lib t).1 ∈ scoreTypeNames ↔ cutScoreType lib t ∈ scoreTypeNames := by
  unfold scoreTypeAndArg cutScoreType
  cases hl : find t '(' with
  | none => simp
  | some l =>
    cases hr : find t ')' with
    | none => simp
    | some r =>
      simp only []
      obtain ⟨hl1, hl2⟩ := find_some hl
      obtain ⟨hr1, hr2⟩ := find_some hr
      have ht : t ∉ scoreTypeNames := by
        intro hmem
        apply (scoreTypeNames_no_paren t hmem).1
        rw [← hl2]
        exact List.getElem_mem _
      by_cases hwrap : r < l
      · have hcut : ¬ (l + 2 ≤ r ∧ (lib.lexical_cast_float
            (substr t (l + 1) (r - l - 1))).isSome = true) := by
          intro h
          omega
        rw [if_neg hcut, if_pos (Or.inl hwrap), if_pos hwrap]
        have hsub : substr t 0 l ∉ scoreTypeNames := by
          intro hmem
          apply (scoreTypeNames_no_paren _ hmem).2
          unfold substr
          simp only [List.drop_zero]
          rw [← hr2]
          show t.toList[r] ∈ List.take l t.toList
          rw [List.mem_take_iff_getElem]
          exact ⟨r, by omega, rfl⟩
        cases lib.lexical_cast_float (substr t (l + 1) t.length) with
        | none => simp [ht]
        | some a => simp [ht, hsub]
      · by_cases h2 : r - l ≥ 2
        · have hle : l + 2 ≤ r := by omega
          rw [if_pos (Or.inr h2), if_neg hwrap]
          cases hp : lib.lexical_cast_float (substr t (l + 1) (r - l - 1)) with
          | none => simp [hle]
          | some a => simp [hle]
        · have hc : ¬ (r < l ∨ r - l ≥ 2) := by
            push_neg
            omega
          have hcut : ¬ (l + 2 ≤ r ∧ (lib.lexical_cast_float
              (substr t (l + 1) (r - l - 1))).isSome = true) := by
            intro h
            omega
          rw [if_neg hc, if_neg hcut]

/-! ## The function execute -/

theorem execute_step5_not_training (lib : Lib F) (options : artm_options F)
    (topic_names : List String) (use_dictionary : Bool) (folder : String) :
    ∀ c ∈ execute_step5 lib options topic_names use_dictionary folder, c.isTraining = false := by
  intro c hc
  unfold execute_step5 at hc
  split at hc
  · split at hc
    · simp at hc; subst hc; rfl
    · simp at hc; subst hc; rfl
  · simp at hc; subst hc; rfl

theorem execute_step2_not_training {F : Type} (options : artm_options F) (env : Env) (folder : String)
    (calls : List (Call F)) (h : execute_step2 options env folder = Except.ok calls) :
    ∀ c ∈ calls, c.isTraining = false := by
  intro c hc
  unfold execute_step2 at h
  simp only [] at h
  split at h
  · split at h
    · exact Except.noConfusion h
    · split at h
      · exact Except.noConfusion h
      · split at h
        · exact Except.noConfusion h
        · split at h
          · exact Except.noConfusion h
          · injection h with h
            subst h
            simp at hc
            subst hc
            rfl
  · split at h
    · exact Except.noConfusion h
    · split at h
      · exact Except.noConfusion h
      · injection h with h
        subst h
        simp at hc

theorem execute_step3_not_training {F : Type} (options : artm_options F) (env : Env) :
    ∀ c ∈ (execute_step3 options env : List (Call F)), c.isTraining = false := by
  intro c hc
  unfold execute_step3 at hc
  split at hc <;> simp at hc
  · rcases hc with hc | hc <;> subst hc <;> rfl
  · subst hc; rfl

/-- No request issued before the passes is a training request. -/
theorem execute_setup_calls (lib : Lib F) (options : artm_options F) (env : Env) :
    ∀ c ∈ (execute lib options env).setup_calls, c.isTraining = false := by
  intro c hc
  unfold execute at hc
  simp only [] at hc
  split at hc
  · simp at hc
  · rename_i calls2 h2
    have hs2 := execute_step2_not_training options env _ calls2 h2
    have hs3 := execute_step3_not_training (F := F) options env
    have hs4 := (execute_step4_spec lib options.topics options.regularizer {}
      (execute_process_batches_args lib options)).2.2.2
    have hs41 := (execute_step41_spec lib options.topics options.score
      (execute_master_config options env) {}).2.2
    split at hc
    · rename_i what a b calls4 h4
      rw [h4] at hs4
      simp only [List.mem_append] at hc
      rcases hc with (hc | hc) | hc
      · exact hs2 c hc
      · exact hs3 c hc
      · exact hs4 c hc
    · rename_i rma pba calls4 h4
      rw [h4] at hs4
      split at hc
      · simp only [List.mem_append] at hc
        rcases hc with ((hc | hc) | hc) | hc
        · exact hs2 c hc
        · exact hs3 c hc
        · exact hs4 c hc
        · exact hs41 c hc
      · have hs41b := (execute_step41_spec lib options.topics options.final_score
          (execute_step41 lib options.topics options.score
            (execute_master_config options env) {}).master_config {}).2.2
        split at hc
        · simp only [List.mem_append] at hc
          rcases hc with (((hc | hc) | hc) | hc) | hc
          · exact hs2 c hc
          · exact hs3 c hc
          · exact hs4 c hc
          · exact hs41 c hc
          · exact hs41b c hc
        · simp only [List.mem_append] at hc
          rcases hc with ((((hc | hc) | hc) | hc) | hc) | hc
          · exact hs2 c hc
          · exact hs3 c hc
          · exact hs4 c hc
          · exact hs41 c hc
          · exact hs41b c hc
          · exact execute_step5_not_training lib options _ _ _ c hc

theorem execute_step2_error {F : Type} (options : artm_options F) (env : Env) (folder : String)
    (code : Int) (h : (execute_step2 options env folder : Except Int (List (Call F)))
      = Except.error code) : code = 1 := by
  unfold execute_step2 at h
  simp only [] at h
  split at h
  · split at h
    · injection h with h; exact h.symm
    · split at h
      · injection h with h; exact h.symm
      · split at h
        · injection h with h; exact h.symm
        · split at h
          · injection h with h; exact h.symm
          · exact Except.noConfusion h
  · split at h
    · injection h with h; exact h.symm
    · split at h
      · injection h with h; exact h.symm
      · exact Except.noConfusion h

/-- A run of execute that returns 0, or records a pass, has entered the loop over the
passes in a state `LoopEntry`, with no string of the options rejected. -/
theorem execute_run (lib : Lib F) (options : artm_options F) (env : Env)
    (h : (execute lib options env).outcome = Outcome.returned 0 ∨
      (execute lib options env).passes ≠ []) :
    (execute lib options env).outcome = Outcome.returned 0 ∧
    (¬ ∃ x ∈ options.regularizer, regularizerRejected lib x) ∧
    ∃ st0 : LoopState F, LoopEntry options st0 ∧
      (execute lib options env).passes =
        (passesFor lib options env.batch_file_names options.passes.toNat st0).2 ∧
      (execute lib options env).final_calls =
        execute_finish options (execute_master_config options env) env.batch_file_names
          (passesFor lib options env.batch_file_names options.passes.toNat
            st0).1.process_batches_args := by
  have hs4 := execute_step4_spec lib options.topics options.regularizer {}
      (execute_process_batches_args lib options)
  revert h
  unfold execute
  simp only []
  split
  · rename_i code h2
    have := execute_step2_error options env _ code h2
    subst this
    intro h
    simp at h
  · split
    · intro h
      simp at h
    · rename_i rma pba calls4 h4
      rw [h4] at hs4
      split
      · intro h
        simp at h
      · split
        · intro h
          simp at h
        · intro _
          refine ⟨rfl, ?_, _, ⟨?_, rfl, rfl, ?_⟩, rfl, rfl⟩
          · rw [← hs4.1]
            simp
          · exact (hs4.2.2.1 rfl).1
          · simpa using (hs4.2.2.1 rfl).2

theorem mergeModelOf_not_training {F : Type} (calls : List (Call F))
    (h : ∀ c ∈ calls, c.isTraining = false) : mergeModelOf calls = [] := by
  unfold mergeModelOf
  rw [List.filterMap_eq_nil_iff]
  intro c hc
  have := h c hc
  cases c <;> simp_all [Call.isTraining]

theorem execute_finish_merges {F : Type} (options : artm_options F)
    (mc : MasterComponentConfig F) (names : List String) (pba : ProcessBatchesArgs F) :
    mergeModelOf (execute_finish options mc names pba) = [] := by
  unfold execute_finish mergeModelOf
  rw [List.filterMap_eq_nil_iff]
  intro c hc
  simp only [List.mem_append] at hc
  rcases hc with hc | hc
  · split at hc <;> simp at hc
    subst hc; rfl
  · split at hc
    · simp only [List.mem_append] at hc
      rcases hc with hc | hc
      · split at hc <;> simp at hc
        subst hc; rfl
      · simp at hc
        subst hc; rfl
    · simp at hc

/-- The MergeModel requests of one pass use consecutive counter values, and the pass leaves
the counter advanced by their number. -/
theorem onePass_merges (lib : Lib F) (options : artm_options F) (names : List String)
    (st : LoopState F) :
    mergeModelOf (onePass lib options names st).2 =
      (List.range (mergeModelOf (onePass lib options names st).2).length).map
        (fun (j : Nat) => mergeArgsAt lib options (st.update_count + 1 + (j : Int))) ∧
    (onePass lib options names st).1.update_count =
      st.update_count + ((mergeModelOf (onePass lib options names st).2).length : Int) := by
  unfold onePass
  split
  · exact onlineFor_merges lib options names names.length 0 st
  · have hs := offlinePass_spec names st
    have : mergeModelOf (offlinePass names st).2 = [] := by
      rw [hs.2.2.2.2]
      by_cases hr : st.regularize_model_args.regularizer_settings.length > 0 <;>
        simp [mergeModelOf, hr]
    rw [this, hs.1]
    simp

/-- The MergeModel requests of all passes use the consecutive counter values that follow
the counter at the start. -/
theorem passesFor_merges (lib : Lib F) (options : artm_options F) (names : List String) :
    ∀ (n : Nat) (st : LoopState F),
      mergeModelOf ((passesFor lib options names n st).2.map fun pass => pass.calls).flatten =
        (List.range (mergeModelOf ((passesFor lib options names n st).2.map
            fun pass => pass.calls).flatten).length).map
          (fun (j : Nat) => mergeArgsAt lib options (st.update_count + 1 + (j : Int))) ∧
      (passesFor lib options names n st).1.update_count =
        st.update_count + ((mergeModelOf ((passesFor lib options names n st).2.map
            fun pass => pass.calls).flatten).length : Int) := by
  intro n
  induction n with
  | zero =>
    intro st
    simp [passesFor_zero, mergeModelOf]
  | succ n ih =>
    intro st
    obtain ⟨h1, h2⟩ := onePass_merges lib options names st
    obtain ⟨ih1, ih2⟩ := ih (onePass lib options names st).1
    rw [passesFor_succ]
    simp only [List.map_cons, List.flatten_cons, mergeModelOf_append, List.length_append]
    constructor
    · rw [List.range_add, List.map_append, List.map_map]
      congr 1
      conv_lhs => rw [ih1]
      apply List.map_congr_left
      intro j _
      simp only [Function.comp]
      rw [h2]
      congr 1
      push_cast
      ring
    · rw [ih2, h2]
      push_cast
      ring

/-- The MergeModel requests of a run are those of its passes. -/
theorem execute_merges (lib : Lib F) (options : artm_options F) (env : Env) :
    mergeModelOf (execute lib options env).trace =
      mergeModelOf ((execute lib options env).passes.map fun pass => pass.calls).flatten := by
  unfold ExecResult.trace
  rw [mergeModelOf_append, mergeModelOf_append,
    mergeModelOf_not_training _ (execute_setup_calls lib options env)]
  by_cases h : (execute lib options env).outcome = Outcome.returned 0 ∨
      (execute lib options env).passes ≠ []
  · obtain ⟨_, _, st0, _, _, hf⟩ := execute_run lib options env h
    rw [hf, execute_finish_merges]
    simp
  · push_neg at h
    have hfin : (execute lib options env).final_calls = [] := by
      have h1 := h.1
      revert h1
      unfold execute
      simp only []
      split
      · intro _; rfl
      · split
        · intro _; rfl
        · split
          · intro _; rfl
          · split
            · intro _; rfl
            · intro h1
              exact absurd rfl h1
    rw [hfin]
    simp [mergeModelOf]

/-- Every recorded pass of a run of execute is a pass started in a state `PassInv`. -/
theorem execute_pass_mem (lib : Lib F) (options : artm_options F) (env : Env)
    (pass : PassRecord F) (hpass : pass ∈ (execute lib options env).passes) :
    ∃ s : LoopState F, PassInv options s ∧
      pass = { calls := (onePass lib options env.batch_file_names s).2,
               update_count := (onePass lib options env.batch_file_names s).1.update_count } := by
  have hne : (execute lib options env).passes ≠ [] := List.ne_nil_of_mem hpass
  obtain ⟨_, _, st0, hentry, hpasses, _⟩ := execute_run lib options env (Or.inr hne)
  rw [hpasses] at hpass
  exact (passesFor_mem lib options env.batch_file_names _ st0 hentry.passInv).2.2 pass hpass

/-- The k-th MergeModel request of a run (k counted from 1) is the one computed from the
counter value k. -/
theorem execute_merge_at (lib : Lib F) (options : artm_options F) (env : Env)
    (k : Nat) (hk : 1 ≤ k) (args : MergeModelArgs F)
    (hargs : (mergeModelOf (execute lib options env).trace)[k - 1]? = some args) :
    args = mergeArgsAt lib options (k : Int) := by
  rw [execute_merges] at hargs
  have hne : (execute lib options env).passes ≠ [] := by
    intro h
    rw [h] at hargs
    simp [mergeModelOf] at hargs
  obtain ⟨_, _, st0, hentry, hpasses, _⟩ := execute_run lib options env (Or.inr hne)
  rw [hpasses] at hargs
  have hm := (passesFor_merges lib options env.batch_file_names options.passes.toNat st0).1
  rw [hm, hentry.2.1] at hargs
  rw [List.getElem?_map] at hargs
  cases hr : (List.range (mergeModelOf ((passesFor lib options env.batch_file_names
      options.passes.toNat st0).2.map fun pass => pass.calls).flatten).length)[k - 1]? with
  | none =>
    rw [hr] at hargs
    simp at hargs
  | some j =>
    rw [hr] at hargs
    have hj : j = k - 1 := by
      rw [List.getElem?_eq_some_iff] at hr
      obtain ⟨_, hr⟩ := hr
      rw [List.getElem_range] at hr
      exact hr.symm
    simp only [Option.map_some', Option.some.injEq] at hargs
    have hk' : (0 : Int) + 1 + ((j : Nat) : Int) = (k : Int) := by omega
    rw [hk'] at hargs
    exact hargs.symm

/-! ## The claims -/

/-- C1, amended. The k-th MergeModel request of a run of execute (k counted from 1 over all
passes; such requests are issued in online mode only) merges nwt with weight 1 - w and
nwt_hat with weight w into nwt, where w = 1 for k = 1 and w = pow(tau0 + k, -kappa)
otherwise, the subtraction being that of the number type; for k = 1 the weights are 0 and 1
and sum to 1. Of the arithmetic only 1 - 1 = 0 and 0 + 1 = 1 are used, which hold for IEEE
doubles as well as in exact arithmetic. -/
theorem C1_online_merge_weights (lib : Lib F) (options : artm_options F) (env : Env)
    (k : Nat) (hk : 1 ≤ k) (args : MergeModelArgs F)
    (hargs : (mergeModelOf (execute lib options env).trace)[k - 1]? = some args)
    (hsub : (1 : F) - 1 = 0) (hadd : (0 : F) + 1 = 1) :
    args.nwt_source_name = ["nwt", "nwt_hat"] ∧ args.nwt_target_name = some "nwt" ∧
    ∃ decay_weight apply_weight : F,
      args.source_weight = [decay_weight, apply_weight] ∧
      apply_weight =
        (if k = 1 then 1 else lib.pow (options.tau0 + ((k : Int) : F)) (-options.kappa)) ∧
      decay_weight = 1 - apply_weight ∧
      (k = 1 → apply_weight = 1 ∧ decay_weight = 0 ∧ decay_weight + apply_weight = 1) := by
  have hargs1 := execute_merge_at lib options env k hk args hargs
  subst hargs1
  refine ⟨rfl, rfl, _, _, rfl, ?_, rfl, ?_⟩
  · by_cases h1 : k = 1
    · have : (k : Int) = 1 := by omega
      rw [if_pos h1, if_pos this]
    · have : ¬ ((k : Int) = 1) := by omega
      rw [if_neg h1, if_neg this]
  · intro h1
    subst h1
    have h11 : ((1 : Nat) : Int) = 1 := rfl
    rw [h11, if_pos rfl, hsub, hadd]
    exact ⟨rfl, rfl, rfl⟩

theorem Double.one_sub_one : (1 : Double) - 1 = 0 := by
  show Double.finite (1 + -1) = Double.finite 0
  norm_num

theorem Double.zero_add_one : (0 : Double) + 1 = 1 := by
  show Double.finite (0 + 1) = Double.finite 1
  norm_num

/-- C1 amended, at two concrete online runs: in exact arithmetic the second MergeModel
request has the weights 1 - 1/1026 and 1/1026 (tau0 = 1024, kappa = 1), and in double
arithmetic the first one has the weights 0 and 1. -/
theorem C1_online_merge_weights_witness :
    (∃ args : MergeModelArgs ℚ,
      (mergeModelOf (execute sampleLib onlineOptions sampleEnv).trace)[2 - 1]? = some args ∧
      args.source_weight = [1 - (1026 : ℚ)⁻¹, (1026 : ℚ)⁻¹]) ∧
    (∃ args : MergeModelArgs Double,
      (mergeModelOf (execute ieeeLib ieeeOptions sampleEnv).trace)[1 - 1]? = some args ∧
      args.source_weight = [0, 1]) := by
  constructor
  · have h : ((mergeModelOf (execute sampleLib onlineOptions sampleEnv).trace)[2 - 1]?).isSome
        = true := by decide
    obtain ⟨args, hargs⟩ := Option.isSome_iff_exists.mp h
    obtain ⟨_, _, d, a, hw, ha, hd, _⟩ :=
      C1_online_merge_weights sampleLib onlineOptions sampleEnv 2 (by decide) args hargs
        (by norm_num) (by norm_num)
    refine ⟨args, hargs, ?_⟩
    rw [hw, hd, ha]
    simp [sampleLib, onlineOptions, sampleOptions]
    norm_num
  · have h : ((mergeModelOf (execute ieeeLib ieeeOptions sampleEnv).trace)[1 - 1]?).isSome
        = true := by decide
    obtain ⟨args, hargs⟩ := Option.isSome_iff_exists.mp h
    obtain ⟨_, _, d, a, hw, _, _, h1⟩ :=
      C1_online_merge_weights ieeeLib ieeeOptions sampleEnv 1 (by decide) args hargs
        Double.one_sub_one Double.zero_add_one
    refine ⟨args, hargs, ?_⟩
    rw [hw, (h1 rfl).1, (h1 rfl).2.1]

theorem Double.finite_add (a b : ℚ) :
    Double.finite a + Double.finite b = Double.finite (a + b) := rfl

theorem Double.intCast_eq (z : Int) : ((z : Int) : Double) = Double.finite z := rfl

theorem ieeeLib_pow_zero :
    ieeeLib.pow (ieeeOptions.tau0 + ((2 : Int) : Double)) (-ieeeOptions.kappa) =
      Double.posInf := by
  have h1 : ieeeOptions.tau0 + ((2 : Int) : Double) = Double.finite 0 := by
    show Double.finite (-2) + ((2 : Int) : Double) = Double.finite 0
    rw [Double.intCast_eq, Double.finite_add]
    norm_num
  have h2 : -ieeeOptions.kappa = Double.finite (-(7 / 10)) := rfl
  rw [h1, h2]
  show (if (0 : ℚ) = 0 ∧ (-(7 / 10) : ℚ) < 0 then Double.posInf
      else if (-(7 / 10) : ℚ) = -1 then Double.finite (0 : ℚ)⁻¹ else Double.finite 1) = _
  rw [if_pos]
  constructor
  · rfl
  · norm_num

/-- C1 as stated fails in double arithmetic: tau0 and kappa are not validated, and with
tau0 = -2 and kappa = 0.7 the second model update of an online run has the apply weight
pow(0, -0.7) = +infinity and the decay weight 1 - infinity = -infinity, whose sum is NaN,
not 1. -/
theorem C1_infinite_weight_counterexample :
    0 < ieeeOptions.update_every ∧
    ∃ args : MergeModelArgs Double,
      (mergeModelOf (execute ieeeLib ieeeOptions sampleEnv).trace)[2 - 1]? = some args ∧
      args.source_weight = [Double.negInf, Double.posInf] ∧
      Double.negInf + Double.posInf = Double.nan ∧
      Double.negInf + Double.posInf ≠ (1 : Double) := by
  refine ⟨by decide, ?_⟩
  have h : ((mergeModelOf (execute ieeeLib ieeeOptions sampleEnv).trace)[2 - 1]?).isSome
      = true := by decide
  obtain ⟨args, hargs⟩ := Option.isSome_iff_exists.mp h
  have hat := execute_merge_at ieeeLib ieeeOptions sampleEnv 2 (by decide) args hargs
  refine ⟨args, hargs, ?_, rfl, by decide⟩
  rw [hat]
  unfold mergeArgsAt
  have h2 : ¬ (((2 : Nat) : Int) = 1) := by decide
  simp only [if_neg h2]
  have hc : (((2 : Nat) : Int) : Double) = ((2 : Int) : Double) := rfl
  rw [hc, ieeeLib_pow_zero]
  rfl

/-- C2. In online mode with update_every = U >= 1, B batches and passes = p, a run of
execute that completes performs p passes and p * ceil(B/U) model updates; pass q (counted
from 1) ends with the update counter at q * ceil(B/U) and issues ceil(B/U) MergeModel
requests, the j-th of them (counted from 1) computed from the counter value
(q - 1) * ceil(B/U) + j; these values increase strictly over the whole run. -/
theorem C2_update_counter (lib : Lib F) (options : artm_options F) (env : Env) (U p : Nat)
    (hU : 1 ≤ U) (hu : options.update_every = (U : Int)) (hp : options.passes = (p : Int))
    (hrun : (execute lib options env).outcome = Outcome.returned 0) :
    (execute lib options env).passes.length = p ∧
    (mergeModelOf (execute lib options env).trace).length =
      p * numUpdates env.batch_file_names.length U ∧
    (∀ q : Nat, 1 ≤ q → q ≤ p →
      ∃ pass : PassRecord F, (execute lib options env).passes[q - 1]? = some pass ∧
        pass.update_count = ((q * numUpdates env.batch_file_names.length U : Nat) : Int) ∧
        mergeModelOf pass.calls =
          (List.range (numUpdates env.batch_file_names.length U)).map
            (fun (j : Nat) => mergeArgsAt lib options
              (((q - 1) * numUpdates env.batch_file_names.length U + (j + 1) : Nat) : Int))) ∧
    (∀ q j q' j' : Nat, j ≤ numUpdates env.batch_file_names.length U → 1 ≤ j' →
      (q < q' ∨ (q = q' ∧ j < j')) → 1 ≤ q →
      (q - 1) * numUpdates env.batch_file_names.length U + j <
        (q' - 1) * numUpdates env.batch_file_names.length U + j') := by
  obtain ⟨_, _, st0, hentry, hpasses, _⟩ := execute_run lib options env (Or.inl hrun)
  have hinv := hentry.passInv
  have hc : ∀ s : LoopState F, PassInv options s →
      (onePass lib options env.batch_file_names s).1.update_count =
        s.update_count + ((numUpdates env.batch_file_names.length U : Nat) : Int) := by
    intro s hs
    rw [(onePass_merges lib options env.batch_file_names s).2,
      onePass_online_count lib options env.batch_file_names U hU hu s hs]
  have hpn : options.passes.toNat = p := by omega
  rw [hpn] at hpasses
  have hlen := (passesFor_mem lib options env.batch_file_names p st0 hinv).2.1
  refine ⟨by rw [hpasses, hlen], ?_, ?_, ?_⟩
  · have h1 := (passesFor_merges lib options env.batch_file_names p st0).2
    have h2 := passesFor_final_count lib options env.batch_file_names _ hc p st0 hinv
    rw [execute_merges, hpasses]
    rw [h2] at h1
    have h3 : ((mergeModelOf ((passesFor lib options env.batch_file_names p st0).2.map
        fun pass => pass.calls).flatten).length : Int)
        = (p : Int) * ((numUpdates env.batch_file_names.length U : Nat) : Int) := by
      linarith
    exact_mod_cast h3
  · intro q hq1 hq2
    have hget : ((passesFor lib options env.batch_file_names p st0).2[q - 1]?).isSome = true := by
      rw [List.getElem?_eq_getElem (by rw [hlen]; omega)]
      rfl
    obtain ⟨pass, hpass⟩ := Option.isSome_iff_exists.mp hget
    obtain ⟨s, hs1, hs2, hs3⟩ :=
      passesFor_get lib options env.batch_file_names _ hc p st0 hinv (q - 1) pass hpass
    refine ⟨pass, by rw [hpasses]; exact hpass, ?_, ?_⟩
    · rw [hs3]
      simp only []
      rw [hc s hs1, hs2, hentry.2.1]
      have : ((q - 1 : Nat) : Int) = (q : Int) - 1 := by omega
      rw [this]
      push_cast
      ring
    · rw [hs3]
      simp only []
      rw [(onePass_merges lib options env.batch_file_names s).1,
        onePass_online_count lib options env.batch_file_names U hU hu s hs1]
      apply List.map_congr_left
      intro j _
      congr 1
      rw [hs2, hentry.2.1]
      push_cast
      ring
  · intro q j q' j' hj hj' hlt hq
    rcases hlt with hlt | ⟨rfl, hlt⟩
    · have h1 : (q - 1) + 1 ≤ q' - 1 := by omega
      have h2 := Nat.mul_le_mul_right (numUpdates env.batch_file_names.length U) h1
      rw [Nat.add_mul, Nat.one_mul] at h2
      omega
    · omega

/-- C2, at a concrete online run: 3 batches, an update every 2 batches, 2 passes. -/
theorem C2_update_counter_witness :
    (execute sampleLib onlineOptions sampleEnv).outcome = Outcome.returned 0 ∧
    (execute sampleLib onlineOptions sampleEnv).passes.length = 2 ∧
    (mergeModelOf (execute sampleLib onlineOptions sampleEnv).trace).length =
      2 * numUpdates sampleEnv.batch_file_names.length 2 :=
  ⟨by decide,
    (C2_update_counter sampleLib onlineOptions sampleEnv 2 2 (by decide) rfl rfl
      (by decide)).1,
    (C2_update_counter sampleLib onlineOptions sampleEnv 2 2 (by decide) rfl rfl
      (by decide)).2.1⟩

/-- C3. In online mode with update_every = U >= 1, within every pass of a run of execute
the batch lists of the successive ProcessBatches requests, concatenated, are the discovered
batch list; every list has at least 1 and at most U entries, and every list but the last
of the pass has exactly U entries. -/
theorem C3_online_sub_batches (lib : Lib F) (options : artm_options F) (env : Env) (U : Nat)
    (hU : 1 ≤ U) (hu : options.update_every = (U : Int)) (pass : PassRecord F)
    (hpass : pass ∈ (execute lib options env).passes) :
    ((processBatchesOf pass.calls).map fun args => args.batch_filename).flatten =
      env.batch_file_names ∧
    (∀ l ∈ (processBatchesOf pass.calls).map fun args => args.batch_filename,
      l ≠ [] ∧ 1 ≤ l.length ∧ l.length ≤ U) ∧
    (∀ l ∈ ((processBatchesOf pass.calls).map fun args => args.batch_filename).dropLast,
      l.length = U) := by
  obtain ⟨s, hs, rfl⟩ := execute_pass_mem lib options env pass hpass
  have hinv := onePass_inv lib options env.batch_file_names s hs
  have hon : options.update_every > 0 := by omega
  simp only []
  unfold onePass at hinv ⊢
  rw [if_pos hon] at hinv ⊢
  obtain ⟨h1, h2, h3⟩ := onlineFor_batches lib options env.batch_file_names U hU hu
    env.batch_file_names.length 0 s (by omega) (by rw [hs.1, List.length_nil]; omega)
  rw [hinv.1, hs.1] at h1
  refine ⟨by simpa using h1, ?_, h3⟩
  intro l hl
  have := h2 l hl
  refine ⟨?_, this.1, this.2⟩
  intro hnil
  rw [hnil] at this
  simp at this

/-- C3, at a concrete online run: 3 batches with an update every 2 batches give, in each
of the 2 passes, the lists [a, b] and [c]. -/
theorem C3_online_sub_batches_witness :
    (execute sampleLib onlineOptions sampleEnv).passes.map
        (fun pass => (processBatchesOf pass.calls).map fun args => args.batch_filename) =
      [[["a.batch", "b.batch"], ["c.batch"]], [["a.batch", "b.batch"], ["c.batch"]]] ∧
    ∀ pass ∈ (execute sampleLib onlineOptions sampleEnv).passes,
      ((processBatchesOf pass.calls).map fun args => args.batch_filename).flatten =
        sampleEnv.batch_file_names :=
  ⟨by decide, fun pass hpass =>
    (C3_online_sub_batches sampleLib onlineOptions sampleEnv 2 (by decide) rfl pass hpass).1⟩

/-- C4, the run that breaks it: online mode with an update every 2 batches over 3 batches.
The first ProcessBatches request of each pass is issued at the batch of index 1, where
reset_scores has just been set to (1 == 0), so every request carries reset_scores = false
and the scores are never reset. -/
theorem C4_reset_scores_lost :
    (execute sampleLib onlineOptions sampleEnv).passes.map
        (fun pass => (processBatchesOf pass.calls).map fun args => args.reset_scores) =
      [[some false, some false], [some false, some false]] := by
  decide

/-- C5. In offline mode (update_every <= 0) with passes = p, a run of execute that
completes records p passes; each pass is one ProcessBatches request from pwt into nwt_hat
over exactly the discovered batch list, then possibly one RegularizeModel request, then one
NormalizeModel request from nwt_hat into pwt; the passes issue p ProcessBatches requests in
all, and the run issues no MergeModel request. -/
theorem C5_offline_passes (lib : Lib F) (options : artm_options F) (env : Env) (p : Nat)
    (hoff : options.update_every ≤ 0) (hp : options.passes = (p : Int))
    (hrun : (execute lib options env).outcome = Outcome.returned 0) :
    (execute lib options env).passes.length = p ∧
    (processBatchesOf
      ((execute lib options env).passes.map fun pass => pass.calls).flatten).length = p ∧
    mergeModelOf (execute lib options env).trace = [] ∧
    ∀ pass ∈ (execute lib options env).passes,
      ∃ (pb : ProcessBatchesArgs F) (norm : NormalizeModelArgs),
        pb.pwt_source_name = some "pwt" ∧ pb.nwt_target_name = some "nwt_hat" ∧
        pb.batch_filename = env.batch_file_names ∧
        norm.nwt_source_name = some "nwt_hat" ∧ norm.pwt_target_name = some "pwt" ∧
        (pass.calls = [Call.ProcessBatches pb, Call.NormalizeModel norm] ∨
          ∃ reg : RegularizeModelArgs F,
            pass.calls =
              [Call.ProcessBatches pb, Call.RegularizeModel reg, Call.NormalizeModel norm]) := by
  have hnon : ¬ options.update_every > 0 := by omega
  have hshape : ∀ pass ∈ (execute lib options env).passes,
      ∃ (pb : ProcessBatchesArgs F) (norm : NormalizeModelArgs),
        pb.pwt_source_name = some "pwt" ∧ pb.nwt_target_name = some "nwt_hat" ∧
        pb.batch_filename = env.batch_file_names ∧
        norm.nwt_source_name = some "nwt_hat" ∧ norm.pwt_target_name = some "pwt" ∧
        (pass.calls = [Call.ProcessBatches pb, Call.NormalizeModel norm] ∨
          ∃ reg : RegularizeModelArgs F,
            pass.calls =
              [Call.ProcessBatches pb, Call.RegularizeModel reg, Call.NormalizeModel norm]) := by
    intro pass hpass
    obtain ⟨s, hs, rfl⟩ := execute_pass_mem lib options env pass hpass
    simp only []
    unfold onePass
    rw [if_neg hnon, (offlinePass_spec env.batch_file_names s).2.2.2.2]
    by_cases hr : s.regularize_model_args.regularizer_settings.length > 0
    · rw [if_pos hr]
      exact ⟨_, _, rfl, rfl, by simp [hs.1], rfl, rfl, Or.inr ⟨_, rfl⟩⟩
    · rw [if_neg hr]
      exact ⟨_, _, rfl, rfl, by simp [hs.1], rfl, rfl, Or.inl rfl⟩
  obtain ⟨_, _, st0, hentry, hpasses, _⟩ := execute_run lib options env (Or.inl hrun)
  have hpn : options.passes.toNat = p := by omega
  have hlen : (execute lib options env).passes.length = p := by
    rw [hpasses, (passesFor_mem lib options env.batch_file_names _ st0 hentry.passInv).2.1, hpn]
  refine ⟨hlen, ?_, ?_, hshape⟩
  · rw [processBatchesOf_flatten_length, hlen]
    intro pass hpass
    obtain ⟨pb, norm, _, _, _, _, _, h | ⟨reg, h⟩⟩ := hshape pass hpass <;>
      simp [h, processBatchesOf]
  · rw [execute_merges]
    unfold mergeModelOf
    rw [List.filterMap_eq_nil_iff]
    intro c hc
    rw [List.mem_flatten] at hc
    obtain ⟨l, hl, hcl⟩ := hc
    rw [List.mem_map] at hl
    obtain ⟨pass, hpass, rfl⟩ := hl
    obtain ⟨pb, norm, _, _, _, _, _, h | ⟨reg, h⟩⟩ := hshape pass hpass
    · rw [h] at hcl
      simp at hcl
      rcases hcl with rfl | rfl <;> rfl
    · rw [h] at hcl
      simp at hcl
      rcases hcl with rfl | rfl | rfl <;> rfl

/-- C5, at a concrete offline run of 2 passes over 3 batches. -/
theorem C5_offline_passes_witness :
    (execute sampleLib sampleOptions sampleEnv).passes.length = 2 ∧
    (processBatchesOf ((execute sampleLib sampleOptions sampleEnv).passes.map
      fun pass => pass.calls).flatten).map (fun args => args.batch_filename) =
      [["a.batch", "b.batch", "c.batch"], ["a.batch", "b.batch", "c.batch"]] :=
  ⟨(C5_offline_passes sampleLib sampleOptions sampleEnv 2 (by decide) rfl (by decide)).1,
    by decide⟩

/-- C6 as stated fails: with the single valid regularizer string "1 SmoothTheta" the
offline passes issue no RegularizeModel request, and NormalizeModel has no rwt source. -/
theorem C6_theta_only_counterexample :
    thetaOptions.regularizer ≠ [] ∧
    (∀ r ∈ thetaOptions.regularizer,
      (configureRegularizer sampleLib r thetaOptions.topics {} {} {}).1 = none) ∧
    (execute sampleLib thetaOptions sampleEnv).passes.length = 2 ∧
    ∀ pass ∈ (execute sampleLib thetaOptions sampleEnv).passes,
      regularizeModelOf pass.calls = [] ∧
      (normalizeModelOf pass.calls).map (fun args => args.rwt_source_name) = [none] := by
  decide

/-- C6, amended. In offline mode, when the options hold at least one phi regularizer
(smoothphi, sparsephi, decorrelation) every pass of a run of execute is ProcessBatches,
then RegularizeModel with nwt source nwt_hat, pwt source pwt and rwt target rwt, then
NormalizeModel with rwt source rwt; when they hold no phi regularizer (none at all, or
theta regularizers only) every pass is ProcessBatches then NormalizeModel without an rwt
source. -/
theorem C6_offline_regularize (lib : Lib F) (options : artm_options F) (env : Env)
    (hoff : options.update_every ≤ 0) (pass : PassRecord F)
    (hpass : pass ∈ (execute lib options env).passes) :
    ((∃ r ∈ options.regularizer, isPhiRegularizer r = true) →
      ∃ (pb : ProcessBatchesArgs F) (reg : RegularizeModelArgs F) (norm : NormalizeModelArgs),
        pass.calls =
          [Call.ProcessBatches pb, Call.RegularizeModel reg, Call.NormalizeModel norm] ∧
        reg.nwt_source_name = some "nwt_hat" ∧ reg.pwt_source_name = some "pwt" ∧
        reg.rwt_target_name = some "rwt" ∧ norm.rwt_source_name = some "rwt") ∧
    ((∀ r ∈ options.regularizer, isPhiRegularizer r = false) →
      ∃ (pb : ProcessBatchesArgs F) (norm : NormalizeModelArgs),
        pass.calls = [Call.ProcessBatches pb, Call.NormalizeModel norm] ∧
        norm.rwt_source_name = none) := by
  have hnon : ¬ options.update_every > 0 := by omega
  obtain ⟨s, hs, rfl⟩ := execute_pass_mem lib options env pass hpass
  simp only []
  unfold onePass
  rw [if_neg hnon, (offlinePass_spec env.batch_file_names s).2.2.2.2]
  constructor
  · rintro ⟨r, hr, hphi⟩
    have hpos : s.regularize_model_args.regularizer_settings.length > 0 := by
      rw [hs.2.1]
      exact countP_pos_of_mem _ _ r hr hphi
    rw [if_pos hpos]
    exact ⟨_, _, _, rfl, rfl, rfl, rfl, rfl⟩
  · intro hall
    have hzero : s.regularize_model_args.regularizer_settings.length = 0 := by
      rw [hs.2.1]
      exact countP_zero_of_all _ _ hall
    have hnpos : ¬ s.regularize_model_args.regularizer_settings.length > 0 := by omega
    rw [if_neg hnpos]
    exact ⟨_, _, rfl, hs.2.2 hzero⟩

/-- C6 amended, at a concrete offline run with a theta and a phi regularizer: both passes
are ProcessBatches, RegularizeModel, NormalizeModel. -/
theorem C6_offline_regularize_witness :
    (execute sampleLib phiOptions sampleEnv).passes.length = 2 ∧
    ∀ pass ∈ (execute sampleLib phiOptions sampleEnv).passes,
      ∃ (pb : ProcessBatchesArgs ℚ) (reg : RegularizeModelArgs ℚ) (norm : NormalizeModelArgs),
        pass.calls =
          [Call.ProcessBatches pb, Call.RegularizeModel reg, Call.NormalizeModel norm] ∧
        reg.nwt_source_name = some "nwt_hat" ∧ reg.pwt_source_name = some "pwt" ∧
        reg.rwt_target_name = some "rwt" ∧ norm.rwt_source_name = some "rwt" :=
  ⟨by decide, fun pass hpass =>
    (C6_offline_regularize sampleLib phiOptions sampleEnv (by decide) pass hpass).1
      ⟨"2 SparsePhi #topic_1", by decide, by decide⟩⟩

/-- C7. In online mode the requests of every pass of a run of execute are a sequence of
model updates, each being, in this order: ProcessBatches from pwt into nwt_hat; MergeModel
of (nwt, 1 - w) and (nwt_hat, w) into nwt; RegularizeModel from nwt, present exactly when
the options hold a phi regularizer (when regularizer settings exist); NormalizeModel from
nwt into pwt. -/
theorem C7_online_update_order (lib : Lib F) (options : artm_options F) (env : Env)
    (hon : options.update_every > 0) (pass : PassRecord F)
    (hpass : pass ∈ (execute lib options env).passes) :
    ∃ blocks : List (List (Call F)),
      pass.calls = blocks.flatten ∧
      ∀ b ∈ blocks, IsOnlineUpdate (options.regularizer.any isPhiRegularizer) b := by
  obtain ⟨s, hs, rfl⟩ := execute_pass_mem lib options env pass hpass
  simp only []
  unfold onePass
  rw [if_pos hon]
  obtain ⟨_, blocks, h1, h2⟩ :=
    onlineFor_blocks lib options env.batch_file_names env.batch_file_names.length 0 s
  refine ⟨blocks, h1, ?_⟩
  have hb : decide (s.regularize_model_args.regularizer_settings.length > 0) =
      options.regularizer.any isPhiRegularizer := by
    rw [hs.2.1]
    by_cases hany : options.regularizer.any isPhiRegularizer = true
    · rw [hany]
      rw [List.any_eq_true] at hany
      obtain ⟨r, hr, hphi⟩ := hany
      simpa using countP_pos_of_mem _ _ r hr hphi
    · have hany' : options.regularizer.any isPhiRegularizer = false := by
        simpa using hany
      rw [hany']
      have : options.regularizer.countP isPhiRegularizer = 0 := by
        apply countP_zero_of_all
        intro x hx
        rw [List.any_eq_false] at hany'
        simpa using hany' x hx
      simp [this]
  rw [← hb]
  exact h2

/-- C7, at a concrete online run without regularizer: the first pass issues 6 requests,
and they are a sequence of model updates without RegularizeModel. -/
theorem C7_online_update_order_witness :
    ∃ pass : PassRecord ℚ,
      (execute sampleLib onlineOptions sampleEnv).passes.head? = some pass ∧
      pass.calls.length = 6 ∧
      ∃ blocks : List (List (Call ℚ)),
        pass.calls = blocks.flatten ∧ ∀ b ∈ blocks, IsOnlineUpdate false b := by
  have hmem : (execute sampleLib onlineOptions sampleEnv).passes.head? ≠ none := by decide
  obtain ⟨pass, hpass⟩ := Option.ne_none_iff_exists'.mp hmem
  have hlen : (execute sampleLib onlineOptions sampleEnv).passes.head?.map
      (fun p => p.calls.length) = some 6 := by decide
  rw [hpass] at hlen
  exact ⟨pass, hpass, by simpa using hlen,
    C7_online_update_order sampleLib onlineOptions sampleEnv (by decide) pass
      (List.mem_of_mem_head? hpass)⟩

/-- C8. `configureRegularizer` throws exactly when the regularizer string, split at every
space or tab, has fewer than two fields, or its first field is not a float, or its second
field lower-cased is none of smooththeta, sparsetheta, smoothphi, sparsephi, decorrelation;
and when it throws, the three objects passed to it are left as they were. -/
theorem C8_configureRegularizer_throws (lib : Lib F) (regularizer topics : String)
    (regularize_model_args : RegularizeModelArgs F) (process_batches_args : ProcessBatchesArgs F)
    (config : RegularizerConfig) :
    ((configureRegularizer lib regularizer topics regularize_model_args process_batches_args
        config).1.isSome ↔
      ((split (is_any_of "\t ") regularizer).length < 2 ∨
        lib.lexical_cast_float ((split (is_any_of "\t ") regularizer).getD 0 "") = none ∨
        to_lower_copy ((split (is_any_of "\t ") regularizer).getD 1 "") ∉
          ["smooththeta", "sparsetheta", "smoothphi", "sparsephi", "decorrelation"])) ∧
    ((configureRegularizer lib regularizer topics regularize_model_args process_batches_args
        config).1.isSome →
      (configureRegularizer lib regularizer topics regularize_model_args process_batches_args
        config).2 = (regularize_model_args, process_batches_args, config)) :=
  configureRegularizer_thrown lib regularizer topics regularize_model_args
    process_batches_args config

/-- C9 as stated fails: `addScore` accepts "TopTokens(5)x" as a TopTokens score, while the
field with its parenthesised argument removed, "toptokensx", is not a score type. -/
theorem C9_trailing_text_counterexample :
    (addScore sampleLib "TopTokens(5)x" "16" {} {}).thrown = none ∧
    excisedScoreType sampleLib
        (to_lower_copy ((split (is_any_of "\t ") "TopTokens(5)x").getD 0 "")) = "toptokensx" ∧
    ¬ ((addScore sampleLib "TopTokens(5)x" "16" {} {}).thrown.isSome ↔
      excisedScoreType sampleLib
        (to_lower_copy ((split (is_any_of "\t ") "TopTokens(5)x").getD 0 "")) ∉
          scoreTypeNames) := by
  decide

/-- C9, amended. `addScore` throws exactly when the first space- or tab-separated field of
the score string, lower-cased and cut at its first '(' (when its first ')' stands at least
two positions after that '(' and the text between them parses as a number), is none of
perplexity, sparsitytheta, sparsityphi, toptokens, thetasnippet, topickernel; and when it
throws, the configuration of the master component and the scores recorded by the helper
are left as they were, and no request has been issued. -/
theorem C9_addScore_throws (lib : Lib F) (score topics : String)
    (master_config : MasterComponentConfig F) (helper : ScoreHelper) :
    ((addScore lib score topics master_config helper).thrown.isSome ↔
      cutScoreType lib (to_lower_copy ((split (is_any_of "\t ") score).getD 0 "")) ∉
        ["perplexity", "sparsitytheta", "sparsityphi", "toptokens", "thetasnippet",
          "topickernel"]) ∧
    ((addScore lib score topics master_config helper).thrown.isSome →
      (addScore lib score topics master_config helper).master_config = master_config ∧
      (addScore lib score topics master_config helper).helper = helper ∧
      (addScore lib score topics master_config helper).calls = []) := by
  obtain ⟨h1, h2, _⟩ := addScore_thrown lib score topics master_config helper
  refine ⟨?_, h2⟩
  rw [h1]
  unfold scoreRejected
  exact not_congr (scoreTypeAndArg_mem_iff lib _)

/-- C10 as stated fails: with an unknown corpus format execute returns 1 in step 2, before
`configureRegularizer` is ever called, so the run does not end with the exception of the
rejected regularizer string "0.5". -/
theorem C10_early_return_counterexample :
    (∃ x ∈ badFormatOptions.regularizer,
      (configureRegularizer sampleLib x badFormatOptions.topics {} {} {}).1.isSome) ∧
    (execute sampleLib badFormatOptions freshEnv).outcome = Outcome.returned 1 ∧
    ¬ ∃ what : String,
      (execute sampleLib badFormatOptions freshEnv).outcome = Outcome.thrown what := by
  have h1 : (execute sampleLib badFormatOptions freshEnv).outcome = Outcome.returned 1 := by
    decide
  refine ⟨by decide, h1, ?_⟩
  rintro ⟨what, hwhat⟩
  rw [h1] at hwhat
  exact Outcome.noConfusion hwhat

/-- C10, amended. When some regularizer, score or final-score string of the options is
rejected by `configureRegularizer` or `addScore`, a run of execute issues no ProcessBatches,
MergeModel, RegularizeModel or NormalizeModel request, records no pass and does not return
0; and unless step 2 (collection parsing, batch folder checks) has already ended the run
with code 1, it ends with the exception that `configureRegularizer` or `addScore` throws on
a rejected string. -/
theorem C10_configuration_errors_first (lib : Lib F) (options : artm_options F) (env : Env)
    (hrej :
      (∃ x ∈ options.regularizer,
        (configureRegularizer lib x options.topics {} {} {}).1.isSome) ∨
      (∃ x ∈ options.score, (addScore lib x options.topics {} {}).thrown.isSome) ∨
      (∃ x ∈ options.final_score, (addScore lib x options.topics {} {}).thrown.isSome)) :
    (∀ c ∈ (execute lib options env).trace, c.isTraining = false) ∧
    (execute lib options env).passes = [] ∧
    (execute lib options env).outcome ≠ Outcome.returned 0 ∧
    ((∃ calls : List (Call F),
        execute_step2 options env (working_batch_folder options env) = Except.ok calls) →
      ∃ what : String, (execute lib options env).outcome = Outcome.thrown what ∧
        ((∃ x ∈ options.regularizer,
            (configureRegularizer lib x options.topics {} {} {}).1 = some what) ∨
          (∃ x ∈ options.score, (addScore lib x options.topics {} {}).thrown = some what) ∨
          (∃ x ∈ options.final_score,
            (addScore lib x options.topics {} {}).thrown = some what))) := by
  have hsetup := execute_setup_calls lib options env
  have hs4 := execute_step4_spec lib options.topics options.regularizer {}
    (execute_process_batches_args lib options)
  have hs41 := execute_step41_spec lib options.topics options.score
    (execute_master_config options env) {}
  have hs41b := execute_step41_spec lib options.topics options.final_score
    (execute_step41 lib options.topics options.score
      (execute_master_config options env) {}).master_config {}
  have hreg : ∀ x, (configureRegularizer lib x options.topics {} {} {}).1.isSome →
      regularizerRejected lib x :=
    fun x hx => (configureRegularizer_thrown lib x options.topics {} {} {}).1.mp hx
  have hsc : ∀ x, (addScore lib x options.topics {} {}).thrown.isSome →
      scoreRejected lib x :=
    fun x hx => (addScore_thrown lib x options.topics {} {}).1.mp hx
  have key : (execute lib options env).passes = [] ∧
      (execute lib options env).final_calls = [] ∧
      (execute lib options env).outcome ≠ Outcome.returned 0 ∧
      ((∃ calls : List (Call F),
          execute_step2 options env (working_batch_folder options env) = Except.ok calls) →
        ∃ what : String, (execute lib options env).outcome = Outcome.thrown what ∧
          ((∃ x ∈ options.regularizer,
              (configureRegularizer lib x options.topics {} {} {}).1 = some what) ∨
            (∃ x ∈ options.score, (addScore lib x options.topics {} {}).thrown = some what) ∨
            (∃ x ∈ options.final_score,
              (addScore lib x options.topics {} {}).thrown = some what))) := by
    unfold execute
    simp only []
    split
    · rename_i code h2
      have := execute_step2_error options env _ code h2
      subst this
      refine ⟨rfl, rfl, by simp, ?_⟩
      rintro ⟨calls, hcalls⟩
      rw [h2] at hcalls
      exact Except.noConfusion hcalls
    · split
      · rename_i what a b calls4 h4
        rw [h4] at hs4
        exact ⟨rfl, rfl, by simp, fun _ => ⟨what, rfl, Or.inl (hs4.2.1 what rfl)⟩⟩
      · rename_i rma pba calls4 h4
        rw [h4] at hs4
        split
        · rename_i what h5
          exact ⟨rfl, rfl, by simp, fun _ => ⟨what, rfl, Or.inr (Or.inl (hs41.2.1 what h5))⟩⟩
        · rename_i h5
          split
          · rename_i what h6
            exact ⟨rfl, rfl, by simp,
              fun _ => ⟨what, rfl, Or.inr (Or.inr (hs41b.2.1 what h6))⟩⟩
          · rename_i h6
            exfalso
            rcases hrej with ⟨x, hx, hx2⟩ | ⟨x, hx, hx2⟩ | ⟨x, hx, hx2⟩
            · have := hs4.1.mpr ⟨x, hx, hreg x hx2⟩
              simp at this
            · have := hs41.1.mpr ⟨x, hx, hsc x hx2⟩
              rw [h5] at this
              simp at this
            · have := hs41b.1.mpr ⟨x, hx, hsc x hx2⟩
              rw [h6] at this
              simp at this
  obtain ⟨k1, k2, k3, k4⟩ := key
  refine ⟨?_, k1, k3, k4⟩
  intro c hc
  unfold ExecResult.trace at hc
  rw [k1, k2] at hc
  simp only [List.map_nil, List.flatten_nil, List.append_nil] at hc
  exact hsetup c hc

/-- C10 amended, at a concrete run whose final-score string "TopWords" has an unknown type: the
run ends with the exception of `addScore` and has issued no training request. -/
theorem C10_configuration_errors_first_witness :
    (execute sampleLib rejectedOptions sampleEnv).outcome =
      Outcome.thrown "Unknown regularizer type: TopWords" ∧
    (execute sampleLib rejectedOptions sampleEnv).setup_calls.length = 3 ∧
    ∀ c ∈ (execute sampleLib rejectedOptions sampleEnv).trace, c.isTraining = false :=
  ⟨by decide, by decide,
    (C10_configuration_errors_first sampleLib rejectedOptions sampleEnv
      (Or.inr (Or.inr ⟨"TopWords", by decide, by decide⟩))).1⟩

/-- C12. Whenever `parseNumberOrPercent` succeeds: for a string without a trailing '%' it
reports the parsed number unchanged, flagged as an absolute count (fraction = false) exactly
when the number is at least 1 and as a fraction otherwise; for a string with a trailing '%'
it reports the number parsed from the rest divided by 100, always flagged as a fraction. -/
theorem C12_parseNumberOrPercent_value (lib : Lib F) (str : String) (value : F)
    (fraction : Bool) (h : parseNumberOrPercent lib str = some (value, fraction)) :
    (str.toList.getLast? ≠ some '%' →
      lib.lexical_cast_double str = some value ∧ (fraction = false ↔ value ≥ 1)) ∧
    (str.toList.getLast? = some '%' →
      ∃ number : F, lib.lexical_cast_double (substr str 0 (str.length - 1)) = some number ∧
        value = number / 100 ∧ fraction = true) := by
  unfold parseNumberOrPercent at h
  by_cases he : str = ""
  · rw [if_pos he] at h
    exact Option.noConfusion h
  · rw [if_neg he] at h
    simp only [] at h
    by_cases hp : str.toList.getLast? = some '%'
    · simp only [hp, decide_True, if_true] at h
      refine ⟨fun hn => absurd hp hn, fun _ => ?_⟩
      cases hc : lib.lexical_cast_double (substr str 0 (str.length - 1)) with
      | none =>
        rw [hc] at h
        exact Option.noConfusion h
      | some number =>
        rw [hc] at h
        simp only [Option.some.injEq, Prod.mk.injEq] at h
        exact ⟨number, rfl, h.1.symm, h.2.symm⟩
    · simp only [hp, decide_False, if_false, Bool.false_eq_true] at h
      refine ⟨fun _ => ?_, fun hn => absurd hn hp⟩
      cases hc : lib.lexical_cast_double str with
      | none =>
        rw [hc] at h
        exact Option.noConfusion h
      | some number =>
        rw [hc] at h
        simp only [] at h
        by_cases h1 : number ≥ 1
        · rw [if_pos h1] at h
          simp only [Option.some.injEq, Prod.mk.injEq] at h
          obtain ⟨rfl, rfl⟩ := h
          exact ⟨rfl, by simp [h1]⟩
        · rw [if_neg h1] at h
          simp only [Option.some.injEq, Prod.mk.injEq] at h
          obtain ⟨rfl, rfl⟩ := h
          exact ⟨rfl, by simp [h1]⟩

theorem sampleLib_parse_percent :
    parseNumberOrPercent sampleLib "100%" = some (1, true) := by
  have hc : sampleLib.lexical_cast_double (substr "100%" 0 ("100%".length - 1))
      = some ((100 : Int) : ℚ) := by decide
  have hp : "100%".toList.getLast? = some '%' := by decide
  unfold parseNumberOrPercent
  rw [if_neg (by decide)]
  simp only [hp, decide_True, if_true]
  rw [hc]
  norm_num

theorem sampleLib_parse_count :
    parseNumberOrPercent sampleLib "1" = some (1, false) := by
  have hc : sampleLib.lexical_cast_double "1" = some ((1 : Int) : ℚ) := by decide
  have hp : ¬ "1".toList.getLast? = some '%' := by decide
  unfold parseNumberOrPercent
  rw [if_neg (by decide)]
  simp only [hp, decide_False, if_false, Bool.false_eq_true]
  rw [hc]
  norm_num

/-- C12, at the two inputs of the claim: "100%" is the fraction 1, "1" the absolute count 1. -/
theorem C12_parseNumberOrPercent_value_witness :
    parseNumberOrPercent sampleLib "100%" = some (1, true) ∧
    parseNumberOrPercent sampleLib "1" = some (1, false) ∧
    (∃ number : ℚ,
      sampleLib.lexical_cast_double (substr "100%" 0 ("100%".length - 1)) = some number ∧
        (1 : ℚ) = number / 100) ∧
    sampleLib.lexical_cast_double "1" = some 1 :=
  ⟨sampleLib_parse_percent, sampleLib_parse_count,
    (((C12_parseNumberOrPercent_value sampleLib "100%" 1 true sampleLib_parse_percent).2
      (by decide)).imp fun _ h => ⟨h.1, h.2.1⟩),
    ((C12_parseNumberOrPercent_value sampleLib "1" 1 false sampleLib_parse_count).1
      (by decide)).1⟩

/-- The failures of `parseNumberOrPercent`: it returns false exactly when the string is empty
or, after removing one trailing '%', the rest does not parse as a number. -/
theorem parseNumberOrPercent_none_iff (lib : Lib F) (str : String) :
    parseNumberOrPercent lib str = none ↔
      (str = "" ∨ lib.lexical_cast_double (stripPercent str) = none) := by
  unfold parseNumberOrPercent stripPercent
  by_cases he : str = ""
  · simp [he]
  · rw [if_neg he]
    simp only [he, false_or]
    by_cases hp : str.toList.getLast? = some '%'
    · simp only [hp, decide_True, if_true]
      cases hc : lib.lexical_cast_double (substr str 0 (str.length - 1)) <;> simp
    · simp only [hp, decide_False, if_false, Bool.false_eq_true]
      cases hc : lib.lexical_cast_double str with
      | none => simp
      | some number =>
        simp only []
        split <;> simp

theorem initializeModelOf_append {F : Type} (xs ys : List (Call F)) :
    initializeModelOf (xs ++ ys) = initializeModelOf xs ++ initializeModelOf ys := by
  simp [initializeModelOf, List.filterMap_append]

theorem initializeModelOf_eq_nil {F : Type} (calls : List (Call F))
    (h : ∀ c ∈ calls, c.isInitializeModel = false) : initializeModelOf calls = [] := by
  unfold initializeModelOf
  rw [List.filterMap_eq_nil_iff]
  intro c hc
  have := h c hc
  cases c <;> simp_all [Call.isInitializeModel]

theorem isInitializeModel_of_training {F : Type} (c : Call F) (h : c.isTraining = true) :
    c.isInitializeModel = false := by
  cases c <;> simp_all [Call.isTraining, Call.isInitializeModel]

/-- Every request of the online loop is a training request. -/
theorem onlineFor_training (lib : Lib F) (options : artm_options F) (names : List String) :
    ∀ (n i : Nat) (st : LoopState F),
      ∀ c ∈ (onlineFor lib options names n i st).2, c.isTraining = true := by
  intro n
  induction n with
  | zero =>
    intro i st c hc
    simp [onlineFor_zero] at hc
  | succ n ih =>
    intro i st c hc
    rw [onlineFor_succ] at hc
    rcases List.mem_append.mp hc with hc | hc
    · by_cases hf : ((st.process_batches_args.batch_filename.length + 1 : Nat) : Int)
          ≥ options.update_every ∨ i + 1 = names.length
      · rw [(onlineBody_fire lib options names i st hf).2.2.2] at hc
        by_cases hr : st.regularize_model_args.regularizer_settings.length > 0
        · simp only [hr, if_true, List.mem_cons, List.mem_singleton, List.not_mem_nil,
            or_false] at hc
          rcases hc with rfl | rfl | rfl | rfl <;> rfl
        · simp only [hr, if_false, List.mem_cons, List.mem_singleton, List.not_mem_nil,
            or_false] at hc
          rcases hc with rfl | rfl | rfl <;> rfl
      · rw [onlineBody_skip lib options names i st hf] at hc
        simp at hc
    · exact ih _ _ c hc

/-- Every request of a pass is a training request. -/
theorem onePass_training (lib : Lib F) (options : artm_options F) (names : List String)
    (st : LoopState F) : ∀ c ∈ (onePass lib options names st).2, c.isTraining = true := by
  intro c hc
  unfold onePass at hc
  split at hc
  · exact onlineFor_training lib options names _ _ st c hc
  · rw [(offlinePass_spec names st).2.2.2.2] at hc
    by_cases hr : st.regularize_model_args.regularizer_settings.length > 0
    · simp only [hr, if_true, List.mem_cons, List.mem_singleton, List.not_mem_nil,
        or_false] at hc
      rcases hc with rfl | rfl | rfl <;> rfl
    · simp only [hr, if_false, List.mem_cons, List.mem_singleton, List.not_mem_nil,
        or_false] at hc
      rcases hc with rfl | rfl <;> rfl

/-- Every request recorded in a pass of a run of execute is a training request. -/
theorem execute_passes_training (lib : Lib F) (options : artm_options F) (env : Env) :
    ∀ c ∈ ((execute lib options env).passes.map fun pass => pass.calls).flatten,
      c.isTraining = true := by
  intro c hc
  rw [List.mem_flatten] at hc
  obtain ⟨l, hl, hcl⟩ := hc
  rw [List.mem_map] at hl
  obtain ⟨pass, hpass, rfl⟩ := hl
  obtain ⟨s, _, rfl⟩ := execute_pass_mem lib options env pass hpass
  exact onePass_training lib options env.batch_file_names s c hcl

theorem execute_finish_not_initializing {F : Type} (options : artm_options F)
    (mc : MasterComponentConfig F) (names : List String) (pba : ProcessBatchesArgs F) :
    ∀ c ∈ execute_finish options mc names pba, c.isInitializeModel = false := by
  intro c hc
  unfold execute_finish at hc
  simp only [List.mem_append] at hc
  rcases hc with hc | hc
  · split at hc <;> simp at hc
    subst hc; rfl
  · split at hc
    · simp only [List.mem_append] at hc
      rcases hc with hc | hc
      · split at hc <;> simp at hc
        subst hc; rfl
      · simp at hc
        subst hc; rfl
    · simp at hc

theorem execute_step2_not_initializing {F : Type} (options : artm_options F) (env : Env)
    (folder : String) (calls : List (Call F))
    (h : execute_step2 options env folder = Except.ok calls) :
    ∀ c ∈ calls, c.isInitializeModel = false := by
  intro c hc
  unfold execute_step2 at h
  simp only [] at h
  split at h
  · split at h
    · exact Except.noConfusion h
    · split at h
      · exact Except.noConfusion h
      · split at h
        · exact Except.noConfusion h
        · split at h
          · exact Except.noConfusion h
          · injection h with h
            subst h
            simp at hc
            subst hc
            rfl
  · split at h
    · exact Except.noConfusion h
    · split at h
      · exact Except.noConfusion h
      · injection h with h
        subst h
        simp at hc

theorem execute_step3_not_initializing {F : Type} (options : artm_options F) (env : Env) :
    ∀ c ∈ (execute_step3 options env : List (Call F)), c.isInitializeModel = false := by
  intro c hc
  unfold execute_step3 at hc
  split at hc <;> simp at hc
  · rcases hc with hc | hc <;> subst hc <;> rfl
  · subst hc; rfl

theorem execute_step4_not_initializing (lib : Lib F) (topics : String) :
    ∀ (regs : List String) (rma : RegularizeModelArgs F) (pba : ProcessBatchesArgs F),
      ∀ c ∈ (execute_step4 lib topics regs rma pba).2.2.2, c.isInitializeModel = false := by
  intro regs
  induction regs with
  | nil =>
    intro rma pba c hc
    simp [execute_step4] at hc
  | cons x rest ih =>
    intro rma pba c hc
    unfold execute_step4 at hc
    rcases hcr : configureRegularizer lib x topics rma pba {} with ⟨thrown, a1, a2, cfg⟩
    rw [hcr] at hc
    cases thrown with
    | some what => simp at hc
    | none =>
      simp only [List.mem_cons] at hc
      rcases hc with rfl | hc
      · rfl
      · exact ih a1 a2 c hc

theorem addScore_not_initializing (lib : Lib F) (score topics : String)
    (mc : MasterComponentConfig F) (helper : ScoreHelper) :
    ∀ c ∈ (addScore lib score topics mc helper).calls, c.isInitializeModel = false := by
  intro c hc
  unfold addScore at hc
  simp only [] at hc
  split at hc
  · simp at hc
  · split at hc
    · simp at hc
    · simp at hc
      subst hc
      rfl

theorem execute_step41_not_initializing (lib : Lib F) (topics : String) :
    ∀ (scores : List String) (mc : MasterComponentConfig F) (helper : ScoreHelper),
      ∀ c ∈ (execute_step41 lib topics scores mc helper).calls,
        c.isInitializeModel = false := by
  intro scores
  induction scores with
  | nil =>
    intro mc helper c hc
    simp [execute_step41] at hc
  | cons x rest ih =>
    intro mc helper c hc
    unfold execute_step41 at hc
    simp only [] at hc
    split at hc
    · exact addScore_not_initializing lib x topics mc helper c hc
    · rcases List.mem_append.mp hc with hc | hc
      · exact addScore_not_initializing lib x topics mc helper c hc
      · exact ih _ _ c hc

/-- The InitializeModel requests issued before the passes are those of step 5, which is
reached exactly by the runs that return 0; the other runs issue nothing after the passes. -/
theorem execute_setup_initializeModel (lib : Lib F) (options : artm_options F) (env : Env) :
    ((execute lib options env).outcome = Outcome.returned 0 →
      initializeModelOf (execute lib options env).setup_calls =
        initializeModelOf (execute_step5 lib options (parseTopics lib options.topics)
          env.dictionary_file_exists (working_batch_folder options env))) ∧
    ((execute lib options env).outcome ≠ Outcome.returned 0 →
      initializeModelOf (execute lib options env).setup_calls = [] ∧
      (execute lib options env).final_calls = []) := by
  have hs4 := execute_step4_not_initializing lib options.topics options.regularizer {}
    (execute_process_batches_args lib options)
  have h5 := initializeModelOf_eq_nil _ (execute_step41_not_initializing lib options.topics
    options.score (execute_master_config options env) {})
  have h6 := initializeModelOf_eq_nil _ (execute_step41_not_initializing lib options.topics
    options.final_score (execute_step41 lib options.topics options.score
      (execute_master_config options env) {}).master_config {})
  have hs3 := initializeModelOf_eq_nil _ (execute_step3_not_initializing (F := F) options env)
  have hnil : initializeModelOf ([] : List (Call F)) = [] := rfl
  unfold execute
  simp only []
  split
  · rename_i code h2
    have := execute_step2_error options env _ code h2
    subst this
    exact ⟨fun h => by simp at h, fun _ => ⟨rfl, rfl⟩⟩
  · rename_i calls2 h2
    have hs2 := initializeModelOf_eq_nil _ (execute_step2_not_initializing options env _ calls2 h2)
    split
    · rename_i what a b calls4 h4
      rw [h4] at hs4
      have h4' := initializeModelOf_eq_nil _ hs4
      simp only [] at h4'
      refine ⟨fun h => by simp at h, fun _ => ⟨?_, rfl⟩⟩
      simp only [initializeModelOf_append, hs2, hs3, h4', List.append_nil]
    · rename_i rma pba calls4 h4
      rw [h4] at hs4
      have h4' := initializeModelOf_eq_nil _ hs4
      simp only [] at h4'
      split
      · refine ⟨fun h => by simp at h, fun _ => ⟨?_, rfl⟩⟩
        simp only [initializeModelOf_append, hs2, hs3, h4', h5, List.append_nil]
      · split
        · refine ⟨fun h => by simp at h, fun _ => ⟨?_, rfl⟩⟩
          simp only [initializeModelOf_append, hs2, hs3, h4', h5, h6, List.append_nil]
        · refine ⟨fun _ => ?_, fun h => absurd rfl h⟩
          simp only [initializeModelOf_append, hs2, hs3, h4', h5, h6, List.nil_append]

/-- The InitializeModel requests of a run of execute are those of step 5, which is reached
exactly by the runs that return 0. -/
theorem execute_initializeModel (lib : Lib F) (options : artm_options F) (env : Env) :
    initializeModelOf (execute lib options env).trace =
      if (execute lib options env).outcome = Outcome.returned 0 then
        initializeModelOf (execute_step5 lib options (parseTopics lib options.topics)
          env.dictionary_file_exists (working_batch_folder options env))
      else [] := by
  have hpasses := initializeModelOf_eq_nil _
    (fun c hc => isInitializeModel_of_training c (execute_passes_training lib options env c hc))
  have hsetup := execute_setup_initializeModel lib options env
  unfold ExecResult.trace
  rw [initializeModelOf_append, initializeModelOf_append, hpasses, List.append_nil]
  by_cases h : (execute lib options env).outcome = Outcome.returned 0
  · rw [if_pos h, hsetup.1 h]
    obtain ⟨_, _, st0, _, _, hf⟩ := execute_run lib options env (Or.inl h)
    rw [hf, initializeModelOf_eq_nil _ (execute_finish_not_initializing _ _ _ _), List.append_nil]
  · rw [if_neg h, (hsetup.2 h).1, (hsetup.2 h).2]
    rfl

/-- The InitializeModel request of step 5 when the model is initialised from batches: its
filters are the min-df filter, present when that option parses, followed by the max-df
filter, present when that option parses. -/
theorem execute_step5_filters (lib : Lib F) (options : artm_options F)
    (topic_names : List String) (use_dictionary : Bool) (folder : String)
    (args : InitializeModelArgs F)
    (h : args ∈ initializeModelOf (execute_step5 lib options topic_names use_dictionary folder)) :
    options.load_model = "" ∧ args.topic_name = topic_names ∧
    (use_dictionary = true → args.filter = []) ∧
    (use_dictionary = false →
      args.filter.length =
        (if (parseNumberOrPercent lib options.dictionary_min_df).isSome then 1 else 0) +
        (if (parseNumberOrPercent lib options.dictionary_max_df).isSome then 1 else 0) ∧
      ((∃ f ∈ args.filter, f.min_percentage.isSome ∨ f.min_items.isSome) ↔
        (parseNumberOrPercent lib options.dictionary_min_df).isSome) ∧
      ((∃ f ∈ args.filter, f.max_percentage.isSome ∨ f.max_items.isSome) ↔
        (parseNumberOrPercent lib options.dictionary_max_df).isSome)) := by
  unfold execute_step5 at h
  by_cases hl : options.load_model = ""
  · rw [if_pos hl] at h
    cases use_dictionary with
    | true =>
      simp [initializeModelOf] at h
      subst h
      exact ⟨hl, rfl, fun _ => rfl, fun hf => by simp at hf⟩
    | false =>
      simp only [Bool.false_eq_true, if_false, initializeModelOf, List.filterMap_cons,
        List.filterMap_nil, List.mem_singleton] at h
      subst h
      refine ⟨hl, rfl, fun hf => by simp at hf, fun _ => ?_⟩
      cases hmin : parseNumberOrPercent lib options.dictionary_min_df with
      | none =>
        cases hmax : parseNumberOrPercent lib options.dictionary_max_df with
        | none => simp
        | some p =>
          obtain ⟨value, fraction⟩ := p
          cases fraction <;> simp
      | some p =>
        obtain ⟨value, fraction⟩ := p
        cases hmax : parseNumberOrPercent lib options.dictionary_max_df with
        | none => cases fraction <;> simp
        | some q =>
          obtain ⟨value2, fraction2⟩ := q
          cases fraction <;> cases fraction2 <;> simp
  · rw [if_neg hl] at h
    simp [initializeModelOf] at h

/-- C13 as stated fails: with a dictionary file in the batch folder the model is initialised
from the dictionary, and no filter is added although the option min-df = "5" parses. -/
theorem C13_dictionary_counterexample :
    (parseNumberOrPercent sampleLib dfOptions.dictionary_min_df).isSome = true ∧
    (execute sampleLib dfOptions dictionaryEnv).outcome = Outcome.returned 0 ∧
    (initializeModelOf (execute sampleLib dfOptions dictionaryEnv).trace).map
      (fun args => args.filter) = [[]] := by
  decide

/-- C13, amended. `parseNumberOrPercent` returns false exactly when the string is empty or,
after removing one trailing '%', the rest does not parse as a number. A run of execute that
initialises the model from batches (no dictionary file, no model to load) gives
InitializeModel one filter per min-df / max-df option that parses, a min filter exactly when
min-df parses and a max filter exactly when max-df parses; a run that initialises the model
from the dictionary adds no filter, and a run that loads a model issues no InitializeModel. -/
theorem C13_df_filters (lib : Lib F) (options : artm_options F) (env : Env) :
    (∀ str : String, parseNumberOrPercent lib str = none ↔
      (str = "" ∨ lib.lexical_cast_double (stripPercent str) = none)) ∧
    (∀ args ∈ initializeModelOf (execute lib options env).trace,
      (env.dictionary_file_exists = true → args.filter = []) ∧
      (env.dictionary_file_exists = false →
        args.filter.length =
          (if (parseNumberOrPercent lib options.dictionary_min_df).isSome then 1 else 0) +
          (if (parseNumberOrPercent lib options.dictionary_max_df).isSome then 1 else 0) ∧
        ((∃ f ∈ args.filter, f.min_percentage.isSome ∨ f.min_items.isSome) ↔
          (parseNumberOrPercent lib options.dictionary_min_df).isSome) ∧
        ((∃ f ∈ args.filter, f.max_percentage.isSome ∨ f.max_items.isSome) ↔
          (parseNumberOrPercent lib options.dictionary_max_df).isSome))) ∧
    (options.load_model ≠ "" → initializeModelOf (execute lib options env).trace = []) := by
  refine ⟨fun str => parseNumberOrPercent_none_iff lib str, ?_, ?_⟩
  · intro args hargs
    rw [execute_initializeModel] at hargs
    split at hargs
    · have := execute_step5_filters lib options _ _ _ args hargs
      exact ⟨this.2.2.1, this.2.2.2⟩
    · simp at hargs
  · intro hl
    rw [execute_initializeModel]
    split
    · unfold execute_step5
      rw [if_neg hl]
      rfl
    · rfl

/-- C13 amended, at a concrete run that initialises the model from batches with min-df = "5"
and max-df = "abc": InitializeModel gets the single filter min_items = 5. -/
theorem C13_df_filters_witness :
    (initializeModelOf (execute sampleLib dfOptions sampleEnv).trace).map
      (fun args => args.filter.map fun f => (f.min_items, f.max_items, f.max_percentage)) =
      [[(some 5, none, none)]] ∧
    (parseNumberOrPercent sampleLib "abc" = none ↔
      ("abc" = "" ∨ sampleLib.lexical_cast_double (stripPercent "abc") = none)) :=
  ⟨by decide, (C13_df_filters sampleLib dfOptions sampleEnv).1 "abc"⟩

theorem takeWhile_ne_eq_take (c : Char) (l : List Char) :
    l.takeWhile (fun x => decide (x ≠ c)) = l.take (l.indexOf c) ∧
    l.dropWhile (fun x => decide (x ≠ c)) = l.drop (l.indexOf c) := by
  induction l with
  | nil => simp
  | cons a l ih =>
    by_cases h : a = c
    · subst h
      simp [List.takeWhile, List.dropWhile]
    · have h' : ¬ (a == c) = true := by simpa using h
      have hd : decide (a ≠ c) = true := by simpa using h
      rw [List.takeWhile_cons, List.dropWhile_cons, List.indexOf_cons]
      simp only [hd, if_true, h', Bool.false_eq_true, cond_false, if_false, List.take_succ_cons,
        List.drop_succ_cons, ih.1, ih.2, and_self]

theorem splitChars_length (sep : Char → Bool) (l : List Char) :
    (splitChars sep l).length = (l.filter sep).length + 1 := by
  induction l with
  | nil => simp [splitChars]
  | cons c cs ih =>
    unfold splitChars
    by_cases h : sep c = true
    · simp [h, ih]
    · have hne := splitChars_ne_nil sep cs
      cases hs : splitChars sep cs with
      | nil => exact absurd hs hne
      | cons field fields =>
        rw [hs] at ih
        simp only [h, Bool.false_eq_true, if_false, List.length_cons] at ih ⊢
        rw [List.filter_cons_of_neg h]
        exact ih

/-- One element of the loop of `parseKeyValuePairs` (srcmain.cc 129-144) gives the pair
`elementPair`, provided the empty string does not parse. -/
theorem parseKeyValuePairs_element {T : Type} [Zero T] (lexical_cast : String → Option T)
    (hempty : lexical_cast "" = none) (elem : String) :
    (match find elem ':' with
      | none => (elem, (0 : T))
      | some split_index =>
        if split_index = 0 ∨ split_index = elem.length - 1 then (elem, 0)
        else
          match lexical_cast (substr_from elem (split_index + 1)) with
          | some elem_size => (substr elem 0 split_index, elem_size)
          | none => (elem, 0)) = elementPair lexical_cast elem := by
  unfold elementPair find
  have htd := takeWhile_ne_eq_take ':' elem.toList
  by_cases hmem : ':' ∈ elem.toList
  · have hlt : elem.toList.indexOf ':' < elem.toList.length := List.indexOf_lt_length.mpr hmem
    rw [if_pos hlt, if_pos hmem]
    simp only [htd.1, htd.2, List.drop_drop]
    have hname : (String.mk (elem.toList.take (elem.toList.indexOf ':')) ≠ "") ↔
        elem.toList.indexOf ':' ≠ 0 := by
      constructor
      · intro h h0
        apply h
        rw [h0]
        rfl
      · intro h hs
        have hd : (elem.toList.take (elem.toList.indexOf ':')) = [] := by
          have := congrArg String.data hs
          simpa using this
        rw [List.take_eq_nil_iff] at hd
        rcases hd with hd | hd
        · exact h hd
        · rw [hd] at hlt
          simp at hlt
    by_cases h0 : elem.toList.indexOf ':' = 0
    · have hn : ¬ (String.mk (elem.toList.take (elem.toList.indexOf ':')) ≠ "") := by
        rw [hname]
        simpa using h0
      rw [if_pos (Or.inl h0), if_neg hn]
    · rw [if_pos (hname.mpr h0)]
      by_cases hlast : elem.toList.indexOf ':' = elem.length - 1
      · rw [if_pos (Or.inr hlast)]
        have hd : elem.toList.drop (elem.toList.indexOf ':' + 1) = [] := by
          apply List.drop_eq_nil_of_le
          have : elem.length = elem.toList.length := rfl
          omega
        rw [hd]
        have : lexical_cast (String.mk []) = none := hempty
        rw [this]
      · have hc : ¬ (elem.toList.indexOf ':' = 0 ∨ elem.toList.indexOf ':' = elem.length - 1) := by
          push_neg
          exact ⟨h0, hlast⟩
        rw [if_neg hc]
        unfold substr_from substr
        simp only [List.drop_zero]
  · have hlt : ¬ elem.toList.indexOf ':' < elem.toList.length := by
      rw [List.indexOf_lt_length]
      exact hmem
    rw [if_neg hlt, if_neg hmem]

/-- C16. For an input that does not parse as a single value, `parseKeyValuePairs` returns
one pair per ';'- or ','-separated element, in input order: the pair `elementPair` of the
element. The result has one pair more than the input has separators, so it is never empty,
and the empty input gives the single pair ("", 0). (The empty string is taken not to parse,
as with boost::lexical_cast; the function is total, so no input makes it fail.) -/
theorem C16_parseKeyValuePairs_elements {T : Type} [Zero T]
    (lexical_cast : String → Option T) (input : String)
    (hsingle : lexical_cast input = none) (hempty : lexical_cast "" = none) :
    parseKeyValuePairs lexical_cast input =
      (split (is_any_of ";,") input).map (elementPair lexical_cast) ∧
    (parseKeyValuePairs lexical_cast input).length =
      (input.toList.filter (is_any_of ";,")).length + 1 ∧
    parseKeyValuePairs lexical_cast input ≠ [] ∧
    (input = "" → parseKeyValuePairs lexical_cast input = [("", 0)]) := by
  have h1 : parseKeyValuePairs lexical_cast input =
      (split (is_any_of ";,") input).map (elementPair lexical_cast) := by
    unfold parseKeyValuePairs
    rw [hsingle]
    simp only []
    apply List.map_congr_left
    intro elem _
    exact parseKeyValuePairs_element lexical_cast hempty elem
  have h2 : (parseKeyValuePairs lexical_cast input).length =
      (input.toList.filter (is_any_of ";,")).length + 1 := by
    rw [h1, List.length_map]
    unfold split
    rw [List.length_map, splitChars_length]
  refine ⟨h1, h2, ?_, ?_⟩
  · intro hnil
    rw [hnil] at h2
    simp at h2
  · intro hin
    subst hin
    rw [h1]
    rfl

/-- C16, at a concrete list for lexical_cast<int> in decimal notation: a plain name, a
name with a value, a leading colon, a trailing colon and an unparseable value. -/
theorem C16_parseKeyValuePairs_elements_witness :
    parseKeyValuePairs castDecimal "a;b:3,:4;c:,d:x" =
      [("a", 0), ("b", 3), (":4", 0), ("c:", 0), ("d:x", 0)] ∧
    parseKeyValuePairs castDecimal "a;b:3,:4;c:,d:x" =
      (split (is_any_of ";,") "a;b:3,:4;c:,d:x").map (elementPair castDecimal) :=
  ⟨by decide,
    (C16_parseKeyValuePairs_elements castDecimal "a;b:3,:4;c:,d:x" (by decide) (by decide)).1⟩

theorem splitChars_no_sep (sep : Char → Bool) (l : List Char)
    (h : ∀ c ∈ l, sep c = false) : splitChars sep l = [l] := by
  induction l with
  | nil => rfl
  | cons c cs ih =>
    unfold splitChars
    rw [ih (fun x hx => h x (List.mem_cons_of_mem _ hx))]
    simp [h c (List.mem_cons_self _ _)]

theorem split_no_sep (sep : Char → Bool) (s : String)
    (h : ∀ c ∈ s.toList, sep c = false) : split sep s = [s] := by
  unfold split
  rw [splitChars_no_sep sep s.toList h]
  rfl

/-- A run of execute returns 0 when step 2 lets it through and no regularizer, score or
final-score string is rejected. -/
theorem execute_returns_zero (lib : Lib F) (options : artm_options F) (env : Env)
    (hstep2 : ∃ calls : List (Call F),
      execute_step2 options env (working_batch_folder options env) = Except.ok calls)
    (hreg : ¬ ∃ x ∈ options.regularizer, regularizerRejected lib x)
    (hscore : ¬ ∃ x ∈ options.score, scoreRejected lib x)
    (hfinal : ¬ ∃ x ∈ options.final_score, scoreRejected lib x) :
    (execute lib options env).outcome = Outcome.returned 0 := by
  have hs4 := execute_step4_spec lib options.topics options.regularizer {}
    (execute_process_batches_args lib options)
  have hs41 := execute_step41_spec lib options.topics options.score
    (execute_master_config options env) {}
  have hs41b := execute_step41_spec lib options.topics options.final_score
    (execute_step41 lib options.topics options.score
      (execute_master_config options env) {}).master_config {}
  obtain ⟨calls, hcalls⟩ := hstep2
  unfold execute
  simp only []
  split
  · rename_i code h2
    rw [h2] at hcalls
    exact Except.noConfusion hcalls
  · split
    · rename_i what a b calls4 h4
      rw [h4] at hs4
      exact absurd (hs4.1.mp rfl) hreg
    · split
      · rename_i what h5
        have := hs41.1.mp (by rw [h5]; rfl)
        exact absurd this hscore
      · split
        · rename_i what h6
          have := hs41b.1.mp (by rw [h6]; rfl)
          exact absurd this hfinal
        · rfl

/-! ## The class ids and weights of the ProcessBatches requests -/

/-- The online loop body keeps the class ids and weights of ProcessBatchesArgs, and its
ProcessBatches request carries them. -/
theorem onlineBody_classes (lib : Lib F) (options : artm_options F) (names : List String)
    (i : Nat) (st : LoopState F) :
    ((onlineBody lib options names i st).1.process_batches_args.class_id =
        st.process_batches_args.class_id ∧
      (onlineBody lib options names i st).1.process_batches_args.class_weight =
        st.process_batches_args.class_weight) ∧
    ∀ args : ProcessBatchesArgs F,
      Call.ProcessBatches args ∈ (onlineBody lib options names i st).2 →
      args.class_id = st.process_batches_args.class_id ∧
      args.class_weight = st.process_batches_args.class_weight := by
  unfold onlineBody
  simp only []
  split
  · split
    · refine ⟨⟨rfl, rfl⟩, ?_⟩
      intro args hargs
      simp only [List.mem_cons, List.mem_singleton, List.not_mem_nil, or_false] at hargs
      rcases hargs with h | h | h | h
      · injection h with h
        subst h
        exact ⟨rfl, rfl⟩
      · exact Call.noConfusion h
      · exact Call.noConfusion h
      · exact Call.noConfusion h
    · refine ⟨⟨rfl, rfl⟩, ?_⟩
      intro args hargs
      simp only [List.mem_cons, List.mem_singleton, List.not_mem_nil, or_false] at hargs
      rcases hargs with h | h | h
      · injection h with h
        subst h
        exact ⟨rfl, rfl⟩
      · exact Call.noConfusion h
      · exact Call.noConfusion h
  · refine ⟨⟨rfl, rfl⟩, ?_⟩
    intro args hargs
    simp at hargs

theorem onlineFor_classes (lib : Lib F) (options : artm_options F) (names : List String) :
    ∀ (n i : Nat) (st : LoopState F),
      ((onlineFor lib options names n i st).1.process_batches_args.class_id =
          st.process_batches_args.class_id ∧
        (onlineFor lib options names n i st).1.process_batches_args.class_weight =
          st.process_batches_args.class_weight) ∧
      ∀ args : ProcessBatchesArgs F,
        Call.ProcessBatches args ∈ (onlineFor lib options names n i st).2 →
        args.class_id = st.process_batches_args.class_id ∧
        args.class_weight = st.process_batches_args.class_weight := by
  intro n
  induction n with
  | zero =>
    intro i st
    rw [onlineFor_zero]
    exact ⟨⟨rfl, rfl⟩, fun args h => by simp at h⟩
  | succ n ih =>
    intro i st
    rw [onlineFor_succ]
    obtain ⟨⟨b1, b2⟩, b3⟩ := onlineBody_classes lib options names i st
    obtain ⟨⟨r1, r2⟩, r3⟩ := ih (i + 1) (onlineBody lib options names i st).1
    refine ⟨⟨by rw [r1, b1], by rw [r2, b2]⟩, ?_⟩
    intro args hargs
    rcases List.mem_append.mp hargs with h | h
    · exact b3 args h
    · have := r3 args h
      rw [b1, b2] at this
      exact this

theorem offlinePass_classes {F : Type} (names : List String) (st : LoopState F) :
    ((offlinePass names st).1.process_batches_args.class_id =
        st.process_batches_args.class_id ∧
      (offlinePass names st).1.process_batches_args.class_weight =
        st.process_batches_args.class_weight) ∧
    ∀ args : ProcessBatchesArgs F,
      Call.ProcessBatches args ∈ (offlinePass names st).2 →
      args.class_id = st.process_batches_args.class_id ∧
      args.class_weight = st.process_batches_args.class_weight := by
  unfold offlinePass
  simp only []
  split
  · refine ⟨⟨rfl, rfl⟩, ?_⟩
    intro args hargs
    simp only [List.mem_cons, List.mem_singleton, List.not_mem_nil, or_false] at hargs
    rcases hargs with h | h | h
    · injection h with h
      subst h
      exact ⟨rfl, rfl⟩
    · exact Call.noConfusion h
    · exact Call.noConfusion h
  · refine ⟨⟨rfl, rfl⟩, ?_⟩
    intro args hargs
    simp only [List.mem_cons, List.mem_singleton, List.not_mem_nil, or_false] at hargs
    rcases hargs with h | h
    · injection h with h
      subst h
      exact ⟨rfl, rfl⟩
    · exact Call.noConfusion h

theorem onePass_classes (lib : Lib F) (options : artm_options F) (names : List String)
    (st : LoopState F) :
    ((onePass lib options names st).1.process_batches_args.class_id =
        st.process_batches_args.class_id ∧
      (onePass lib options names st).1.process_batches_args.class_weight =
        st.process_batches_args.class_weight) ∧
    ∀ args : ProcessBatchesArgs F,
      Call.ProcessBatches args ∈ (onePass lib options names st).2 →
      args.class_id = st.process_batches_args.class_id ∧
      args.class_weight = st.process_batches_args.class_weight := by
  unfold onePass
  split
  · exact onlineFor_classes lib options names _ _ st
  · exact offlinePass_classes names st

theorem passesFor_classes (lib : Lib F) (options : artm_options F) (names : List String) :
    ∀ (n : Nat) (st : LoopState F),
      ((passesFor lib options names n st).1.process_batches_args.class_id =
          st.process_batches_args.class_id ∧
        (passesFor lib options names n st).1.process_batches_args.class_weight =
          st.process_batches_args.class_weight) ∧
      ∀ pass ∈ (passesFor lib options names n st).2, ∀ args : ProcessBatchesArgs F,
        Call.ProcessBatches args ∈ pass.calls →
        args.class_id = st.process_batches_args.class_id ∧
        args.class_weight = st.process_batches_args.class_weight := by
  intro n
  induction n with
  | zero =>
    intro st
    rw [passesFor_zero]
    exact ⟨⟨rfl, rfl⟩, fun pass h => by simp at h⟩
  | succ n ih =>
    intro st
    rw [passesFor_succ]
    obtain ⟨⟨b1, b2⟩, b3⟩ := onePass_classes lib options names st
    obtain ⟨⟨r1, r2⟩, r3⟩ := ih (onePass lib options names st).1
    refine ⟨⟨by rw [r1, b1], by rw [r2, b2]⟩, ?_⟩
    intro pass hpass args hargs
    rcases List.mem_cons.mp hpass with h | h
    · subst h
      exact b3 args hargs
    · have := r3 pass h args hargs
      rw [b1, b2] at this
      exact this

theorem configureRegularizer_classes (lib : Lib F) (regularizer topics : String)
    (rma : RegularizeModelArgs F) (pba : ProcessBatchesArgs F) (config : RegularizerConfig) :
    (configureRegularizer lib regularizer topics rma pba config).2.2.1.class_id =
      pba.class_id ∧
    (configureRegularizer lib regularizer topics rma pba config).2.2.1.class_weight =
      pba.class_weight := by
  unfold configureRegularizer
  simp only []
  split
  · exact ⟨rfl, rfl⟩
  · split
    · exact ⟨rfl, rfl⟩
    · split
      · exact ⟨rfl, rfl⟩
      · split
        · exact ⟨rfl, rfl⟩
        · split <;> exact ⟨rfl, rfl⟩

theorem execute_step4_classes (lib : Lib F) (topics : String) :
    ∀ (regs : List String) (rma : RegularizeModelArgs F) (pba : ProcessBatchesArgs F),
      (execute_step4 lib topics regs rma pba).2.2.1.class_id = pba.class_id ∧
      (execute_step4 lib topics regs rma pba).2.2.1.class_weight = pba.class_weight := by
  intro regs
  induction regs with
  | nil =>
    intro rma pba
    exact ⟨rfl, rfl⟩
  | cons x rest ih =>
    intro rma pba
    have hc := configureRegularizer_classes lib x topics rma pba {}
    unfold execute_step4
    rcases hcr : configureRegularizer lib x topics rma pba {} with ⟨thrown, a1, a2, cfg⟩
    rw [hcr] at hc
    cases thrown with
    | some what => exact hc
    | none =>
      simp only []
      have := ih a1 a2
      exact ⟨this.1.trans hc.1, this.2.trans hc.2⟩

theorem execute_finish_classes {F : Type} (options : artm_options F)
    (mc : MasterComponentConfig F) (names : List String) (pba : ProcessBatchesArgs F) :
    ∀ args : ProcessBatchesArgs F,
      Call.ProcessBatches args ∈ execute_finish options mc names pba →
      args.class_id = pba.class_id ∧ args.class_weight = pba.class_weight := by
  intro args hc
  unfold execute_finish at hc
  simp only [List.mem_append] at hc
  rcases hc with hc | hc
  · split at hc <;> simp at hc
  · split at hc
    · simp only [List.mem_append] at hc
      rcases hc with hc | hc
      · split at hc <;> simp at hc
      · simp only [List.mem_singleton] at hc
        injection hc with hc
        subst hc
        exact ⟨rfl, rfl⟩
    · simp at hc

/-- The passes and the final requests of a run start from locals whose ProcessBatchesArgs
carries the class ids and weights parsed in step 1. -/
theorem execute_loop_classes (lib : Lib F) (options : artm_options F) (env : Env) :
    ((execute lib options env).passes = [] ∧ (execute lib options env).final_calls = []) ∨
    ∃ st0 : LoopState F,
      st0.process_batches_args.class_id = (execute_process_batches_args lib options).class_id ∧
      st0.process_batches_args.class_weight =
        (execute_process_batches_args lib options).class_weight ∧
      (execute lib options env).passes =
        (passesFor lib options env.batch_file_names options.passes.toNat st0).2 ∧
      (execute lib options env).final_calls =
        execute_finish options (execute_master_config options env) env.batch_file_names
          (passesFor lib options env.batch_file_names options.passes.toNat
            st0).1.process_batches_args := by
  have hs4 := execute_step4_classes lib options.topics options.regularizer {}
      (execute_process_batches_args lib options)
  unfold execute
  simp only []
  split
  · exact Or.inl ⟨rfl, rfl⟩
  · split
    · exact Or.inl ⟨rfl, rfl⟩
    · rename_i rma pba calls4 h4
      rw [h4] at hs4
      split
      · exact Or.inl ⟨rfl, rfl⟩
      · split
        · exact Or.inl ⟨rfl, rfl⟩
        · exact Or.inr ⟨_, hs4.1, hs4.2, rfl, rfl⟩

/-- Every ProcessBatches request of a run carries the class ids and weights that step 1 of
execute derives from the modality list. -/
theorem execute_classes (lib : Lib F) (options : artm_options F) (env : Env) :
    ∀ args ∈ processBatchesOf (execute lib options env).trace,
      args.class_id = (execute_process_batches_args lib options).class_id ∧
      args.class_weight = (execute_process_batches_args lib options).class_weight := by
  intro args hargs
  have hmem : Call.ProcessBatches args ∈ (execute lib options env).trace := by
    unfold processBatchesOf at hargs
    rw [List.mem_filterMap] at hargs
    obtain ⟨c, hc, hsome⟩ := hargs
    cases c <;> simp at hsome
    subst hsome
    exact hc
  unfold ExecResult.trace at hmem
  rw [List.mem_append, List.mem_append] at hmem
  rcases hmem with (h | h) | h
  · have := execute_setup_calls lib options env _ h
    exact absurd this (by simp [Call.isTraining])
  · rw [List.mem_flatten] at h
    obtain ⟨l, hl, hcl⟩ := h
    rw [List.mem_map] at hl
    obtain ⟨pass, hpass, rfl⟩ := hl
    rcases execute_loop_classes lib options env with ⟨h0, _⟩ | ⟨st0, e1, e2, hp, _⟩
    · rw [h0] at hpass
      simp at hpass
    · rw [hp] at hpass
      have := (passesFor_classes lib options env.batch_file_names _ st0).2 pass hpass args hcl
      rw [e1, e2] at this
      exact this
  · rcases execute_loop_classes lib options env with ⟨_, h0⟩ | ⟨st0, e1, e2, _, hf⟩
    · rw [h0] at h
      simp at h
    · rw [hf] at h
      have := execute_finish_classes options _ _ _ args h
      rw [(passesFor_classes lib options env.batch_file_names _ st0).1.1,
        (passesFor_classes lib options env.batch_file_names _ st0).1.2, e1, e2] at this
      exact this

/-- C11 as stated fails: with the modality list "text:abc" the run is not stopped; it
returns 0 and every ProcessBatches request carries the class id "text:abc" with weight 1. -/
theorem C11_malformed_weight_counterexample :
    (execute sampleLib malformedModalityOptions sampleEnv).outcome = Outcome.returned 0 ∧
    (processBatchesOf (execute sampleLib malformedModalityOptions sampleEnv).trace).map
        (fun args => args.class_id) = [["text:abc"], ["text:abc"]] ∧
    (processBatchesOf (execute sampleLib malformedModalityOptions sampleEnv).trace).map
        (fun args => args.class_weight) = [[1], [1]] := by
  decide

/-- C11, amended. An entry name:value of a modality list whose value is not a number is
accepted, wherever it stands in the list: for a list that is not a single number,
`parseKeyValuePairs` keeps the whole text of the entry as the name, with the value 0, at the
position of the entry; every ProcessBatches request of the run carries that text as the
class id at this position, with the weight 1; and the run is not stopped: it returns 0
whenever step 2 lets it through and no regularizer, score or final-score string is
rejected. -/
theorem C11_malformed_weight_accepted (lib : Lib F) (options : artm_options F) (env : Env)
    (j i : Nat) (elem : String)
    (hwhole : lib.lexical_cast_float options.use_modality = none)
    (helem : (split (is_any_of ";,") options.use_modality)[j]? = some elem)
    (hcolon : find elem ':' = some i)
    (hvalue : lib.lexical_cast_float (substr_from elem (i + 1)) = none) :
    (parseKeyValuePairs lib.lexical_cast_float options.use_modality)[j]? = some (elem, 0) ∧
    (∀ args ∈ processBatchesOf (execute lib options env).trace,
      args.class_id[j]? = some elem ∧ args.class_weight[j]? = some 1) ∧
    ((∃ calls : List (Call F),
        execute_step2 options env (working_batch_folder options env) = Except.ok calls) →
      (¬ ∃ x ∈ options.regularizer, regularizerRejected lib x) →
      (¬ ∃ x ∈ options.score, scoreRejected lib x) →
      (¬ ∃ x ∈ options.final_score, scoreRejected lib x) →
      (execute lib options env).outcome = Outcome.returned 0) := by
  have hp : (parseKeyValuePairs lib.lexical_cast_float options.use_modality)[j]? =
      some (elem, 0) := by
    unfold parseKeyValuePairs
    rw [hwhole]
    simp only []
    rw [List.getElem?_map, helem]
    simp only [Option.map_some', hcolon, hvalue]
    split <;> rfl
  refine ⟨hp, ?_, execute_returns_zero lib options env⟩
  intro args hargs
  obtain ⟨h1, h2⟩ := execute_classes lib options env args hargs
  rw [h1, h2]
  unfold execute_process_batches_args
  simp only [List.getElem?_map, hp, Option.map_some', if_true]
  exact ⟨trivial, trivial⟩

/-- C11 amended, at the modality list "a:2;text:abc", whose second entry is malformed. -/
theorem C11_malformed_weight_accepted_witness :
    parseKeyValuePairs sampleLib.lexical_cast_float "a:2;text:abc" =
      [("a", 2), ("text:abc", 0)] ∧
    (parseKeyValuePairs sampleLib.lexical_cast_float "a:2;text:abc")[1]? =
      some ("text:abc", 0) ∧
    (processBatchesOf (execute sampleLib malformedEntryOptions sampleEnv).trace).length = 3 ∧
    (processBatchesOf (execute sampleLib malformedEntryOptions sampleEnv).trace).all
      (fun args => args.class_id[1]? = some "text:abc" ∧ args.class_weight[1]? = some 1)
      = true ∧
    (execute sampleLib malformedEntryOptions sampleEnv).outcome = Outcome.returned 0 :=
  have h := C11_malformed_weight_accepted sampleLib malformedEntryOptions sampleEnv 1 4
    "text:abc" (by decide) (by decide) (by decide) (by decide)
  ⟨by decide, h.1, by decide,
    List.all_eq_true.mpr fun args hargs => decide_eq_true (h.2.1 args hargs),
    h.2.2 ⟨[], rfl⟩
      (by simp [malformedEntryOptions, sampleOptions])
      (by simp [malformedEntryOptions, sampleOptions])
      (by simp [malformedEntryOptions, sampleOptions])⟩

theorem string_append_left_cancel (p a b : String) (h : p ++ a = p ++ b) : a = b := by
  have := congrArg String.data h
  simp only [String.data_append] at this
  exact String.ext (List.append_cancel_left this)

/-- The topic names of a topics option that parses as the int `n`. -/
theorem parseTopics_of_int {F : Type} (lib : Lib F) (topics : String) (n : Int)
    (hparse : lib.lexical_cast_int topics = some n) :
    parseTopics lib topics =
      if (if n = 0 then 1 else n) = 1 then ["topic"]
      else (List.range (if n = 0 then 1 else n).toNat).map
        fun (i : Nat) => "topic" ++ "_" ++ lib.int_to_string (i : Int) := by
  unfold parseTopics parseTopicGroups parseKeyValuePairs
  rw [hparse]
  simp

/-- C17 as stated fails for n = 0: the topics option "0" gives one topic name, not none. -/
theorem C17_zero_topics_counterexample :
    sampleLib.lexical_cast_int "0" = some 0 ∧
    parseTopics sampleLib "0" = ["topic"] ∧
    (parseTopics sampleLib "0").length ≠ 0 := by
  decide

/-- C17, amended. When the topics option parses as the int n with n >= 1, `parseTopics`
returns exactly n topic names, pairwise distinct: the single name "topic" for n = 1, and
topic_0 ... topic_(n-1) in order for n >= 2; for n = 0 it returns the single name "topic".
Every InitializeModel request of a run of execute carries the names of `parseTopics`. (The
decimal strings of 0 ... n-1 are taken to be pairwise distinct.) -/
theorem C17_topic_count (lib : Lib F) (options : artm_options F) (env : Env) (n : Nat)
    (hparse : lib.lexical_cast_int options.topics = some (n : Int))
    (hinj : ∀ i < n, ∀ j < n,
      lib.int_to_string (i : Int) = lib.int_to_string (j : Int) → i = j) :
    (n ≤ 1 → parseTopics lib options.topics = ["topic"]) ∧
    (2 ≤ n → parseTopics lib options.topics =
      (List.range n).map fun (i : Nat) => "topic" ++ "_" ++ lib.int_to_string (i : Int)) ∧
    (1 ≤ n → (parseTopics lib options.topics).length = n ∧
      (parseTopics lib options.topics).Nodup) ∧
    (∀ args ∈ initializeModelOf (execute lib options env).trace,
      args.topic_name = parseTopics lib options.topics) := by
  have hp := parseTopics_of_int lib options.topics n hparse
  have h01 : n ≤ 1 → parseTopics lib options.topics = ["topic"] := by
    intro hn
    rw [hp]
    have : (if (n : Int) = 0 then (1 : Int) else n) = 1 := by
      split <;> omega
    rw [if_pos this]
  have h2 : 2 ≤ n → parseTopics lib options.topics =
      (List.range n).map fun (i : Nat) => "topic" ++ "_" ++ lib.int_to_string (i : Int) := by
    intro hn
    rw [hp]
    have h0 : ¬ (n : Int) = 0 := by omega
    rw [if_neg h0]
    have h1 : ¬ (n : Int) = 1 := by omega
    rw [if_neg h1, Int.toNat_ofNat]
  refine ⟨h01, h2, ?_, ?_⟩
  · intro hn
    by_cases h1 : n ≤ 1
    · rw [h01 h1]
      have : n = 1 := by omega
      subst this
      simp
    · rw [h2 (by omega)]
      refine ⟨by simp, ?_⟩
      apply List.Nodup.map_on _ (List.nodup_range n)
      intro i hi j hj hij
      rw [List.mem_range] at hi hj
      exact hinj i hi j hj (string_append_left_cancel _ _ _ hij)
  · intro args hargs
    rw [execute_initializeModel] at hargs
    split at hargs
    · exact (execute_step5_filters lib options _ _ _ args hargs).2.1
    · simp at hargs

/-- C17 amended, at the topics option "3" of a concrete run. -/
theorem C17_topic_count_witness :
    parseTopics sampleLib "3" = ["topic_0", "topic_1", "topic_2"] ∧
    (parseTopics sampleLib "3").length = 3 ∧ (parseTopics sampleLib "3").Nodup ∧
    (initializeModelOf (execute sampleLib { sampleOptions with topics := "3" }
      sampleEnv).trace).map (fun args => args.topic_name) =
      [["topic_0", "topic_1", "topic_2"]] :=
  have h := C17_topic_count sampleLib { sampleOptions with topics := "3" } sampleEnv 3
    (by decide) (by decide)
  ⟨by decide, (h.2.2.1 (by decide)).1, (h.2.2.1 (by decide)).2, by decide⟩

theorem find_none_of_not_mem (s : String) (c : Char) (h : c ∉ s.toList) : find s c = none := by
  unfold find
  rw [if_neg]
  rw [List.indexOf_lt_length]
  exact h

/-- The topic names of a selector that is a plain name. -/
theorem parseTopics_plain_name {F : Type} (lib : Lib F) (g : String)
    (hcast : lib.lexical_cast_int g = none)
    (hchars : ∀ c ∈ g.toList, c ≠ ';' ∧ c ≠ ',' ∧ c ≠ ':') (hne : g ≠ "") :
    parseTopics lib g = [g] := by
  have hsep : ∀ c ∈ g.toList, is_any_of ";," c = false := by
    intro c hc
    have := hchars c hc
    simp [is_any_of, this.1, this.2.1]
  have hcolon : find g ':' = none := by
    apply find_none_of_not_mem
    intro hmem
    exact (hchars ':' hmem).2.2 rfl
  unfold parseTopics parseTopicGroups parseKeyValuePairs
  rw [hcast]
  simp only []
  rw [split_no_sep _ _ hsep]
  simp [hcolon, hne]

/-- The first group with a given name, from the first parsed pair that declares it. -/
theorem parseTopicGroups_find {F : Type} (lib : Lib F) (groups g : String)
    (before after : List (String × Int)) (name : String) (k : Int)
    (hpairs : parseKeyValuePairs lib.lexical_cast_int groups = before ++ (name, k) :: after)
    (hbefore : ∀ pair ∈ before, groupName pair ≠ g) (hname : groupName (name, k) = g) :
    (parseTopicGroups lib groups).find? (fun group => group.1 = g) =
      some (g,
        if (if k = 0 then 1 else k) = 1 then [g]
        else (List.range (if k = 0 then 1 else k).toNat).map
          fun (i : Nat) => g ++ "_" ++ lib.int_to_string (i : Int)) := by
  unfold parseTopicGroups
  rw [hpairs, List.map_append, List.find?_append]
  have hnone : List.find? (fun group => decide (group.1 = g))
      (List.map (fun pair : String × Int =>
        let group : String := if pair.1 = "" then "topic" else pair.1
        let group_size : Int := if pair.2 = 0 then 1 else pair.2
        let group_list : List String :=
          if group_size = 1 then [group]
          else (List.range group_size.toNat).map
            fun (i : Nat) => group ++ "_" ++ lib.int_to_string (i : Int)
        (group, group_list)) before) = none := by
    rw [List.find?_eq_none]
    intro x hx
    rw [List.mem_map] at hx
    obtain ⟨pair, hpair, rfl⟩ := hx
    have := hbefore pair hpair
    unfold groupName at this
    simpa using this
  rw [hnone]
  unfold groupName at hname
  simp only [] at hname
  simp only [Option.none_or, List.map_cons, List.find?_cons, hname, decide_True]

/-- C18 as stated fails for a group whose name reads as a number: with the groups "5:3"
the group "5" has the topics 5_0, 5_1, 5_2, but the selector "5" is read as the number of
topics 5 and gives topic_0 ... topic_4. -/
theorem C18_numeric_group_counterexample :
    parseTopicGroups sampleLib "5:3" = [("5", ["5_0", "5_1", "5_2"])] ∧
    parseTopics2 sampleLib "5" "5:3" =
      ["topic_0", "topic_1", "topic_2", "topic_3", "topic_4"] ∧
    parseTopics2 sampleLib "5" "5:3" ≠ ["5_0", "5_1", "5_2"] := by
  decide

/-- C18, amended. `parseTopics(selector, groups)` is `parseTopics(selector)` with every
name replaced, in place and in order, by the topic names of the first group of
`parseTopicGroups(groups)` with that name, and kept when no group has it; every name of the
result is a name of `parseTopics(groups)` or of `parseTopics(selector)`; and when the
selector is a plain name g (not empty, not parsed as an int, without ';', ',' or ':') whose
first declaration among the pairs parsed from groups is g:k with k >= 2, the result is
exactly g_0 ... g_(k-1). -/
theorem C18_parseTopics_groups {F : Type} (lib : Lib F) (selector groups : String) :
    parseTopics2 lib selector groups =
      ((parseTopics lib selector).map
        (expandTopicName (parseTopicGroups lib groups))).flatten ∧
    (∀ name ∈ parseTopics2 lib selector groups,
      name ∈ parseTopics lib groups ∨ name ∈ parseTopics lib selector) ∧
    (∀ (before after : List (String × Int)) (k : Int),
      lib.lexical_cast_int selector = none →
      (∀ c ∈ selector.toList, c ≠ ';' ∧ c ≠ ',' ∧ c ≠ ':') → selector ≠ "" →
      parseKeyValuePairs lib.lexical_cast_int groups = before ++ (selector, k) :: after →
      (∀ pair ∈ before, groupName pair ≠ selector) → 2 ≤ k →
      parseTopics2 lib selector groups =
        (List.range k.toNat).map
          fun (i : Nat) => selector ++ "_" ++ lib.int_to_string (i : Int)) := by
  have h1 : parseTopics2 lib selector groups =
      ((parseTopics lib selector).map
        (expandTopicName (parseTopicGroups lib groups))).flatten := rfl
  refine ⟨h1, ?_, ?_⟩
  · intro name hname
    rw [h1, List.mem_flatten] at hname
    obtain ⟨l, hl, hnl⟩ := hname
    rw [List.mem_map] at hl
    obtain ⟨x, hx, rfl⟩ := hl
    unfold expandTopicName at hnl
    cases hf : (parseTopicGroups lib groups).find? (fun group => group.1 = x) with
    | none =>
      rw [hf] at hnl
      simp only [List.mem_singleton] at hnl
      subst hnl
      exact Or.inr hx
    | some group =>
      rw [hf] at hnl
      left
      unfold parseTopics
      rw [List.mem_flatten]
      exact ⟨group.2, List.mem_map.mpr ⟨group, List.mem_of_find?_eq_some hf, rfl⟩, hnl⟩
  · intro before after k hcast hchars hne hpairs hbefore hk
    rw [h1, parseTopics_plain_name lib selector hcast hchars hne]
    have hname : groupName (selector, k) = selector := by
      unfold groupName
      simp [hne]
    have hfind := parseTopicGroups_find lib groups selector before after selector k hpairs
      hbefore hname
    simp only [List.map_cons, List.map_nil, List.flatten_cons, List.flatten_nil,
      List.append_nil, expandTopicName, hfind]
    have h0 : ¬ k = 0 := by omega
    have h1 : ¬ k = 1 := by omega
    simp only [h0, h1, if_false]

/-- C18 amended, at the selector "g" and the groups "a;g:3". -/
theorem C18_parseTopics_groups_witness :
    parseTopics2 sampleLib "g;x" "a;g:3" = ["g_0", "g_1", "g_2", "x"] ∧
    parseTopics2 sampleLib "g" "a;g:3" =
      (List.range (3 : Int).toNat).map
        fun (i : Nat) => "g" ++ "_" ++ sampleLib.int_to_string (i : Int) :=
  ⟨by decide,
    (C18_parseTopics_groups sampleLib "g" "a;g:3").2.2 [("a", 0)] [] 3 (by decide) (by decide)
      (by decide) (by decide) (by decide) (by decide)⟩

/-- The one place where a successful `configureRegularizer` registers the regularizer. -/
theorem configureRegularizer_registers (lib : Lib F) (regularizer topics : String)
    (rma : RegularizeModelArgs F) (pba : ProcessBatchesArgs F) (config : RegularizerConfig)
    (h : (configureRegularizer lib regularizer topics rma pba config).1 = none) :
    (isThetaRegularizer regularizer = true ∧ isPhiRegularizer regularizer = false ∧
      (configureRegularizer lib regularizer topics rma pba config).2.1 = rma ∧
      ∃ tau : F, (configureRegularizer lib regularizer topics rma pba config).2.2.1 =
        { pba with
          regularizer_name := pba.regularizer_name ++ [regularizer]
          regularizer_tau := pba.regularizer_tau ++ [tau] }) ∨
    (isPhiRegularizer regularizer = true ∧ isThetaRegularizer regularizer = false ∧
      (configureRegularizer lib regularizer topics rma pba config).2.2.1 = pba ∧
      ∃ tau : F, (configureRegularizer lib regularizer topics rma pba config).2.1 =
        { rma with
          regularizer_settings := rma.regularizer_settings ++
            [{ name := regularizer, tau := tau, use_relative_regularization := false }] }) := by
  revert h
  unfold configureRegularizer isPhiRegularizer isThetaRegularizer
  simp only []
  generalize to_lower_copy ((split (is_any_of "\t ") regularizer).getD 1 "") = ty
  by_cases h1 : (split (is_any_of "\t ") regularizer).length < 2
  · simp [h1]
  · rw [if_neg h1]
    cases h2 : lib.lexical_cast_float ((split (is_any_of "\t ") regularizer).getD 0 "") with
    | none => simp
    | some tau =>
      simp only []
      by_cases ha : ty = "smooththeta" ∨ ty = "sparsetheta"
      · rw [if_pos ha]
        rcases ha with ha | ha <;> simp [ha]
      · rw [if_neg ha]
        by_cases hb : ty = "smoothphi" ∨ ty = "sparsephi"
        · rw [if_pos hb]
          rcases hb with hb | hb <;> simp [hb]
        · rw [if_neg hb]
          by_cases hd : ty = "decorrelation"
          · rw [if_pos hd]
            simp [hd]
          · rw [if_neg hd]
            simp

/-- The lengths of the three lists after one call of `configureRegularizer`. -/
theorem configureRegularizer_lengths (lib : Lib F) (regularizer topics : String)
    (rma : RegularizeModelArgs F) (pba : ProcessBatchesArgs F) (config : RegularizerConfig) :
    ∃ k : Nat,
      (configureRegularizer lib regularizer topics rma pba config).2.2.1.regularizer_name.length
        = pba.regularizer_name.length + k ∧
      (configureRegularizer lib regularizer topics rma pba config).2.2.1.regularizer_tau.length
        = pba.regularizer_tau.length + k ∧
      (configureRegularizer lib regularizer topics rma pba config).2.1.regularizer_settings.length
        + k = rma.regularizer_settings.length +
          (if (configureRegularizer lib regularizer topics rma pba config).1 = none
            then 1 else 0) := by
  cases h : (configureRegularizer lib regularizer topics rma pba config).1 with
  | some what =>
    have := (configureRegularizer_thrown lib regularizer topics rma pba config).2
      (by rw [h]; rfl)
    refine ⟨0, ?_, ?_, ?_⟩
    · rw [this]; rfl
    · rw [this]; rfl
    · rw [this]; simp
  | none =>
    rcases configureRegularizer_registers lib regularizer topics rma pba config h with
      ⟨_, _, h1, tau, h2⟩ | ⟨_, _, h1, tau, h2⟩
    · refine ⟨1, ?_, ?_, ?_⟩
      · rw [h2]; simp
      · rw [h2]; simp
      · rw [h1]; simp
    · refine ⟨0, ?_, ?_, ?_⟩
      · rw [h1]; rfl
      · rw [h1]; rfl
      · rw [h2]; simp

/-- The lengths of the three lists after a sequence of calls. -/
theorem configureSequence_lengths (lib : Lib F) (calls : List ConfigureCall) :
    ∀ (rma : RegularizeModelArgs F) (pba : ProcessBatchesArgs F),
    ∃ k : Nat,
      (configureSequence lib calls rma pba).2.1.regularizer_name.length =
        pba.regularizer_name.length + k ∧
      (configureSequence lib calls rma pba).2.1.regularizer_tau.length =
        pba.regularizer_tau.length + k ∧
      (configureSequence lib calls rma pba).1.regularizer_settings.length + k =
        rma.regularizer_settings.length + (configureSequence lib calls rma pba).2.2 := by
  induction calls with
  | nil =>
    intro rma pba
    exact ⟨0, rfl, rfl, rfl⟩
  | cons call rest ih =>
    intro rma pba
    obtain ⟨k1, h1, h2, h3⟩ := configureRegularizer_lengths lib call.regularizer call.topics
      rma pba call.config
    obtain ⟨k2, g1, g2, g3⟩ := ih
      (configureRegularizer lib call.regularizer call.topics rma pba call.config).2.1
      (configureRegularizer lib call.regularizer call.topics rma pba call.config).2.2.1
    refine ⟨k1 + k2, ?_, ?_, ?_⟩
    · simp only [configureSequence]
      rw [g1, h1]; omega
    · simp only [configureSequence]
      rw [g2, h2]; omega
    · simp only [configureSequence]
      omega

/-- C19. Every successful call of `configureRegularizer` registers the regularizer in exactly
one place: for a theta type it appends the regularizer string to regularizer_name and one
tau to regularizer_tau of ProcessBatchesArgs and leaves RegularizeModelArgs as it was; for a
phi type it appends one setting to RegularizeModelArgs and leaves ProcessBatchesArgs as it
was. Hence after any sequence of calls regularizer_name and regularizer_tau have grown by
the same number of entries, and the entries gained by regularizer_name and
regularizer_settings together are one per successful call; starting from empty objects the
two lists of ProcessBatchesArgs have equal length and the two objects hold one entry per
successful call. -/
theorem C19_single_registration (lib : Lib F) (regularizer topics : String)
    (rma : RegularizeModelArgs F) (pba : ProcessBatchesArgs F) (config : RegularizerConfig)
    (calls : List ConfigureCall) :
    ((configureRegularizer lib regularizer topics rma pba config).1 = none →
      (isThetaRegularizer regularizer = true ∧ isPhiRegularizer regularizer = false ∧
        (configureRegularizer lib regularizer topics rma pba config).2.1 = rma ∧
        ∃ tau : F, (configureRegularizer lib regularizer topics rma pba config).2.2.1 =
          { pba with
            regularizer_name := pba.regularizer_name ++ [regularizer]
            regularizer_tau := pba.regularizer_tau ++ [tau] }) ∨
      (isPhiRegularizer regularizer = true ∧ isThetaRegularizer regularizer = false ∧
        (configureRegularizer lib regularizer topics rma pba config).2.2.1 = pba ∧
        ∃ tau : F, (configureRegularizer lib regularizer topics rma pba config).2.1 =
          { rma with
            regularizer_settings := rma.regularizer_settings ++
              [{ name := regularizer, tau := tau, use_relative_regularization := false }] })) ∧
    ((configureSequence lib calls rma pba).2.1.regularizer_name.length +
        pba.regularizer_tau.length =
      (configureSequence lib calls rma pba).2.1.regularizer_tau.length +
        pba.regularizer_name.length ∧
      (configureSequence lib calls rma pba).2.1.regularizer_name.length +
        (configureSequence lib calls rma pba).1.regularizer_settings.length =
      pba.regularizer_name.length + rma.regularizer_settings.length +
        (configureSequence lib calls rma pba).2.2) ∧
    ((configureSequence lib calls {} {}).2.1.regularizer_name.length =
        (configureSequence lib calls {} {}).2.1.regularizer_tau.length ∧
      (configureSequence lib calls {} {}).2.1.regularizer_name.length +
        (configureSequence lib calls {} {}).1.regularizer_settings.length =
      (configureSequence lib calls {} {}).2.2) := by
  refine ⟨configureRegularizer_registers lib regularizer topics rma pba config, ?_, ?_⟩
  · obtain ⟨k, h1, h2, h3⟩ := configureSequence_lengths lib calls rma pba
    constructor <;> omega
  · obtain ⟨k, h1, h2, h3⟩ := configureSequence_lengths lib calls
      ({} : RegularizeModelArgs F) ({} : ProcessBatchesArgs F)
    have e1 : ({} : ProcessBatchesArgs F).regularizer_name.length = 0 := rfl
    have e2 : ({} : ProcessBatchesArgs F).regularizer_tau.length = 0 := rfl
    have e3 : ({} : RegularizeModelArgs F).regularizer_settings.length = 0 := rfl
    rw [e1] at h1
    rw [e2] at h2
    rw [e3] at h3
    constructor <;> omega

/-- The fields of a regularizer string with a coefficient, a type and selectors. -/
theorem configureRegularizer_fields (lib : Lib F) (regularizer topics : String)
    (rma : RegularizeModelArgs F) (pba : ProcessBatchesArgs F) (config : RegularizerConfig)
    (coefficient type : String) (selectors : List String) (t : F)
    (hsplit : split (is_any_of "\t ") regularizer = coefficient :: type :: selectors)
    (hcast : lib.lexical_cast_float coefficient = some t)
    (htype : to_lower_copy type = "sparsephi" ∨ to_lower_copy type = "smoothphi") :
    configureRegularizer lib regularizer topics rma pba config =
      (none,
        { rma with
          regularizer_settings := rma.regularizer_settings ++
            [{ name := regularizer
               tau := if to_lower_copy type = "sparsephi" then -t else t
               use_relative_regularization := false }] },
        pba,
        { name := some regularizer
          type := some RegularizerConfig_Type.SmoothSparsePhi
          config := some (RegularizerSpecific.SmoothSparsePhiConfig
            (parseSelectors lib topics selectors).topic_names
            ((parseSelectors lib topics selectors).class_ids.map fun class_id => class_id.1)
            (if (parseSelectors lib topics selectors).dictionary_name = "" then none
              else some (parseSelectors lib topics selectors).dictionary_name)) }) := by
  unfold configureRegularizer
  simp only [hsplit, List.length_cons, List.getD_cons_zero, List.getD_cons_succ, List.drop_succ_cons,
    List.drop_zero, hcast]
  have hlen : ¬ (selectors.length + 1 + 1 < 2) := by omega
  rw [if_neg hlen]
  rcases htype with h | h <;> simp [h]

/-- C20. For every regularizer string with at least two fields whose first field parses as
the coefficient t, `configureRegularizer` registers tau = -t for the (lower-cased) types
sparsetheta and sparsephi and tau = t for smooththeta, smoothphi and decorrelation; and two
strings with the same selector fields, one with coefficient t and a type that lower-cases to
sparsephi, the other with coefficient -t and a type that lower-cases to smoothphi, leave
behind the same objects (regularizer type SmoothSparsePhi, tau -t, the same specific
configuration) except for the registered name, which is the string itself. -/
theorem C20_tau_sign (lib : Lib F) (topics : String) (rma : RegularizeModelArgs F)
    (pba : ProcessBatchesArgs F) (config : RegularizerConfig) (t : F) :
    (∀ regularizer : String,
      2 ≤ (split (is_any_of "\t ") regularizer).length →
      lib.lexical_cast_float ((split (is_any_of "\t ") regularizer).getD 0 "") = some t →
      (to_lower_copy ((split (is_any_of "\t ") regularizer).getD 1 "") = "sparsetheta" →
        (configureRegularizer lib regularizer topics rma pba config).2.2.1.regularizer_tau =
          pba.regularizer_tau ++ [-t]) ∧
      (to_lower_copy ((split (is_any_of "\t ") regularizer).getD 1 "") = "smooththeta" →
        (configureRegularizer lib regularizer topics rma pba config).2.2.1.regularizer_tau =
          pba.regularizer_tau ++ [t]) ∧
      (to_lower_copy ((split (is_any_of "\t ") regularizer).getD 1 "") = "sparsephi" →
        (configureRegularizer lib regularizer topics rma pba config).2.1.regularizer_settings =
          rma.regularizer_settings ++
            [{ name := regularizer, tau := -t, use_relative_regularization := false }]) ∧
      (to_lower_copy ((split (is_any_of "\t ") regularizer).getD 1 "") = "smoothphi" →
        (configureRegularizer lib regularizer topics rma pba config).2.1.regularizer_settings =
          rma.regularizer_settings ++
            [{ name := regularizer, tau := t, use_relative_regularization := false }]) ∧
      (to_lower_copy ((split (is_any_of "\t ") regularizer).getD 1 "") = "decorrelation" →
        (configureRegularizer lib regularizer topics rma pba config).2.1.regularizer_settings =
          rma.regularizer_settings ++
            [{ name := regularizer, tau := t, use_relative_regularization := false }])) ∧
    (∀ (sparse smooth coefficient1 coefficient2 type1 type2 : String)
      (selectors : List String),
      split (is_any_of "\t ") sparse = coefficient1 :: type1 :: selectors →
      split (is_any_of "\t ") smooth = coefficient2 :: type2 :: selectors →
      lib.lexical_cast_float coefficient1 = some t →
      lib.lexical_cast_float coefficient2 = some (-t) →
      to_lower_copy type1 = "sparsephi" → to_lower_copy type2 = "smoothphi" →
      ∃ specific : RegularizerSpecific,
        configureRegularizer lib sparse topics rma pba config =
          (none,
            { rma with
              regularizer_settings := rma.regularizer_settings ++
                [{ name := sparse, tau := -t, use_relative_regularization := false }] },
            pba,
            { name := some sparse
              type := some RegularizerConfig_Type.SmoothSparsePhi
              config := some specific }) ∧
        configureRegularizer lib smooth topics rma pba config =
          (none,
            { rma with
              regularizer_settings := rma.regularizer_settings ++
                [{ name := smooth, tau := -t, use_relative_regularization := false }] },
            pba,
            { name := some smooth
              type := some RegularizerConfig_Type.SmoothSparsePhi
              config := some specific })) := by
  constructor
  · intro regularizer hlen hcast
    unfold configureRegularizer
    simp only []
    generalize to_lower_copy ((split (is_any_of "\t ") regularizer).getD 1 "") = ty
    have h1 : ¬ (split (is_any_of "\t ") regularizer).length < 2 := by omega
    rw [if_neg h1, hcast]
    simp only []
    refine ⟨?_, ?_, ?_, ?_, ?_⟩ <;> intro h <;> subst h <;> simp
  · intro sparse smooth coefficient1 coefficient2 type1 type2 selectors hs1 hs2 hc1 hc2 ht1 ht2
    refine ⟨RegularizerSpecific.SmoothSparsePhiConfig
      (parseSelectors lib topics selectors).topic_names
      ((parseSelectors lib topics selectors).class_ids.map fun class_id => class_id.1)
      (if (parseSelectors lib topics selectors).dictionary_name = "" then none
        else some (parseSelectors lib topics selectors).dictionary_name), ?_, ?_⟩
    · rw [configureRegularizer_fields lib sparse topics rma pba config coefficient1 type1
        selectors t hs1 hc1 (Or.inl ht1)]
      rw [if_pos ht1]
    · rw [configureRegularizer_fields lib smooth topics rma pba config coefficient2 type2
        selectors (-t) hs2 hc2 (Or.inr ht2)]
      have hne : ¬ to_lower_copy type2 = "sparsephi" := by
        rw [ht2]
        decide
      rw [if_neg hne]

theorem sampleLib_cast_two : sampleLib.lexical_cast_float "2" = some (2 : ℚ) := by
  have h : sampleLib.lexical_cast_float "2" = some ((2 : Int) : ℚ) := by decide
  rw [h]
  norm_num

theorem sampleLib_cast_minus_two : sampleLib.lexical_cast_float "-2" = some (-(2 : ℚ)) := by
  have h : sampleLib.lexical_cast_float "-2" = some ((-2 : Int) : ℚ) := by decide
  rw [h]
  norm_num

/-- C20 at the strings "2 SparsePhi #a" and "-2 SmoothPhi #a" with the topics "4". -/
theorem C20_tau_sign_witness :
    ∃ specific : RegularizerSpecific,
      configureRegularizer sampleLib "2 SparsePhi #a" "4" {} {} {} =
        (none,
          { ({} : RegularizeModelArgs ℚ) with
            regularizer_settings := ({} : RegularizeModelArgs ℚ).regularizer_settings ++
              [{ name := "2 SparsePhi #a", tau := -2, use_relative_regularization := false }] },
          {},
          { name := some "2 SparsePhi #a"
            type := some RegularizerConfig_Type.SmoothSparsePhi
            config := some specific }) ∧
      configureRegularizer sampleLib "-2 SmoothPhi #a" "4" {} {} {} =
        (none,
          { ({} : RegularizeModelArgs ℚ) with
            regularizer_settings := ({} : RegularizeModelArgs ℚ).regularizer_settings ++
              [{ name := "-2 SmoothPhi #a", tau := -2, use_relative_regularization := false }] },
          {},
          { name := some "-2 SmoothPhi #a"
            type := some RegularizerConfig_Type.SmoothSparsePhi
            config := some specific }) :=
  (C20_tau_sign sampleLib "4" {} {} {} 2).2 "2 SparsePhi #a" "-2 SmoothPhi #a" "2" "-2"
    "SparsePhi" "SmoothPhi" ["#a"] (by decide) (by decide) sampleLib_cast_two
    sampleLib_cast_minus_two (by decide) (by decide)

end

section

variable {F : Type} [LinearOrderedField F]

theorem addTokenRow_length (ns rs : List F) : (addTokenRow ns rs).length = ns.length := by
  induction ns generalizing rs with
  | nil => simp [addTokenRow]
  | cons n ns ih =>
    cases rs with
    | nil => simp [addTokenRow, ih]
    | cons r rs => simp [addTokenRow, ih]

theorem tokenContributions_length (nwt_row : List F) (rwt_row : Option (List F)) :
    (tokenContributions nwt_row rwt_row).length = nwt_row.length := by
  unfold tokenContributions
  cases rwt_row with
  | none => simp
  | some r => simp [addTokenRow_length]

theorem tokenContributions_nonneg (nwt_row : List F) (rwt_row : Option (List F)) :
    ∀ x ∈ tokenContributions nwt_row rwt_row, 0 ≤ x := by
  intro x hx
  unfold tokenContributions at hx
  rw [List.mem_map] at hx
  obtain ⟨y, _, rfl⟩ := hx
  exact le_max_left 0 y

theorem sum_map_div_total (l : List F) (total : F) :
    (l.map fun x => x / total).sum = l.sum / total := by
  induction l with
  | nil => simp
  | cons a l ih => simp [ih, add_div]

theorem sum_map_uniform (l : List F) (h : l ≠ []) :
    (l.map fun _ => 1 / (l.length : F)).sum = 1 := by
  have hlen : (l.length : F) ≠ 0 := by
    have : l.length ≠ 0 := fun h0 => h (List.length_eq_zero.mp h0)
    exact_mod_cast this
  have hsum : ∀ (m : List F) (c : F), (m.map fun _ => c).sum = (m.length : F) * c := by
    intro m c
    induction m with
    | nil => simp
    | cons a m ih =>
      simp only [List.map_cons, List.sum_cons, ih, List.length_cons, Nat.cast_add, Nat.cast_one]
      ring
  rw [hsum]
  field_simp

theorem normalizeToken_length (nwt_row : List F) (rwt_row : Option (List F)) :
    (normalizeToken nwt_row rwt_row).length = nwt_row.length := by
  unfold normalizeToken
  simp only []
  split <;> simp [tokenContributions_length]

/-- One normalized token with at least one topic is a probability distribution. -/
theorem normalizeToken_distribution (nwt_row : List F) (rwt_row : Option (List F))
    (h : nwt_row ≠ []) :
    (∀ w ∈ normalizeToken nwt_row rwt_row, 0 ≤ w) ∧ (normalizeToken nwt_row rwt_row).sum = 1 := by
  have hne : tokenContributions nwt_row rwt_row ≠ [] := by
    intro h0
    have := tokenContributions_length nwt_row rwt_row
    rw [h0] at this
    exact h (List.length_eq_zero.mp this.symm)
  unfold normalizeToken
  simp only []
  by_cases ht : (tokenContributions nwt_row rwt_row).sum ≤ 0
  · rw [if_pos ht]
    refine ⟨?_, sum_map_uniform _ hne⟩
    intro w hw
    rw [List.mem_map] at hw
    obtain ⟨_, _, rfl⟩ := hw
    positivity
  · rw [if_neg ht]
    have hpos : 0 < (tokenContributions nwt_row rwt_row).sum := lt_of_not_le ht
    refine ⟨?_, ?_⟩
    · intro w hw
      rw [List.mem_map] at hw
      obtain ⟨x, hx, rfl⟩ := hw
      exact div_nonneg (tokenContributions_nonneg nwt_row rwt_row x hx) (le_of_lt hpos)
    · rw [sum_map_div_total]
      exact div_self (ne_of_gt hpos)

/-- Every row of the normalized matrix is the normalization of a row of the nwt source. -/
theorem normalizeTokens_mem (nwt : ModelMatrix F) :
    ∀ (rwt : Option (ModelMatrix F)) (row : List F), row ∈ normalizeTokens nwt rwt →
      ∃ nwt_row ∈ nwt, ∃ rwt_row : Option (List F), row = normalizeToken nwt_row rwt_row := by
  induction nwt with
  | nil =>
    intro rwt row h
    simp [normalizeTokens] at h
  | cons r rows ih =>
    intro rwt row h
    have key : ∃ (x : Option (List F)) (rest : Option (ModelMatrix F)),
        normalizeTokens (r :: rows) rwt = normalizeToken r x :: normalizeTokens rows rest := by
      cases rwt with
      | none => exact ⟨none, none, rfl⟩
      | some m =>
        cases m with
        | nil => exact ⟨none, some [], rfl⟩
        | cons a m => exact ⟨some a, some m, rfl⟩
    obtain ⟨x, rest, hkey⟩ := key
    rw [hkey, List.mem_cons] at h
    rcases h with h | h
    · exact ⟨r, List.mem_cons_self _ _, x, h⟩
    · obtain ⟨nwt_row, hmem, rwt_row, hrow⟩ := ih rest row h
      exact ⟨nwt_row, List.mem_cons_of_mem _ hmem, rwt_row, hrow⟩

theorem normalizeTokens_length (nwt : ModelMatrix F) :
    ∀ rwt : Option (ModelMatrix F), (normalizeTokens nwt rwt).length = nwt.length := by
  induction nwt with
  | nil =>
    intro rwt
    simp [normalizeTokens]
  | cons r rows ih =>
    intro rwt
    cases rwt with
    | none => simp [normalizeTokens, ih]
    | some m =>
      cases m with
      | nil => simp [normalizeTokens, ih]
      | cons a m => simp [normalizeTokens, ih]

/-- C14. After every completed Normalize step the target name holds a matrix pwt with one
row per token of the nwt source in which every token row with at least one topic has only
non-negative weights that sum to 1; and a token whose total of nonnegative contributions is
zero or negative gets the uniform distribution 1 / (number of topics) on every topic. -/
theorem C14_normalize_distribution (registry registry1 : ModelRegistry F)
    (args : NormalizeModelArgs) (h : normalizeModel registry args = some registry1) :
    (∃ (source target : String) (nwt pwt : ModelMatrix F),
      args.nwt_source_name = some source ∧ args.pwt_target_name = some target ∧
      registry source = some nwt ∧ registry1 target = some pwt ∧
      pwt = normalizeTokens nwt (args.rwt_source_name.bind registry) ∧
      pwt.length = nwt.length ∧
      ∀ row ∈ pwt, row ≠ [] → (∀ w ∈ row, 0 ≤ w) ∧ row.sum = 1) ∧
    (∀ (nwt_row : List F) (rwt_row : Option (List F)),
      (tokenContributions nwt_row rwt_row).sum ≤ 0 →
      normalizeToken nwt_row rwt_row =
        List.replicate nwt_row.length (1 / (nwt_row.length : F))) := by
  constructor
  · unfold normalizeModel at h
    cases hs : args.nwt_source_name with
    | none => rw [hs] at h; exact Option.noConfusion h
    | some source =>
      cases ht : args.pwt_target_name with
      | none => rw [hs, ht] at h; exact Option.noConfusion h
      | some target =>
        rw [hs, ht] at h
        simp only [] at h
        cases hn : registry source with
        | none => rw [hn] at h; exact Option.noConfusion h
        | some nwt =>
          rw [hn] at h
          simp only [Option.some.injEq] at h
          refine ⟨source, target, nwt, normalizeTokens nwt (args.rwt_source_name.bind registry),
            rfl, rfl, hn, ?_, rfl, normalizeTokens_length nwt _, ?_⟩
          · rw [← h]
            simp
          · intro row hrow hne
            obtain ⟨nwt_row, _, rwt_row, rfl⟩ := normalizeTokens_mem nwt _ row hrow
            apply normalizeToken_distribution
            intro h0
            apply hne
            apply List.length_eq_zero.mp
            rw [normalizeToken_length, h0]
            rfl
  · intro nwt_row rwt_row htotal
    unfold normalizeToken
    simp only []
    rw [if_pos htotal, tokenContributions_length]
    rw [List.eq_replicate_iff]
    refine ⟨by simp [tokenContributions_length], ?_⟩
    intro b hb
    rw [List.mem_map] at hb
    obtain ⟨_, _, rfl⟩ := hb
    rfl

/-- C14 at the offline Normalize step from nwt_hat into pwt of a registry with a token
without any count. -/
theorem C14_normalize_distribution_witness :
    normalizeModel sampleRegistry
        { nwt_source_name := some "nwt_hat", pwt_target_name := some "pwt" } =
      some (Function.update sampleRegistry "pwt"
        (some (normalizeTokens [[1, 3], [0, 0]] none))) ∧
    normalizeTokens [[(1 : ℚ), 3], [0, 0]] none = [[1 / 4, 3 / 4], [1 / 2, 1 / 2]] ∧
    ((∃ (source target : String) (nwt pwt : ModelMatrix ℚ),
      some "nwt_hat" = some source ∧ some "pwt" = some target ∧
      sampleRegistry source = some nwt ∧
      Function.update sampleRegistry "pwt"
        (some (normalizeTokens [[1, 3], [0, 0]] none)) target = some pwt ∧
      pwt = normalizeTokens nwt ((none : Option String).bind sampleRegistry) ∧
      pwt.length = nwt.length ∧
      ∀ row ∈ pwt, row ≠ [] → (∀ w ∈ row, 0 ≤ w) ∧ row.sum = 1) ∧
    (∀ (nwt_row : List ℚ) (rwt_row : Option (List ℚ)),
      (tokenContributions nwt_row rwt_row).sum ≤ 0 →
      normalizeToken nwt_row rwt_row =
        List.replicate nwt_row.length (1 / (nwt_row.length : ℚ)))) :=
  ⟨rfl, by norm_num [normalizeTokens, normalizeToken, tokenContributions],
    C14_normalize_distribution sampleRegistry _
      { nwt_source_name := some "nwt_hat", pwt_target_name := some "pwt" } rfl⟩

/-! ## Default scores -/

/-- C21. `fixScoreLevel`: when the score list or the final-score list is not empty it sets
score_level to 0 and changes nothing else, so both lists stay as they are; otherwise it
leaves score_level (and every other option) as it is and fills the two lists from the
level: score is empty for a level <= 0, Perplexity, SparsityPhi, SparsityTheta for the
levels 1 and 2, and those three followed by TopicKernel for a level >= 3; final_score is
empty for a level <= 1 and TopTokens, ThetaSnippet for a level >= 2. The default lists grow
with the level: for two option sets without scores, the lists of the lower level are
initial segments of the lists of the higher level. -/
theorem C21_fixScoreLevel_defaults {F : Type} (options other : artm_options F) :
    ((options.score ≠ [] ∨ options.final_score ≠ []) →
      fixScoreLevel options = { options with score_level := 0 } ∧
      (fixScoreLevel options).score_level = 0 ∧
      (fixScoreLevel options).score = options.score ∧
      (fixScoreLevel options).final_score = options.final_score) ∧
    ((options.score = [] ∧ options.final_score = []) →
      fixScoreLevel options =
        { options with
          score := (fixScoreLevel options).score
          final_score := (fixScoreLevel options).final_score } ∧
      (fixScoreLevel options).score_level = options.score_level ∧
      (options.score_level ≤ 0 → (fixScoreLevel options).score = []) ∧
      (options.score_level = 1 ∨ options.score_level = 2 →
        (fixScoreLevel options).score = ["Perplexity", "SparsityPhi", "SparsityTheta"]) ∧
      (3 ≤ options.score_level →
        (fixScoreLevel options).score =
          ["Perplexity", "SparsityPhi", "SparsityTheta", "TopicKernel"]) ∧
      (options.score_level ≤ 1 → (fixScoreLevel options).final_score = []) ∧
      (2 ≤ options.score_level →
        (fixScoreLevel options).final_score = ["TopTokens", "ThetaSnippet"])) ∧
    ((options.score = [] ∧ options.final_score = []) →
      (other.score = [] ∧ other.final_score = []) →
      options.score_level ≤ other.score_level →
      (fixScoreLevel options).score <+: (fixScoreLevel other).score ∧
      (fixScoreLevel options).final_score <+: (fixScoreLevel other).final_score) := by
  have hfill : ∀ o : artm_options F, o.score = [] ∧ o.final_score = [] →
      fixScoreLevel o =
        { o with
          score :=
            if o.score_level ≥ 3 then
              ["Perplexity", "SparsityPhi", "SparsityTheta", "TopicKernel"]
            else if o.score_level ≥ 1 then ["Perplexity", "SparsityPhi", "SparsityTheta"]
            else []
          final_score := if o.score_level ≥ 2 then ["TopTokens", "ThetaSnippet"] else [] } := by
    intro o ho
    have hcond : ¬ (o.score ≠ [] ∨ o.final_score ≠ []) := by
      rw [ho.1, ho.2]
      simp
    unfold fixScoreLevel
    rw [if_neg hcond]
    simp only [ho.1, ho.2, List.nil_append]
    by_cases h3 : o.score_level ≥ 3
    · have h1 : o.score_level ≥ 1 := by omega
      simp only [h3, h1, if_true, List.cons_append, List.nil_append]
    · simp only [h3, if_false]
  refine ⟨?_, ?_, ?_⟩
  · intro h
    have hfix : fixScoreLevel options = { options with score_level := 0 } := by
      unfold fixScoreLevel
      rw [if_pos h]
    refine ⟨hfix, ?_, ?_, ?_⟩ <;> rw [hfix]
  · intro h
    rw [hfill options h]
    refine ⟨rfl, rfl, ?_, ?_, ?_, ?_, ?_⟩
    · intro hl
      have h3 : ¬ options.score_level ≥ 3 := by omega
      have h1 : ¬ options.score_level ≥ 1 := by omega
      simp only [h3, h1, if_false]
    · intro hl
      have h3 : ¬ options.score_level ≥ 3 := by omega
      have h1 : options.score_level ≥ 1 := by omega
      simp only [h3, h1, if_false, if_true]
    · intro hl
      have h3 : options.score_level ≥ 3 := hl
      simp only [h3, if_true]
    · intro hl
      have h2 : ¬ options.score_level ≥ 2 := by omega
      simp only [h2, if_false]
    · intro hl
      have h2 : options.score_level ≥ 2 := hl
      simp only [h2, if_true]
  · intro h hother hle
    rw [hfill options h, hfill other hother]
    simp only []
    constructor
    · by_cases a3 : options.score_level ≥ 3
      · have b3 : other.score_level ≥ 3 := by omega
        simp only [a3, b3, if_true]
        exact List.prefix_refl _
      · by_cases a1 : options.score_level ≥ 1
        · by_cases b3 : other.score_level ≥ 3
          · simp only [a3, a1, b3, if_true, if_false]
            exact ⟨["TopicKernel"], rfl⟩
          · have b1 : other.score_level ≥ 1 := by omega
            simp only [a3, a1, b3, b1, if_true, if_false]
            exact List.prefix_refl _
        · simp only [a3, a1, if_false]
          exact List.nil_prefix
    · by_cases a2 : options.score_level ≥ 2
      · have b2 : other.score_level ≥ 2 := by omega
        simp only [a2, b2, if_true]
        exact List.prefix_refl _
      · simp only [a2, if_false]
        exact List.nil_prefix

/-- C21 at the levels 1 and 3 of a run without scores, and at a run with one score. -/
theorem C21_fixScoreLevel_defaults_witness :
    (fixScoreLevel { sampleOptions with score_level := 1, score := [], final_score := [] }).score
        <+: (fixScoreLevel
          { sampleOptions with score_level := 3, score := [], final_score := [] }).score ∧
    (fixScoreLevel { sampleOptions with score_level := 3, score := [], final_score := [] }).score
      = ["Perplexity", "SparsityPhi", "SparsityTheta", "TopicKernel"] ∧
    (fixScoreLevel
      { sampleOptions with score_level := 3, score := [], final_score := [] }).final_score
      = ["TopTokens", "ThetaSnippet"] ∧
    (fixScoreLevel
      { sampleOptions with score_level := 3, score := ["TopTokens"], final_score := [] }).score
      = ["TopTokens"] ∧
    (fixScoreLevel
      { sampleOptions with
        score_level := 3, score := ["TopTokens"], final_score := [] }).score_level = 0 :=
  ⟨((C21_fixScoreLevel_defaults
      { sampleOptions with score_level := 1, score := [], final_score := [] }
      { sampleOptions with score_level := 3, score := [], final_score := [] }).2.2
      ⟨rfl, rfl⟩ ⟨rfl, rfl⟩ (by decide)).1,
    by decide, by decide, by decide, by decide⟩

end

end Bigartm
